import Mathlib

/-!
The delphioracle contract: medians rollup, calendar engine and daily averages.

A shallow embedding of `src/src/delphioracle.cpp` and
`src/include/delphioracle/custom_ctime.hpp`.

Conventions of the embedding

* `time_point` values are natural numbers of seconds.  Every value the contract stores
  or passes comes from `current_time_point().sec_since_epoch()` (a `uint32_t`) or from
  a `time_point_sec` (which holds a `uint32_t`), so they are never negative; where the
  source subtracts (`select_time_value -= seconds(..)`) the comparison is carried out
  over `Int`.
* `uint64_t` arithmetic is written with an explicit `% 2 ^ 64`, `uint32_t`
  with `% 2 ^ 32`.
* `time_t` arithmetic is carried out on natural numbers, as for a `time_t` that is wide
  enough for the clock plus the 20-day bias.  For clock values below `2 ^ 31 - 1728000`
  nothing depends on the width of `time_t`; the statements about the calendar engine
  (`gmtime`, `mktime`) use such clock values only.
* A multi-index table is the list of its rows in primary-key order; the
  secondary index `"timestamp"` iterates the rows by ascending
  `(timestamp, id)`.
* A failed `check`, a `modify` through an `end()` iterator, a dereference of
  `begin()` of an empty vector and an integer division by zero all end the
  transaction: the embedding returns `none`.
-/

namespace delphioracle

/-! ## Constants and records -/

/-- The granularities `median_types` of the medians table: the four values the source
switches on. -/
inductive median_types where
  | day
  | current_week
  | week
  | month
deriving DecidableEq

/-- The trailing-average windows `average_types`. -/
inductive average_types where
  | last_7_days
  | last_14_days
  | last_30_days
  | last_45_days
deriving DecidableEq

/-- Table `limits`: number of slots per granularity. -/
def limits : median_types → Nat
  | .day => 1
  | .current_week => 1
  | .week => 4
  | .month => 12

/-- Table `time_consts`: bucket duration in seconds per granularity. -/
def time_consts : median_types → Nat
  | .day => 86400
  | .current_week => 86400 * 7
  | .week => 86400 * 7
  | .month => 86400 * 7 * 4

/-- Table `average_number_of_days`. -/
def average_number_of_days : average_types → Nat
  | .last_7_days => 7
  | .last_14_days => 14
  | .last_30_days => 30
  | .last_45_days => 45

/-- An account or pair name (`eosio::name`, a 64-bit value). -/
abbrev name := Nat

/-- The value of `name("tlosusd")`, the canonical reference pair. -/
def tlosusd : name := 14729459504580132864

/-- The constant `NULL_TIME_POINT` (zero microseconds since the epoch). -/
def NULL_TIME_POINT : Nat := 0

/-- Conversion to `uint64_t`. -/
def u64 (n : Nat) : Nat := n % 2 ^ 64

/-- The constructor `time_point_sec(uint32_t)`: the argument is converted to 32 bits. -/
def time_point_sec (s : Nat) : Nat := s % 2 ^ 32

/-- A row of the medians table (`TABLE medians`), with the fields the source reads and
writes.  The field `type` holds `medians::get_type(type)`, kept here as the granularity
itself. -/
structure medians where
  id : Nat
  type : median_types
  value : Nat
  request_count : Nat
  timestamp : Nat
deriving DecidableEq

/-- The default-constructed row `medians()`. -/
def medians.default : medians :=
  { id := 0, type := .day, value := 0, request_count := 0, timestamp := NULL_TIME_POINT }

/-- A row of the daily datapoints table. -/
structure dailydatapoints where
  id : Nat
  value : Nat
  timestamp : Nat
deriving DecidableEq

/-- A row of the averages table: one trailing average of a pair. -/
structure averages where
  id : Nat
  type : average_types
  value : Nat
  timestamp : Nat
deriving DecidableEq

/-- An element of the argument `quotes` of the action `write`. -/
structure quote where
  value : Nat
  pair : name
deriving DecidableEq

/-! ## custom_ctime -/

/-- The fields of `struct tm` that the calendar engine uses. -/
structure tm where
  tm_sec : Nat
  tm_min : Nat
  tm_hour : Nat
  tm_mday : Nat
  tm_mon : Nat
  tm_year : Nat
  tm_yday : Nat
deriving DecidableEq

/-- The map `custom_ctime::months` (month index to length in days). -/
def months (i : Nat) : Nat :=
  [31, 28, 31, 30, 31, 30, 31, 31, 30, 31, 30, 31].getD i 0

/-- The loop `for (auto i = 0; i != 11; ++i)` of `gmtime`: `left` iterations remain,
`i` is the month index, `days_in_year` the running day count.  The result is
`(tm_mon, tm_mday)`; when the loop ends without a `break` both fields keep the
zero of `new tm()`. -/
def gmtime_month_loop : Nat → Nat → Nat → Nat × Nat
  | 0, _, _ => (0, 0)
  | left + 1, i, days_in_year =>
    if days_in_year < months i then (i, days_in_year)
    else gmtime_month_loop left (i + 1) (days_in_year - months i)

/-- The function `custom_ctime::gmtime`; `none` is the null pointer. -/
def gmtime (_Time : Option Nat) : Option tm :=
  match _Time with
  | none => none
  | some t =>
    let timestamp_year := t / 31536000
    let count_leap_year := timestamp_year / 4
    let temp_time := t - count_leap_year * 86400
    let tm_year := temp_time / 31536000 + 70
    let temp_time := temp_time % 31536000
    let tm_yday := temp_time / 86400
    let temp_time := temp_time % 86400
    let tm_hour := temp_time / 3600
    let temp_time := temp_time % 3600
    let tm_min := temp_time / 60
    let temp_time := temp_time % 60
    let tm_sec := temp_time
    let md := gmtime_month_loop 11 0 (tm_yday + 1)
    some { tm_sec := tm_sec, tm_min := tm_min, tm_hour := tm_hour, tm_mday := md.2,
           tm_mon := md.1, tm_year := tm_year, tm_yday := tm_yday }

/-- The function `custom_ctime::mktime`; `none` is the null pointer.  Every `tm` the
contract passes has `tm_year ≥ 70`. -/
def mktime (_Tm : Option tm) : Nat :=
  match _Tm with
  | none => 0
  | some d =>
    let count_years_after_timestamp := d.tm_year - 70
    let count_leap_year := count_years_after_timestamp / 4
    count_years_after_timestamp * 31536000 + count_leap_year * 86400 + d.tm_yday * 86400
      + d.tm_hour * 3600 + d.tm_min * 60 + d.tm_sec

/-! ## Bucket boundaries -/

/-- The function `get_round_up_current_time`: `active` is the member
`_is_active_current_week_cashe`, `now` is `current_time_point().sec_since_epoch()`.
The `check` on the result of `gmtime` cannot fail, `gmtime` being given the address of a
local; its branch is the `none` case below. -/
def get_round_up_current_time (active : Bool) (now : Nat) (type : median_types) : Nat :=
  let current_time_sec := if !active then now + time_consts .day * 20 else now
  let get_type_time : Nat :=
    let remainder := current_time_sec % time_consts type
    time_point_sec (current_time_sec - remainder)
  let get_type_month : Nat :=
    match gmtime (some current_time_sec) with
    | none => NULL_TIME_POINT
    | some struct_current_time =>
      let struct_current_time :=
        { struct_current_time with tm_sec := 0, tm_min := 0, tm_hour := 0, tm_mday := 1 }
      let current_time := mktime (some struct_current_time)
      time_point_sec current_time
  match type with
  | .day => get_type_time
  | .current_week => get_type_time
  | .week => get_type_time
  | .month => if active then get_type_month else get_type_time

/-- The function `is_in_time_range`.  The source calls it with three arguments where the
last one keeps its default; the header that declares the default is not among the
sources, and the spec gives it as `use_previous_bucket = false`.  The two `check`s on the
results of `gmtime` cannot fail; their branch is the last case of the inner `match`. -/
def is_in_time_range (active : Bool) (type : median_types) (start_time_range time_value : Nat)
    (is_previous_value : Bool) : Bool :=
  let is_in_time_consts_range : Bool :=
    let select_time_value : Int :=
      if is_previous_value then (time_value : Int) - (time_consts type : Int) else (time_value : Int)
    let end_time_range : Int := (start_time_range : Int) + (time_consts type : Int)
    decide ((start_time_range : Int) ≤ select_time_value) && decide (select_time_value < end_time_range)
  let is_in_time_month_range : Bool :=
    match gmtime (some (time_value % 2 ^ 32)), gmtime (some (start_time_range % 2 ^ 32)) with
    | some struct_current_time, some struct_start_time_range =>
      decide (struct_start_time_range.tm_year = struct_current_time.tm_year)
        && decide (struct_start_time_range.tm_mon = struct_current_time.tm_mon)
        && decide (struct_start_time_range.tm_mday ≤ struct_current_time.tm_mday)
    | _, _ => false
  match type with
  | .day => is_in_time_consts_range
  | .current_week => is_in_time_consts_range
  | .week => is_in_time_consts_range
  | .month => if active then is_in_time_month_range else is_in_time_consts_range

/-! ## Tables -/

/-- The medians table of one pair (`medianstable`), rows in primary-key order. -/
abbrev medianstable := List medians

/-- Lookup by primary key, `medians_table.find(id)`; `none` is `end()`. -/
def medianstable.find (t : medianstable) (id : Nat) : Option medians :=
  List.find? (fun m => decide (m.id = id)) t

/-- In-place update of the row with primary key `id`, `medians_table.modify(itr, payer, f)`. -/
def medianstable.modify (t : medianstable) (id : Nat) (f : medians → medians) : medianstable :=
  List.map (fun m => if m.id = id then f m else m) t

/-- The next free primary key, `medians_table.available_primary_key()`. -/
def medianstable.available_primary_key (t : medianstable) : Nat :=
  List.foldl (fun k m => max k (m.id + 1)) 0 t

/-- Insertion of a new row, `medians_table.emplace(payer, ..)`. -/
def medianstable.emplace (t : medianstable) (m : medians) : medianstable :=
  t ++ [m]

/-- Order of the secondary index `"timestamp"` of the medians table: ascending
secondary key, rows with equal keys in primary-key order.  The key extractor is declared in
the header, which is not among the sources; the spec describes the index as an index by
`timestamp`. -/
def medians.by_timestamp_le (a b : medians) : Prop :=
  a.timestamp < b.timestamp ∨ (a.timestamp = b.timestamp ∧ a.id ≤ b.id)

instance medians.by_timestamp_le_decidable : DecidableRel medians.by_timestamp_le :=
  fun a b => inferInstanceAs
    (Decidable (a.timestamp < b.timestamp ∨ (a.timestamp = b.timestamp ∧ a.id ≤ b.id)))

instance medians.by_timestamp_le_total : IsTotal medians medians.by_timestamp_le :=
  ⟨fun a b => by unfold medians.by_timestamp_le; omega⟩

instance medians.by_timestamp_le_trans : IsTrans medians medians.by_timestamp_le :=
  ⟨fun a b c h1 h2 => by unfold medians.by_timestamp_le at *; omega⟩

/-- Iteration of `medians_table.get_index<"timestamp"_n>()` from `begin()` to `end()`. -/
def medianstable.timestamp_index (t : medianstable) : List medians :=
  List.insertionSort medians.by_timestamp_le t

/-- The vector `short_medians_elements` of `update_medians_by_types`: the rows of one
granularity in the order of the timestamp index. -/
def short_medians_elements (type : median_types) (t : medianstable) : List medians :=
  List.filter (fun m => decide (m.type = type)) t.timestamp_index

/-- The function `GetUpdateMedians`: the granularities a closing bucket is carried into. -/
def GetUpdateMedians (active : Bool) : median_types → List median_types
  | .day => if active then [.current_week, .month] else [.week]
  | .current_week => [.week]
  | .week => if active then [] else [.month]
  | .month => []

/-- The function `update_medians_by_types` on the medians table of one pair.  The
first argument bounds the depth of the recursion; `active` is
`_is_active_current_week_cashe` and `now` the clock.  The arguments `owner` and
`pair` of the source only choose the payer and the table and are left out. -/
def update_medians_by_types : Nat → Bool → Nat → median_types → medianstable → Nat → Nat → Nat →
    Option medianstable
  | 0, _, _, _, _, _, _, _ => none
  | fuel + 1, active, now, type, t, median_timestamp, median_value, median_request_count =>
    let elems := short_medians_elements type t
    let short_medians_index :=
      elems.find? (fun e => is_in_time_range active type e.timestamp median_timestamp false)
    if type = .week ∧ active = true then
      match elems.head? with
      | none => none
      | some first =>
        match t.find first.id with
        | none => none
        | some _ =>
          some (t.modify first.id (fun obj =>
            { obj with value := median_value, request_count := median_request_count,
                       timestamp := median_timestamp }))
    else
      match short_medians_index with
      | some e =>
        match t.find e.id with
        | none => none
        | some _ =>
          some (t.modify e.id (fun obj =>
            { obj with value := u64 (obj.value + median_value),
                       request_count := u64 (obj.request_count + median_request_count) }))
      | none =>
        match elems.head? with
        | none => none
        | some first =>
          match t.find first.id with
          | none => none
          | some update_itr =>
            let prev_short_medians_index :=
              elems.find? (fun e => is_in_time_range active type e.timestamp median_timestamp true)
            let temp : Option (Nat × Nat × Nat) :=
              match prev_short_medians_index with
              | none => some (update_itr.value, update_itr.timestamp, update_itr.request_count)
              | some p =>
                match t.find p.id with
                | none => none
                | some prev_medians_itr =>
                  some (prev_medians_itr.value, prev_medians_itr.timestamp,
                    prev_medians_itr.request_count)
            match temp with
            | none => none
            | some (temp_medians_value, temp_medians_timestamp, temp_medians_request_count) =>
              let t1 := t.modify first.id (fun obj =>
                { obj with value := median_value, request_count := median_request_count,
                           timestamp := get_round_up_current_time active now type })
              if temp_medians_value ≠ 0 ∧ temp_medians_request_count ≠ 0 then
                List.foldlM (fun tbl ty =>
                    update_medians_by_types fuel active now ty tbl temp_medians_timestamp
                      temp_medians_value temp_medians_request_count)
                  t1 (GetUpdateMedians active type)
              else some t1

/-- The contract state read and written by the rollup engine. -/
structure State where
  /-- The singleton `flagmedians`, read by `is_medians_active()`. -/
  is_medians_active : Bool
  /-- The member `_is_active_current_week_cashe`. -/
  is_active_current_week_cashe : Bool
  /-- The clock, `current_time_point().sec_since_epoch()`. -/
  now : Nat
  /-- The medians tables, one per scope (pair). -/
  medians_tables : name → medianstable
  /-- The daily datapoints tables, one per scope (pair). -/
  dailydatapoints_tables : name → List dailydatapoints
  /-- The field `daily_datapoints_per_instrument` of the global row. -/
  daily_datapoints_per_instrument : Nat
  /-- The names of the rows of the pairs table, in the order of iteration. -/
  pairs : List name
  /-- The field `active` of the rows of the pairs table, by name. -/
  pairs_active : name → Bool
  /-- The field `last_daily_average_run` of the global row. -/
  last_daily_average_run : Int
  /-- The field `daily_average_timeout` of the global row. -/
  daily_average_timeout : Int
  /-- The averages tables, one per scope (pair). -/
  averages_tables : name → List averages

/-- The function `is_active_current_week`: does the pair `tlosusd` hold a
`current_week` row. -/
def is_active_current_week (st : State) : Bool :=
  List.any (st.medians_tables tlosusd) (fun m => decide (m.type = .current_week))

/-- The function `update_medians`; the pair iterator is given by the pair name.  The call
of `update_medians_by_types` leaves `median_request_count` to its default; the header that
declares the default is not among the sources, and the spec gives it as `count = 1`. -/
def update_medians (st : State) (_owner : name) (value : Nat) (pair : name) : Option State :=
  if !st.is_medians_active then some st
  else
    let st1 := { st with is_active_current_week_cashe := is_active_current_week st }
    let medians_table := st1.medians_tables pair
    if medians_table.length > 0 then
      match update_medians_by_types 4 st1.is_active_current_week_cashe st1.now .day medians_table
          (get_round_up_current_time st1.is_active_current_week_cashe st1.now .day) value 1 with
      | none => none
      | some t => some { st1 with medians_tables := Function.update st1.medians_tables pair t }
    else some st1

/-- The loop of `make_records_for_medians_table`: `need_make_elements` calls of `emplace`. -/
def make_records_loop (type : median_types) (default_median : medians) :
    Nat → medianstable → medianstable
  | 0, t => t
  | n + 1, t =>
    make_records_loop type default_median n
      (t.emplace { id := t.available_primary_key, type := type, value := default_median.value,
                   request_count := default_median.request_count,
                   timestamp := default_median.timestamp })

/-- The function `make_records_for_medians_table`. -/
def make_records_for_medians_table (st : State) (type : median_types) (pair : name) (_payer : name)
    (default_median : medians) : State :=
  if !st.is_medians_active then st
  else
    let medians_table := st.medians_tables pair
    let count_type_elements := List.countP (fun m => decide (m.type = type)) medians_table
    if count_type_elements ≠ limits type then
      let need_make_elements := limits type - count_type_elements
      let t := make_records_loop type default_median need_make_elements medians_table
      { st with medians_tables := Function.update st.medians_tables pair t }
    else st

/-! ## Daily datapoints and trailing averages -/

/-- Order of the secondary index `"timestamp"` of the daily datapoints table. -/
def dailydatapoints.by_timestamp_le (a b : dailydatapoints) : Prop :=
  a.timestamp < b.timestamp ∨ (a.timestamp = b.timestamp ∧ a.id ≤ b.id)

instance dailydatapoints.by_timestamp_le_decidable : DecidableRel dailydatapoints.by_timestamp_le :=
  fun a b => inferInstanceAs
    (Decidable (a.timestamp < b.timestamp ∨ (a.timestamp = b.timestamp ∧ a.id ≤ b.id)))

instance dailydatapoints.by_timestamp_le_total :
    IsTotal dailydatapoints dailydatapoints.by_timestamp_le :=
  ⟨fun a b => by unfold dailydatapoints.by_timestamp_le; omega⟩

instance dailydatapoints.by_timestamp_le_trans :
    IsTrans dailydatapoints dailydatapoints.by_timestamp_le :=
  ⟨fun a b c h1 h2 => by unfold dailydatapoints.by_timestamp_le at *; omega⟩

/-- Iteration of `daily_datapoints_table.get_index<"timestamp"_n>()` from `begin()` to `end()`. -/
def daily_timestamp_index (t : List dailydatapoints) : List dailydatapoints :=
  List.insertionSort dailydatapoints.by_timestamp_le t

/-- In-place update of the daily datapoint with primary key `id`. -/
def daily_modify (t : List dailydatapoints) (id : Nat) (f : dailydatapoints → dailydatapoints) :
    List dailydatapoints :=
  List.map (fun d => if d.id = id then f d else d) t

/-- The next free primary key of the daily datapoints table. -/
def daily_available_primary_key (t : List dailydatapoints) : Nat :=
  List.foldl (fun k d => max k (d.id + 1)) 0 t

/-- The function `get_daily_median`.  The outer `none` is the trap of the integer division
by a zero `request_count`; the inner option is the returned `std::optional`. -/
def get_daily_median (st : State) (instrument : name) : Option (Option (Nat × Nat)) :=
  let medians_timestamp_index := (st.medians_tables instrument).timestamp_index
  match List.find? (fun m => decide (m.type = .day)) medians_timestamp_index.reverse with
  | some daily_median =>
    if daily_median.request_count = 0 then none
    else some (some (daily_median.timestamp, daily_median.value / daily_median.request_count))
  | none => some none

/-- The function `update_daily_datapoints`. -/
def update_daily_datapoints (st : State) (instrument : name) : Option State :=
  match get_daily_median st instrument with
  | none => none
  | some none => some st
  | some (some daily_median) =>
    let daily_datapoints_table := st.dailydatapoints_tables instrument
    let daily_datapoints_timestamp_index := daily_timestamp_index daily_datapoints_table
    let count := daily_datapoints_timestamp_index.length
    let write (t : List dailydatapoints) : Option State :=
      some { st with dailydatapoints_tables := Function.update st.dailydatapoints_tables instrument t }
    let otherwise : Option State :=
      if count > st.daily_datapoints_per_instrument then
        match daily_datapoints_timestamp_index.head? with
        | none => none
        | some first =>
          write (daily_modify daily_datapoints_table first.id (fun datapoint =>
            { datapoint with value := daily_median.2, timestamp := daily_median.1 }))
      else
        write (daily_datapoints_table ++
          [{ id := daily_available_primary_key daily_datapoints_table, value := daily_median.2,
             timestamp := daily_median.1 }])
    match daily_datapoints_timestamp_index.getLast? with
    | some last_datapoint =>
      if last_datapoint.timestamp = daily_median.1 then
        write (daily_modify daily_datapoints_table last_datapoint.id (fun datapoint =>
          { datapoint with value := daily_median.2 }))
      else otherwise
    | none => otherwise

/-- Conversion of a 64-bit unsigned value to `int` (32 bits, two's complement). -/
def to_int32 (n : Nat) : Int :=
  if n % 2 ^ 32 < 2 ^ 31 then ((n % 2 ^ 32 : Nat) : Int) else ((n % 2 ^ 32 : Nat) : Int) - 2 ^ 32

/-- Conversion of an `int` to `uint64_t`. -/
def int_to_u64 (i : Int) : Nat := (i % 2 ^ 64).toNat

/-- The function `compute_last_days_average` on the daily datapoints table of the
instrument.  `std::accumulate` is called with the initial value `0`, an `int`: every
partial sum `prev + data_point.value` is computed in 64 bits and stored back into
the `int` accumulator, and the final division is a division of `int`s. -/
def compute_last_days_average (daily_datapoints_table : List dailydatapoints) (days : Nat) : Nat :=
  let daily_datapoints_timestamp_index := daily_timestamp_index daily_datapoints_table
  let days := min (days % 2 ^ 8) (daily_datapoints_timestamp_index.length % 2 ^ 8)
  if days = 0 then 0
  else
    let range := List.take days daily_datapoints_timestamp_index.reverse
    let sum : Int :=
      List.foldl (fun prev data_point => to_int32 (u64 (int_to_u64 prev + data_point.value))) 0 range
    int_to_u64 (Int.tdiv sum (days : Int))

/-- One iteration of the loop of `update_averages`: the average of one window is computed
and stored in the entry of that window, which is created when the pair has none. -/
def update_averages_entry (now : Nat) (daily_datapoints_table : List dailydatapoints)
    (averages_table : List averages) (type : average_types) : List averages :=
  let days := average_number_of_days type
  let average := compute_last_days_average daily_datapoints_table days
  match List.find? (fun entry => decide (entry.type = type)) averages_table with
  | none =>
    averages_table ++
      [{ id := List.foldl (fun k e => max k (e.id + 1)) 0 averages_table, type := type,
         value := average, timestamp := now }]
  | some average_entry =>
    List.map (fun entry =>
      if entry.id = average_entry.id then { entry with value := average, timestamp := now }
      else entry) averages_table

/-- The function `update_averages`: the map `average_number_of_days` is visited in the
order of its keys. -/
def update_averages (st : State) (instrument : name) : State :=
  let averages_table :=
    List.foldl (update_averages_entry st.now (st.dailydatapoints_tables instrument))
      (st.averages_tables instrument)
      [.last_7_days, .last_14_days, .last_30_days, .last_45_days]
  { st with averages_tables := Function.update st.averages_tables instrument averages_table }

/-! ## The action `write` -/

/-- Conversion of an integer to `int32_t` (two's complement). -/
def int32_of_int (i : Int) : Int := to_int32 (i % 2 ^ 32).toNat

/-- The end of the loop body of `write` (lines 94 to 108): the rate-limited daily rollup.
Both sides of the comparison are `int32_t`. -/
def write_daily_average (st : State) (pair : name) : Option State :=
  let next_run_sec : Int := int32_of_int (st.last_daily_average_run + st.daily_average_timeout)
  let current_time_sec : Int := to_int32 st.now
  if current_time_sec > next_run_sec then
    let st := { st with last_daily_average_run := current_time_sec }
    match update_daily_datapoints st pair with
    | none => none
    | some st => some (update_averages st pair)
  else some st

/-- The `check` of lines 65 to 67: the quoted pair is a row of the pairs table and that row
is active. -/
def write_pair_allowed (st : State) (q : quote) : Bool :=
  decide (q.pair ∈ st.pairs) && st.pairs_active q.pair

/-- The loop body of `write` for one quote without its last block (lines 94 to 108): the
check that the pair is allowed and the call of `update_medians`.  The statements in between
(`check_last_push`, the bounty, `update_datapoints`) call helpers that are not among the
sources and write tables that are not part of `State`. -/
def write_quote_medians (st : State) (owner : name) (q : quote) : Option State :=
  if write_pair_allowed st q then update_medians st owner q.value q.pair
  else none

/-- The loop body of `write` for one quote: the check that the pair is allowed, the call of
`update_medians` and the rate-limited daily rollup. -/
def write_quote (st : State) (owner : name) (q : quote) : Option State :=
  match write_quote_medians st owner q with
  | none => none
  | some st => write_daily_average st q.pair

/-- The action `write`: the quotes are processed in order at one clock reading.  The
`check` on `check_oracle(owner)` calls a helper that is not among the sources; the owner is
taken to be a qualified oracle. -/
def write (st : State) (owner : name) (quotes : List quote) : Option State :=
  if quotes.length > 0 then List.foldlM (fun s q => write_quote s owner q) st quotes
  else none

/-! ## The action `updtversion` -/

/-- The row update of the last loop of `updtversion` (lines 911 to 916): the 20-day bias is
subtracted from a non-null timestamp in `uint32_t` arithmetic. -/
def updtversion_erase_bias_row (obj : medians) : medians :=
  if obj.timestamp ≠ NULL_TIME_POINT then
    { obj with timestamp :=
        (obj.timestamp % 2 ^ 32 + 2 ^ 32 - time_consts .day * 20 % 2 ^ 32) % 2 ^ 32 }
  else obj

/-- The last loop of `updtversion` (lines 910 to 917), which visits every row of the table
of the pair once. -/
def updtversion_erase_bias (t : medianstable) : medianstable :=
  List.map updtversion_erase_bias_row t

/-- Modelled from the spec: the content of the local `temp_current_week` of `updtversion`
before any assignment.  It is declared without an initializer and the header that defines
`medians` is not among the sources; the spec takes the carried totals to be zero when no
week bucket is found. -/
def temp_current_week_initial : medians := medians.default

/-- The search of the first two loops of `updtversion`: the first row of the timestamp index
that has the given granularity and whose window contains `get_round_up_current_time(day)`. -/
def updtversion_find (active : Bool) (now : Nat) (type : median_types) (t : medianstable) :
    Option medians :=
  List.find? (fun m => decide (m.type = type)
      && is_in_time_range active type m.timestamp (get_round_up_current_time active now .day) false)
    t.timestamp_index

/-- The content of the local `temp_current_week` after the first loop of `updtversion`. -/
def updtversion_carried (active : Bool) (now : Nat) (t : medianstable) : medians :=
  match updtversion_find active now .week t with
  | some itr => itr
  | none => temp_current_week_initial

/-- The first loop of `updtversion` (lines 883 to 894) on the table of the pair: the week
row that was found is zeroed in place. -/
def updtversion_zero_week (active : Bool) (now : Nat) (t : medianstable) : medianstable :=
  match updtversion_find active now .week t with
  | some itr =>
    t.modify itr.id (fun obj =>
      { obj with value := 0, request_count := 0, timestamp := NULL_TIME_POINT })
  | none => t

/-- The second loop of `updtversion` (lines 896 to 906) on the table of the pair: the totals
of `temp_current_week` are added to the month row that was found. -/
def updtversion_fold_month (active : Bool) (now : Nat) (temp_current_week : medians)
    (t : medianstable) : medianstable :=
  match updtversion_find active now .month t with
  | some itr =>
    t.modify itr.id (fun obj =>
      { obj with value := u64 (obj.value + temp_current_week.value),
                 request_count := u64 (obj.request_count + temp_current_week.request_count) })
  | none => t

/-- The body of the loop over the pairs in `updtversion`.  The member
`_is_active_current_week_cashe` is read as it stands, the action does not refresh it. -/
def updtversion_pair (st : State) (pair : name) : State :=
  let active := st.is_active_current_week_cashe
  let medians_table := st.medians_tables pair
  let temp_current_week := updtversion_carried active st.now medians_table
  let medians_table := updtversion_zero_week active st.now medians_table
  let medians_table := updtversion_fold_month active st.now temp_current_week medians_table
  let st := { st with medians_tables := Function.update st.medians_tables pair medians_table }
  let st := make_records_for_medians_table st .current_week pair 0 temp_current_week
  let medians_table := updtversion_erase_bias (st.medians_tables pair)
  { st with medians_tables := Function.update st.medians_tables pair medians_table }

/-- The action `updtversion`; `none` is the rejection by one of its two `check`s. -/
def updtversion (st : State) : Option State :=
  if !st.is_medians_active then none
  else if is_active_current_week st then none
  else some (List.foldl updtversion_pair st st.pairs)

/-! ## Example states -/

/-- The four calls of `make_records_for_medians_table` made when a pair is created
(`newbounty`, `configure`) or repaired (`makemedians`). -/
def provision_medians (st : State) (pair payer : name) : State :=
  let st := make_records_for_medians_table st .day pair payer medians.default
  let st := make_records_for_medians_table st .current_week pair payer medians.default
  let st := make_records_for_medians_table st .week pair payer medians.default
  make_records_for_medians_table st .month pair payer medians.default

/-- A state with the engine switched on, no table yet, a ring capacity of 5 and the clock at
`1700000000`. -/
def example_empty : State :=
  { is_medians_active := true
    is_active_current_week_cashe := false
    now := 1700000000
    medians_tables := fun _ => []
    dailydatapoints_tables := fun _ => []
    daily_datapoints_per_instrument := 5
    pairs := []
    pairs_active := fun _ => true
    last_daily_average_run := 0
    daily_average_timeout := 3600
    averages_tables := fun _ => [] }

/-- Scenario A after its first step: the pair `tlosusd` is provisioned and the value
100 has been submitted. -/
def scenario_A_after_100 : State :=
  (update_medians (provision_medians example_empty tlosusd 0) 0 100 tlosusd).getD example_empty

/-- The state of Scenario A after its first step, with the medians engine switched off. -/
def scenario_A_switched_off : State :=
  { scenario_A_after_100 with is_medians_active := false }

/-- Scenario B: under the legacy scheme the Day bucket holds 300 / 2 for the last day
of the week that starts at `1701302400`. -/
def scenario_B_table : medianstable :=
  [ { id := 0, type := .day, value := 300, request_count := 2, timestamp := 1701820800 },
    { id := 2, type := .week, value := 1000, request_count := 10, timestamp := 1701302400 },
    { id := 6, type := .month, value := 0, request_count := 0, timestamp := 0 } ]

/-- A pair of the legacy scheme one week after its first weekly rollover: slot 2 holds
the week that starts at `1701302400`, slot 3 has never been written. -/
def second_rollover_table : medianstable :=
  [ { id := 2, type := .week, value := 1000, request_count := 10, timestamp := 1701302400 },
    { id := 3, type := .week, value := 0, request_count := 0, timestamp := 0 },
    { id := 6, type := .month, value := 0, request_count := 0, timestamp := 0 } ]

/-- Scenario C: a ring that holds exactly `daily_datapoints_per_instrument = 5` daily
points (days 1 to 5) while the Day bucket of the pair is stamped with day 6. -/
def scenario_C : State :=
  { is_medians_active := true
    is_active_current_week_cashe := true
    now := 600000
    medians_tables := fun _ =>
      [{ id := 0, type := .day, value := 700, request_count := 7, timestamp := 518400 }]
    dailydatapoints_tables := fun _ =>
      [ { id := 0, value := 10, timestamp := 86400 },
        { id := 1, value := 20, timestamp := 172800 },
        { id := 2, value := 30, timestamp := 259200 },
        { id := 3, value := 40, timestamp := 345600 },
        { id := 4, value := 50, timestamp := 432000 } ]
    daily_datapoints_per_instrument := 5
    pairs := [tlosusd]
    pairs_active := fun _ => true
    last_daily_average_run := 0
    daily_average_timeout := 3600
    averages_tables := fun _ => [] }

/-- The empty state with the medians engine switched off. -/
def example_switched_off : State :=
  { example_empty with is_medians_active := false }

/-- A state in which the pair `tlosusd`, an active row of the pairs table, has just been
provisioned and the medians engine has then been switched off; the daily rollup is due. -/
def example_provisioned_switched_off : State :=
  { provision_medians example_empty tlosusd 0 with is_medians_active := false, pairs := [tlosusd] }

/-- A state of the legacy scheme before the migration: the pair `tlosusd` holds a Day
bucket, two week buckets, two month buckets and no `current_week` bucket; all stored
timestamps carry the 20-day bias. -/
def example_legacy : State :=
  { is_medians_active := true
    is_active_current_week_cashe := false
    now := 1700000000
    medians_tables := fun p =>
      if p = tlosusd then
        [ { id := 0, type := .day, value := 300, request_count := 2, timestamp := 1701648000 },
          { id := 1, type := .week, value := 1000, request_count := 10, timestamp := 1701302400 },
          { id := 2, type := .week, value := 7, request_count := 1, timestamp := 1700697600 },
          { id := 3, type := .month, value := 5000, request_count := 50, timestamp := 1700697600 },
          { id := 4, type := .month, value := 0, request_count := 0, timestamp := 0 } ]
      else []
    dailydatapoints_tables := fun _ => []
    daily_datapoints_per_instrument := 5
    pairs := [tlosusd]
    pairs_active := fun _ => true
    last_daily_average_run := 0
    daily_average_timeout := 3600
    averages_tables := fun _ => [] }

/-- The legacy example after `updtversion`. -/
def example_migrated : State :=
  (updtversion example_legacy).getD example_legacy

/-- Scenario C after the daily rollup at the end of the loop body of `write`. -/
def scenario_C_after_rollup : State :=
  (write_daily_average scenario_C tlosusd).getD scenario_C

/-- A legacy state whose clock stands in the first day of the epoch: the only week bucket of
`tlosusd` is stamped `1209600`, the biased week start for that clock. -/
def example_legacy_epoch : State :=
  { example_empty with
    now := 0
    pairs := [tlosusd]
    medians_tables := fun p =>
      if p = tlosusd then
        [ { id := 0, type := .week, value := 1000, request_count := 10, timestamp := 1209600 } ]
      else [] }

/-- A state in which every pair holds one Day bucket with the given timestamp, 700 over 7
quotes. -/
def with_day_bucket (timestamp : Nat) (st : State) : State :=
  { st with medians_tables := fun _ =>
      [{ id := 0, type := .day, value := 700, request_count := 7, timestamp := timestamp }] }

/-- The empty state after a daily rollup with the Day bucket stamped `1728000`. -/
def daily_ring_after_one : State :=
  (update_daily_datapoints (with_day_bucket 1728000 example_empty) tlosusd).getD example_empty

/-- A state in which every pair holds one Day bucket with the given timestamp, value and
count. -/
def with_day_bucket_holding (timestamp value request_count : Nat) (st : State) : State :=
  { st with medians_tables := fun _ =>
      [{ id := 0, type := .day, value := value, request_count := request_count,
         timestamp := timestamp }] }

/-- The state after a second daily rollup, a day later, with the Day bucket stamped
`1814400`. -/
def daily_ring_after_two : State :=
  (update_daily_datapoints (with_day_bucket 1814400 daily_ring_after_one) tlosusd).getD
    example_empty

/-- The value of `name("tloseos")`, a second pair of the examples. -/
def tloseos : name := 14729450647820697600

/-- A state with the pairs `tlosusd` and `tloseos`, both active, the medians engine switched
off, the clock 648 seconds before `2 ^ 31`, the timer at 0 and a cooldown of 3600 seconds. -/
def example_timer_wrap : State :=
  { example_switched_off with now := 2147483000, pairs := [tlosusd, tloseos] }

/-- A state with the pairs `tlosusd` and `tloseos`, both active and provisioned, the medians
engine switched on, the clock at `1700000000`, the timer at 0 and a cooldown of 3600
seconds. -/
def example_two_pairs : State :=
  { provision_medians (provision_medians example_empty tlosusd 0) tloseos 0 with
    pairs := [tlosusd, tloseos] }

/-! ## Notions used in the statements -/

/-- Two tables agree outside the granularities in `S`: rows correspond one to one,
keep their primary key and granularity, and a row whose granularity is not in `S`
is unchanged. -/
def frame (S : median_types → Prop) (t t' : medianstable) : Prop :=
  List.Forall₂ (fun m m' => m'.id = m.id ∧ m'.type = m.type ∧ (¬ S m.type → m' = m)) t t'

/-- The sum of a field (the value or the count) over the rows of one granularity. -/
def total (field : medians → Nat) (type : median_types) (t : medianstable) : Nat :=
  List.sum (List.map field (List.filter (fun m => decide (m.type = type)) t))

/-- The granularities that a call of `update_medians_by_types` for a granularity can
write to: the granularity itself and everything `GetUpdateMedians` leads to. -/
def reach (active : Bool) : median_types → List median_types
  | .day => if active then [.day, .current_week, .week, .month] else [.day, .week, .month]
  | .current_week => if active then [.current_week, .week] else [.current_week, .week, .month]
  | .week => if active then [.week] else [.week, .month]
  | .month => [.month]

/-- The length of the longest chain of recursive calls of `update_medians_by_types`
that starts at a granularity. -/
def height (active : Bool) : median_types → Nat
  | .day => 3
  | .current_week => if active then 2 else 3
  | .week => if active then 1 else 2
  | .month => 1

/-- The granularities for which `update_medians_by_types` is called in one cascade in which
every level rolls over with non-zero totals, in the order of the calls and down to the given
depth of recursion: the granularity itself, followed by the cascades of the granularities
of `GetUpdateMedians`. -/
def cascade_calls : Nat → Bool → median_types → List median_types
  | 0, _, _ => []
  | depth + 1, active, g =>
    g :: (List.map (cascade_calls depth active) (GetUpdateMedians active g)).flatten

/-- The daily datapoints tables of an instrument that can be reached from the empty table by
calls of `update_daily_datapoints` in which the timestamp of the incoming daily median is not
earlier than any stored timestamp.  Between two calls everything but the table itself may
change. -/
inductive daily_ring_reachable (instrument : name) : List dailydatapoints → Prop where
  | empty : daily_ring_reachable instrument []
  | step (st st' : State) (ts v : Nat) :
      daily_ring_reachable instrument (st.dailydatapoints_tables instrument) →
      get_daily_median st instrument = some (some (ts, v)) →
      (∀ d ∈ st.dailydatapoints_tables instrument, d.timestamp ≤ ts) →
      update_daily_datapoints st instrument = some st' →
      daily_ring_reachable instrument (st'.dailydatapoints_tables instrument)

/-! # Theorems -/

/-! ## Tables: lookup and update -/

theorem medianstable.find_some {t : medianstable} {i : Nat} {m : medians}
    (h : t.find i = some m) : m ∈ t ∧ m.id = i := by
  unfold medianstable.find at h
  exact ⟨List.mem_of_find?_eq_some h, by simpa using List.find?_some h⟩

theorem medianstable.find_of_mem {t : medianstable} (hids : (t.map (fun m => m.id)).Nodup)
    {m : medians} (hm : m ∈ t) : t.find m.id = some m := by
  induction t with
  | nil => cases hm
  | cons a t ih =>
    rw [List.map_cons, List.nodup_cons] at hids
    rcases List.mem_cons.1 hm with rfl | hmt
    · simp [medianstable.find]
    · have hne : a.id ≠ m.id := by
        intro he
        exact hids.1 (he ▸ List.mem_map_of_mem (fun m => m.id) hmt)
      have := ih hids.2 hmt
      simpa [medianstable.find, hne] using this

theorem medianstable.find_isSome_of_mem {t : medianstable} {m : medians} (hm : m ∈ t) :
    ∃ r, t.find m.id = some r := by
  induction t with
  | nil => cases hm
  | cons a t ih =>
    by_cases ha : a.id = m.id
    · exact ⟨a, by simp [medianstable.find, ha]⟩
    · rcases List.mem_cons.1 hm with rfl | hmt
      · exact absurd rfl ha
      · obtain ⟨r, hr⟩ := ih hmt
        exact ⟨r, by simpa [medianstable.find, ha] using hr⟩

theorem medianstable.mem_timestamp_index {t : medianstable} {m : medians} :
    m ∈ t.timestamp_index ↔ m ∈ t := by
  unfold medianstable.timestamp_index
  exact List.mem_insertionSort _

theorem mem_short_medians_elements {g : median_types} {t : medianstable} {m : medians} :
    m ∈ short_medians_elements g t ↔ m ∈ t ∧ m.type = g := by
  simp [short_medians_elements, medianstable.mem_timestamp_index]

theorem frame_refl (S : median_types → Prop) (t : medianstable) : frame S t t := by
  unfold frame
  induction t with
  | nil => exact List.Forall₂.nil
  | cons a t ih => exact List.Forall₂.cons ⟨rfl, rfl, fun _ => rfl⟩ ih

theorem frame_trans {S : median_types → Prop} {t t' t'' : medianstable}
    (h : frame S t t') (h' : frame S t' t'') : frame S t t'' := by
  unfold frame at *
  induction h generalizing t'' with
  | nil => cases h'; exact List.Forall₂.nil
  | cons hab _ ih =>
    cases h' with
    | cons hbc hrest =>
      refine List.Forall₂.cons ⟨hbc.1.trans hab.1, hbc.2.1.trans hab.2.1, fun hn => ?_⟩ (ih hrest)
      have e1 := hab.2.2 hn
      have hn' := hn
      rw [← hab.2.1] at hn'
      exact (hbc.2.2 hn').trans e1

theorem frame_mono {S S' : median_types → Prop} {t t' : medianstable}
    (hS : ∀ g, S g → S' g) (h : frame S t t') : frame S' t t' := by
  unfold frame at *
  exact List.Forall₂.imp (fun _ _ hab => ⟨hab.1, hab.2.1, fun hn => hab.2.2 (fun hs => hn (hS _ hs))⟩) h

theorem frame_modify {S : median_types → Prop} {t : medianstable} {i : Nat} {f : medians → medians}
    (hrow : ∀ m ∈ t, m.id = i → S m.type)
    (hf : ∀ m, (f m).id = m.id ∧ (f m).type = m.type) : frame S t (t.modify i f) := by
  unfold frame medianstable.modify
  induction t with
  | nil => exact List.Forall₂.nil
  | cons a t ih =>
    refine List.Forall₂.cons ?_ (ih (fun m hm => hrow m (List.mem_cons_of_mem _ hm)))
    by_cases ha : a.id = i
    · show (if a.id = i then f a else a).id = a.id ∧ (if a.id = i then f a else a).type = a.type
        ∧ (¬ S a.type → (if a.id = i then f a else a) = a)
      rw [if_pos ha]
      exact ⟨(hf a).1, (hf a).2, fun hn => absurd (hrow a (List.mem_cons_self _ _) ha) hn⟩
    · show (if a.id = i then f a else a).id = a.id ∧ (if a.id = i then f a else a).type = a.type
        ∧ (¬ S a.type → (if a.id = i then f a else a) = a)
      rw [if_neg ha]
      exact ⟨rfl, rfl, fun _ => rfl⟩

theorem frame_ids {S : median_types → Prop} {t t' : medianstable} (h : frame S t t') :
    t'.map (fun m => m.id) = t.map (fun m => m.id) := by
  unfold frame at h
  induction h with
  | nil => rfl
  | cons hab _ ih => simp [hab.1, ih]

theorem frame_types {S : median_types → Prop} {t t' : medianstable} (h : frame S t t') :
    t'.map (fun m => m.type) = t.map (fun m => m.type) := by
  unfold frame at h
  induction h with
  | nil => rfl
  | cons hab _ ih => simp [hab.2.1, ih]

theorem frame_length {S : median_types → Prop} {t t' : medianstable} (h : frame S t t') :
    t'.length = t.length := by
  simpa using congrArg List.length (frame_ids h)

theorem frame_mem {S : median_types → Prop} {t t' : medianstable} (h : frame S t t')
    {m : medians} (hm : ¬ S m.type) : m ∈ t ↔ m ∈ t' := by
  unfold frame at h
  induction h with
  | nil => simp
  | @cons a b l l' hab _ ih =>
    constructor
    · intro hmem
      rcases List.mem_cons.1 hmem with rfl | hmem
      · rw [hab.2.2 hm]; exact List.mem_cons_self _ _
      · exact List.mem_cons_of_mem _ (ih.1 hmem)
    · intro hmem
      rcases List.mem_cons.1 hmem with rfl | hmem
      · have : ¬ S a.type := by rw [← hab.2.1]; exact hm
        rw [hab.2.2 this]; exact List.mem_cons_self _ _
      · exact List.mem_cons_of_mem _ (ih.2 hmem)

theorem frame_countP {S : median_types → Prop} {t t' : medianstable} (h : frame S t t')
    (g : median_types) :
    List.countP (fun m => decide (m.type = g)) t' = List.countP (fun m => decide (m.type = g)) t := by
  have e := frame_types h
  have h1 : ∀ l : medianstable, List.countP (fun m => decide (m.type = g)) l
      = List.countP (fun x => decide (x = g)) (l.map (fun m => m.type)) := by
    intro l
    rw [List.countP_map]
    rfl
  rw [h1, h1, e]

theorem frame_nodup {S : median_types → Prop} {t t' : medianstable} (h : frame S t t')
    (hids : (t.map (fun m => m.id)).Nodup) : (t'.map (fun m => m.id)).Nodup := by
  rw [frame_ids h]; exact hids

theorem reach_self (active : Bool) (g : median_types) : g ∈ reach active g := by
  cases g <;> cases active <;> decide

theorem reach_step (active : Bool) (g g' x : median_types) (hg : g' ∈ GetUpdateMedians active g)
    (hx : x ∈ reach active g') : x ∈ reach active g := by
  revert hg hx
  cases g <;> cases g' <;> cases x <;> cases active <;> decide

theorem reach_acyclic (active : Bool) (g g' : median_types) (hg : g' ∈ GetUpdateMedians active g) :
    g ∉ reach active g' := by
  revert hg
  cases g <;> cases g' <;> cases active <;> decide

/-- A row update through a primary key taken from `short_medians_elements` changes
only a row of that granularity. -/
theorem frame_modify_elem {t : medianstable} (hids : (t.map (fun m => m.id)).Nodup)
    {g : median_types} {e : medians} (he : e ∈ short_medians_elements g t)
    {f : medians → medians} (hf : ∀ m, (f m).id = m.id ∧ (f m).type = m.type) :
    frame (fun x => x = g) t (t.modify e.id f) := by
  refine frame_modify (fun m hm hid => ?_) hf
  have he' := mem_short_medians_elements.1 he
  have h1 := medianstable.find_of_mem hids hm
  have h2 := medianstable.find_of_mem hids he'.1
  rw [hid] at h1
  rw [h1] at h2
  cases h2
  exact he'.2

theorem foldlM_frame {S : median_types → Prop} (step : medianstable → median_types → Option medianstable)
    (l : List median_types)
    (hstep : ∀ g ∈ l, ∀ t t', (t.map (fun m => m.id)).Nodup → step t g = some t' → frame S t t') :
    ∀ t t', (t.map (fun m => m.id)).Nodup → List.foldlM step t l = some t' → frame S t t' := by
  induction l with
  | nil =>
    intro t t' _ h
    simp [List.foldlM] at h
    subst h
    exact frame_refl S t
  | cons a l ih =>
    intro t t' hids h
    rw [List.foldlM_cons] at h
    cases h1 : step t a with
    | none => rw [h1] at h; cases h
    | some t1 =>
      rw [h1] at h
      have f1 := hstep a (List.mem_cons_self _ _) t t1 hids h1
      have f2 := ih (fun g hg => hstep g (List.mem_cons_of_mem _ hg)) t1 t' (frame_nodup f1 hids) h
      exact frame_trans f1 f2

theorem update_medians_by_types_frame (fuel : Nat) : ∀ (active : Bool) (now : Nat) (g : median_types)
    (t : medianstable) (T v c : Nat) (t' : medianstable),
    (t.map (fun m => m.id)).Nodup →
    update_medians_by_types fuel active now g t T v c = some t' →
    frame (fun x => x ∈ reach active g) t t' := by
  induction fuel with
  | zero => intro active now g t T v c t' _ h; simp [update_medians_by_types] at h
  | succ fuel ih =>
    intro active now g t T v c t' hids h
    have hself : ∀ x, x = g → x ∈ reach active g := fun x hx => hx ▸ reach_self active g
    have hmod : ∀ (e : medians) (f : medians → medians), e ∈ short_medians_elements g t →
        (∀ m, (f m).id = m.id ∧ (f m).type = m.type) →
        frame (fun x => x ∈ reach active g) t (t.modify e.id f) :=
      fun e f he hf => frame_mono hself (frame_modify_elem hids he hf)
    rw [update_medians_by_types] at h
    simp only at h
    split at h
    · -- frozen week
      split at h
      · cases h
      · rename_i first hfirst
        split at h
        · cases h
        · cases h
          exact hmod first _ (List.mem_of_mem_head? hfirst) (fun m => ⟨rfl, rfl⟩)
    · split at h
      · rename_i e he
        split at h
        · cases h
        · cases h
          exact hmod e _ (List.mem_of_find?_eq_some he) (fun m => ⟨rfl, rfl⟩)
      · split at h
        · cases h
        · rename_i first hfirst
          split at h
          · cases h
          · split at h
            · cases h
            · have f1 := hmod first (fun obj =>
                { obj with value := v, request_count := c,
                           timestamp := get_round_up_current_time active now g })
                (List.mem_of_mem_head? hfirst) (fun m => ⟨rfl, rfl⟩)
              split at h
              · refine frame_trans f1 ?_
                refine foldlM_frame _ _ (fun g' hg' t2 t3 hids2 hstep => ?_) _ _ (frame_nodup f1 hids) h
                exact frame_mono (fun x hx => reach_step active g g' x hg' hx) (ih _ _ _ _ _ _ _ _ hids2 hstep)
              · cases h
                exact f1

theorem height_step (active : Bool) (g g' : median_types) (hg : g' ∈ GetUpdateMedians active g) :
    height active g' < height active g := by
  revert hg
  cases g <;> cases g' <;> cases active <;> decide

theorem height_pos (active : Bool) (g : median_types) : 0 < height active g := by
  cases g <;> cases active <;> decide

theorem foldlM_some (step : medianstable → median_types → Option medianstable)
    (P : medianstable → Prop) (l : List median_types)
    (hstep : ∀ g ∈ l, ∀ t, P t → ∃ t', step t g = some t' ∧ P t') :
    ∀ t, P t → ∃ t', List.foldlM step t l = some t' := by
  induction l with
  | nil => intro t _; exact ⟨t, by simp [List.foldlM]⟩
  | cons a l ih =>
    intro t ht
    obtain ⟨t1, h1, hP1⟩ := hstep a (List.mem_cons_self _ _) t ht
    obtain ⟨t2, h2⟩ := ih (fun g hg => hstep g (List.mem_cons_of_mem _ hg)) t1 hP1
    exact ⟨t2, by rw [List.foldlM_cons, h1]; exact h2⟩

theorem short_medians_elements_head {g : median_types} {t : medianstable}
    (hg : g ∈ t.map (fun m => m.type)) : ∃ first, (short_medians_elements g t).head? = some first := by
  obtain ⟨m, hm, hty⟩ := List.mem_map.1 hg
  have : m ∈ short_medians_elements g t := mem_short_medians_elements.2 ⟨hm, hty⟩
  cases hl : short_medians_elements g t with
  | nil => rw [hl] at this; cases this
  | cons a l => exact ⟨a, rfl⟩

theorem update_medians_by_types_some (fuel : Nat) : ∀ (active : Bool) (now : Nat) (g : median_types)
    (t : medianstable) (T v c : Nat),
    height active g ≤ fuel →
    (t.map (fun m => m.id)).Nodup →
    (∀ x ∈ reach active g, x ∈ t.map (fun m => m.type)) →
    ∃ t', update_medians_by_types fuel active now g t T v c = some t' := by
  induction fuel with
  | zero =>
    intro active now g t T v c hh _ _
    have := height_pos active g
    omega
  | succ fuel ih =>
    intro active now g t T v c hh hids hall
    obtain ⟨first, hfirst⟩ := short_medians_elements_head (hall g (reach_self active g))
    have hfirst_mem : first ∈ t := (mem_short_medians_elements.1 (List.mem_of_mem_head? hfirst)).1
    obtain ⟨r, hr⟩ := medianstable.find_isSome_of_mem hfirst_mem
    rw [update_medians_by_types]
    simp only [hfirst, hr]
    split
    · exact ⟨_, rfl⟩
    · split
      · rename_i e he
        have he_mem : e ∈ t := (mem_short_medians_elements.1 (List.mem_of_find?_eq_some he)).1
        obtain ⟨r', hr'⟩ := medianstable.find_isSome_of_mem he_mem
        rw [hr']
        exact ⟨_, rfl⟩
      · split
        · rename_i htemp
          split at htemp
          · cases htemp
          · rename_i p hp
            have hp_mem : p ∈ t := (mem_short_medians_elements.1 (List.mem_of_find?_eq_some hp)).1
            obtain ⟨r', hr'⟩ := medianstable.find_isSome_of_mem hp_mem
            rw [hr'] at htemp
            cases htemp
        · split
          · have f1 : frame (fun x => x = g) t (t.modify first.id (fun obj =>
                { obj with value := v, request_count := c,
                           timestamp := get_round_up_current_time active now g })) :=
              frame_modify_elem hids (List.mem_of_mem_head? hfirst) (fun m => ⟨rfl, rfl⟩)
            refine foldlM_some _ (fun t2 => (t2.map (fun m => m.id)).Nodup
                ∧ t2.map (fun m => m.type) = t.map (fun m => m.type)) _ (fun g' hg' t2 ht2 => ?_) _
              ⟨frame_nodup f1 hids, frame_types f1⟩
            have hlt := height_step active g g' hg'
            obtain ⟨t3, h3⟩ := ih active now g' t2 _ _ _ (by omega) ht2.1
              (fun x hx => by rw [ht2.2]; exact hall x (reach_step active g g' x hg' hx))
            have f3 := update_medians_by_types_frame fuel active now g' t2 _ _ _ t3 ht2.1 h3
            exact ⟨t3, h3, frame_nodup f3 ht2.1, (frame_types f3).trans ht2.2⟩
          · exact ⟨_, rfl⟩

/-! ## Order of the timestamp index -/

theorem medians.by_timestamp_le_refl (a : medians) : medians.by_timestamp_le a a :=
  Or.inr ⟨rfl, Nat.le_refl _⟩

theorem short_medians_elements_pairwise (g : median_types) (t : medianstable) :
    (short_medians_elements g t).Pairwise medians.by_timestamp_le := by
  unfold short_medians_elements medianstable.timestamp_index
  exact List.Pairwise.filter _ (List.sorted_insertionSort medians.by_timestamp_le t)

theorem pairwise_head_le {l : List medians} (hl : l.Pairwise medians.by_timestamp_le)
    {a : medians} (ha : l.head? = some a) : ∀ x ∈ l, medians.by_timestamp_le a x := by
  cases l with
  | nil => cases ha
  | cons b l =>
    cases ha
    intro x hx
    rcases List.mem_cons.1 hx with rfl | hx
    · exact medians.by_timestamp_le_refl _
    · exact List.rel_of_pairwise_cons hl hx

theorem pairwise_find_le {l : List medians} (hl : l.Pairwise medians.by_timestamp_le)
    {p : medians → Bool} {b : medians} (hb : l.find? p = some b) :
    ∀ x ∈ l, p x = true → medians.by_timestamp_le b x := by
  induction l with
  | nil => cases hb
  | cons a l ih =>
    intro x hx hpx
    by_cases hpa : p a = true
    · rw [List.find?_cons_of_pos _ hpa] at hb
      cases hb
      exact pairwise_head_le hl rfl x hx
    · rw [List.find?_cons_of_neg _ hpa] at hb
      rcases List.mem_cons.1 hx with rfl | hx
      · exact absurd hpx hpa
      · exact ih (List.Pairwise.of_cons hl) hb x hx hpx

theorem medianstable.modify_ids (t : medianstable) (i : Nat) (f : medians → medians)
    (hf : ∀ m, (f m).id = m.id) :
    (t.modify i f).map (fun m => m.id) = t.map (fun m => m.id) := by
  unfold medianstable.modify
  rw [List.map_map]
  apply List.map_congr_left
  intro m _
  show (if m.id = i then f m else m).id = m.id
  split
  · exact hf m
  · rfl

theorem medianstable.find_modify_self {t : medianstable} (hids : (t.map (fun m => m.id)).Nodup)
    {b : medians} (hb : b ∈ t) (f : medians → medians) (hf : ∀ m, (f m).id = m.id) :
    (t.modify b.id f).find b.id = some (f b) := by
  have hids' : ((t.modify b.id f).map (fun m => m.id)).Nodup := by
    rw [medianstable.modify_ids t b.id f hf]; exact hids
  have hmem : f b ∈ t.modify b.id f := by
    unfold medianstable.modify
    refine List.mem_map.2 ⟨b, hb, ?_⟩
    simp
  have := medianstable.find_of_mem hids' hmem
  rw [hf b] at this
  exact this

theorem medianstable.find_modify_other {t : medianstable} (hids : (t.map (fun m => m.id)).Nodup)
    {i : Nat} {m : medians} (hm : m ∈ t) (hne : m.id ≠ i) (f : medians → medians)
    (hf : ∀ m, (f m).id = m.id) :
    (t.modify i f).find m.id = some m := by
  have hids' : ((t.modify i f).map (fun m => m.id)).Nodup := by
    rw [medianstable.modify_ids t i f hf]; exact hids
  have hmem : m ∈ t.modify i f := by
    unfold medianstable.modify
    refine List.mem_map.2 ⟨m, hm, ?_⟩
    simp [hne]
  exact medianstable.find_of_mem hids' hmem

/-- The branch of `update_medians_by_types` taken when a bucket of the granularity
contains the incoming timestamp: the first such bucket of the timestamp index
accumulates the incoming value and count, and no other row changes. -/
theorem update_medians_by_types_found (fuel : Nat) (active : Bool) (now : Nat) (g : median_types)
    (t : medianstable) (T v c : Nat)
    (hgen : ¬ (g = .week ∧ active = true))
    (hids : (t.map (fun m => m.id)).Nodup)
    (hex : ∃ b ∈ t, b.type = g ∧ is_in_time_range active g b.timestamp T false = true) :
    ∃ b ∈ t, b.type = g ∧ is_in_time_range active g b.timestamp T false = true
      ∧ (∀ x ∈ t, x.type = g → is_in_time_range active g x.timestamp T false = true →
          medians.by_timestamp_le b x)
      ∧ update_medians_by_types (fuel + 1) active now g t T v c
          = some (t.modify b.id (fun obj =>
              { obj with value := u64 (obj.value + v),
                         request_count := u64 (obj.request_count + c) })) := by
  obtain ⟨b0, hb0, hb0g, hb0r⟩ := hex
  have hsome : ((short_medians_elements g t).find?
      (fun e => is_in_time_range active g e.timestamp T false)).isSome = true := by
    rw [List.find?_isSome]
    exact ⟨b0, mem_short_medians_elements.2 ⟨hb0, hb0g⟩, hb0r⟩
  obtain ⟨b, hb⟩ := Option.isSome_iff_exists.1 hsome
  have hbmem := mem_short_medians_elements.1 (List.mem_of_find?_eq_some hb)
  have hbr : is_in_time_range active g b.timestamp T false = true :=
    @List.find?_some medians (fun e => is_in_time_range active g e.timestamp T false) _ _ hb
  refine ⟨b, hbmem.1, hbmem.2, hbr, ?_, ?_⟩
  · intro x hx hxg hxr
    exact pairwise_find_le (short_medians_elements_pairwise g t) hb x
      (mem_short_medians_elements.2 ⟨hx, hxg⟩) hxr
  · rw [update_medians_by_types]
    simp only [hb, if_neg hgen, medianstable.find_of_mem hids hbmem.1]

theorem frame_find {S : median_types → Prop} {t t' : medianstable} (h : frame S t t')
    (hids : (t.map (fun m => m.id)).Nodup) {m : medians} (hm : m ∈ t) (hS : ¬ S m.type) :
    t'.find m.id = some m :=
  medianstable.find_of_mem (frame_nodup h hids) ((frame_mem h hS).1 hm)

/-- The loop over `GetUpdateMedians` at the end of a rollover returns, and writes only to
granularities strictly above the one that rolled over. -/
theorem cascade_some_frame (fuel : Nat) (active : Bool) (now : Nat) (g : median_types)
    (t1 : medianstable) (tt tv tc : Nat)
    (hh : height active g ≤ fuel + 1)
    (hids : (t1.map (fun m => m.id)).Nodup)
    (hall : ∀ x ∈ reach active g, x ∈ t1.map (fun m => m.type)) :
    ∃ t', List.foldlM (fun tbl ty => update_medians_by_types fuel active now ty tbl tt tv tc) t1
        (GetUpdateMedians active g) = some t'
      ∧ frame (fun x => ∃ g' ∈ GetUpdateMedians active g, x ∈ reach active g') t1 t' := by
  obtain ⟨t', ht'⟩ := foldlM_some
    (fun tbl ty => update_medians_by_types fuel active now ty tbl tt tv tc)
    (fun t2 => (t2.map (fun m => m.id)).Nodup ∧ t2.map (fun m => m.type) = t1.map (fun m => m.type))
    (GetUpdateMedians active g)
    (fun g' hg' t2 ht2 => by
      have hlt := height_step active g g' hg'
      obtain ⟨t3, h3⟩ := update_medians_by_types_some fuel active now g' t2 tt tv tc (by omega) ht2.1
        (fun x hx => by rw [ht2.2]; exact hall x (reach_step active g g' x hg' hx))
      have f3 := update_medians_by_types_frame fuel active now g' t2 _ _ _ t3 ht2.1 h3
      exact ⟨t3, h3, frame_nodup f3 ht2.1, (frame_types f3).trans ht2.2⟩)
    t1 ⟨hids, rfl⟩
  refine ⟨t', ht', ?_⟩
  exact foldlM_frame _ _ (fun g' hg' t2 t3 hids2 hstep =>
    frame_mono (fun x hx => ⟨g', hg', hx⟩)
      (update_medians_by_types_frame fuel active now g' t2 _ _ _ t3 hids2 hstep)) t1 t' hids ht'

/-- The branch of `update_medians_by_types` taken when no bucket of the granularity
contains the incoming timestamp. -/
theorem update_medians_by_types_rollover (fuel : Nat) (active : Bool) (now : Nat)
    (g : median_types) (t : medianstable) (T v c : Nat)
    (hgen : ¬ (g = .week ∧ active = true))
    (hids : (t.map (fun m => m.id)).Nodup)
    (hroll : ∀ m ∈ t, m.type = g → is_in_time_range active g m.timestamp T false = false)
    (first : medians) (hfirst : (short_medians_elements g t).head? = some first) :
    ∃ p ∈ t, p.type = g
      ∧ (p = first ∨ is_in_time_range active g p.timestamp T true = true)
      ∧ update_medians_by_types (fuel + 1) active now g t T v c
        = if p.value ≠ 0 ∧ p.request_count ≠ 0 then
            List.foldlM (fun tbl ty =>
                update_medians_by_types fuel active now ty tbl p.timestamp p.value p.request_count)
              (t.modify first.id (fun obj =>
                { obj with value := v, request_count := c,
                           timestamp := get_round_up_current_time active now g }))
              (GetUpdateMedians active g)
          else some (t.modify first.id (fun obj =>
                { obj with value := v, request_count := c,
                           timestamp := get_round_up_current_time active now g })) := by
  have hfm := mem_short_medians_elements.1 (List.mem_of_mem_head? hfirst)
  have hnone : (short_medians_elements g t).find?
      (fun e => is_in_time_range active g e.timestamp T false) = none := by
    rw [List.find?_eq_none]
    intro x hx
    have hx' := mem_short_medians_elements.1 hx
    simp [hroll x hx'.1 hx'.2]
  cases hprev : (short_medians_elements g t).find?
      (fun e => is_in_time_range active g e.timestamp T true) with
  | none =>
    refine ⟨first, hfm.1, hfm.2, Or.inl rfl, ?_⟩
    rw [update_medians_by_types]
    simp only [hnone, hprev, if_neg hgen, hfirst, medianstable.find_of_mem hids hfm.1]
  | some p =>
    have hpm := mem_short_medians_elements.1 (List.mem_of_find?_eq_some hprev)
    have hpr : is_in_time_range active g p.timestamp T true = true :=
      @List.find?_some medians (fun e => is_in_time_range active g e.timestamp T true) _ _ hprev
    refine ⟨p, hpm.1, hpm.2, Or.inr hpr, ?_⟩
    rw [update_medians_by_types]
    simp only [hnone, hprev, if_neg hgen, hfirst, medianstable.find_of_mem hids hfm.1,
      medianstable.find_of_mem hids hpm.1]

theorem height_le_three (active : Bool) (g : median_types) : height active g ≤ 3 := by
  cases g <;> cases active <;> decide

theorem types_of_capacity {t : medianstable}
    (hcap : ∀ g, List.countP (fun m => decide (m.type = g)) t = limits g) (x : median_types) :
    x ∈ t.map (fun m => m.type) := by
  have hpos : 0 < List.countP (fun m => decide (m.type = x)) t := by
    rw [hcap x]; cases x <;> decide
  obtain ⟨m, hm, hty⟩ := List.countP_pos_iff.1 hpos
  exact List.mem_map.2 ⟨m, hm, by simpa using hty⟩

/-! ## Provisioning, the daily rollup and the migration -/

theorem available_primary_key_gt (t : medianstable) : ∀ m ∈ t, m.id < t.available_primary_key := by
  unfold medianstable.available_primary_key
  have key : ∀ (l : medianstable) (k : Nat),
      k ≤ List.foldl (fun k m => max k (m.id + 1)) k l
      ∧ ∀ m ∈ l, m.id < List.foldl (fun k m => max k (m.id + 1)) k l := by
    intro l
    induction l with
    | nil => intro k; exact ⟨Nat.le_refl _, fun m hm => by cases hm⟩
    | cons a l ih =>
      intro k
      have h := ih (max k (a.id + 1))
      refine ⟨Nat.le_trans (Nat.le_max_left _ _) h.1, fun m hm => ?_⟩
      rcases List.mem_cons.1 hm with rfl | hm
      · exact Nat.lt_of_lt_of_le (Nat.lt_of_lt_of_le (Nat.lt_succ_self _) (Nat.le_max_right k _)) h.1
      · exact h.2 m hm
  exact (key t 0).2

/-- The loop of `make_records_for_medians_table` appends `n` rows of the granularity with the
fields of the default row and fresh primary keys. -/
theorem make_records_loop_spec (type : median_types) (default_median : medians) :
    ∀ (n : Nat) (t : medianstable),
      ∃ created : medianstable,
        make_records_loop type default_median n t = t ++ created
        ∧ created.length = n
        ∧ (∀ m ∈ created, m.type = type ∧ m.value = default_median.value
            ∧ m.request_count = default_median.request_count
            ∧ m.timestamp = default_median.timestamp)
        ∧ ((t.map (fun m => m.id)).Nodup → ((t ++ created).map (fun m => m.id)).Nodup) := by
  intro n
  induction n with
  | zero => intro t; exact ⟨[], by simp [make_records_loop]⟩
  | succ n ih =>
    intro t
    obtain ⟨created, h1, h2, h3, h4⟩ := ih (t.emplace
      ⟨t.available_primary_key, type, default_median.value, default_median.request_count,
        default_median.timestamp⟩)
    refine ⟨(⟨t.available_primary_key, type, default_median.value, default_median.request_count,
        default_median.timestamp⟩ : medians) :: created, ?_, ?_, ?_, ?_⟩
    · rw [make_records_loop, h1]
      simp [medianstable.emplace]
    · simp [h2]
    · intro m hm
      rcases List.mem_cons.1 hm with rfl | hm
      · exact ⟨rfl, rfl, rfl, rfl⟩
      · exact h3 m hm
    · intro hnd
      have hnd' : ((t.emplace
          ⟨t.available_primary_key, type, default_median.value, default_median.request_count,
            default_median.timestamp⟩).map (fun m => m.id)).Nodup := by
        simp only [medianstable.emplace, List.map_append, List.map_cons, List.map_nil]
        rw [List.nodup_append]
        refine ⟨hnd, by simp, ?_⟩
        intro a ha hb
        simp only [List.mem_singleton] at hb
        obtain ⟨m, hm, rfl⟩ := List.mem_map.1 ha
        have := available_primary_key_gt t m hm
        omega
      have := h4 hnd'
      simpa [medianstable.emplace] using this

/-- The table of the pair after `make_records_for_medians_table`, for any default row. -/
theorem make_records_table (st : State) (type : median_types) (pair payer : name)
    (default_median : medians) (hactive : st.is_medians_active = true) :
    ∃ created : medianstable,
      (make_records_for_medians_table st type pair payer default_median).medians_tables pair
        = st.medians_tables pair ++ created
      ∧ created.length
          = limits type - List.countP (fun m => decide (m.type = type)) (st.medians_tables pair)
      ∧ (∀ m ∈ created, m.type = type ∧ m.value = default_median.value
          ∧ m.request_count = default_median.request_count
          ∧ m.timestamp = default_median.timestamp)
      ∧ (((st.medians_tables pair).map (fun m => m.id)).Nodup →
          ((st.medians_tables pair ++ created).map (fun m => m.id)).Nodup) := by
  unfold make_records_for_medians_table
  simp only [hactive, Bool.not_true, Bool.false_eq_true, if_false]
  split
  · obtain ⟨created, h1, h2, h3, h4⟩ := make_records_loop_spec type default_median
      (limits type - List.countP (fun m => decide (m.type = type)) (st.medians_tables pair))
      (st.medians_tables pair)
    exact ⟨created, by simp only [Function.update_same]; exact h1, h2, h3, h4⟩
  · rename_i h
    refine ⟨[], by simp, ?_, fun m hm => absurd hm (List.not_mem_nil m),
      fun hnd => by simpa using hnd⟩
    have : List.countP (fun m => decide (m.type = type)) (st.medians_tables pair) = limits type := by
      simpa using h
    simp [this]

theorem make_records_other (st : State) (type : median_types) (pair payer : name)
    (default_median : medians) (q : name) (hq : q ≠ pair) :
    (make_records_for_medians_table st type pair payer default_median).medians_tables q
      = st.medians_tables q := by
  unfold make_records_for_medians_table
  split
  · rfl
  · simp only
    split
    · simp only [Function.update_noteq hq]
    · rfl

theorem countP_append_created (type g : median_types) (t created : medianstable)
    (hc : ∀ m ∈ created, m.type = type) :
    List.countP (fun m => decide (m.type = g)) (t ++ created)
      = List.countP (fun m => decide (m.type = g)) t + (if type = g then created.length else 0) := by
  rw [List.countP_append]
  congr 1
  split
  · rename_i h
    rw [List.countP_eq_length]
    intro m hm
    simp [hc m hm, h]
  · rename_i h
    rw [List.countP_eq_zero]
    intro m hm
    simp [hc m hm, h]

theorem make_records_scalars (st : State) (type : median_types) (pair payer : name)
    (default_median : medians) :
    (make_records_for_medians_table st type pair payer default_median).is_medians_active
        = st.is_medians_active
    ∧ (make_records_for_medians_table st type pair payer default_median).is_active_current_week_cashe
        = st.is_active_current_week_cashe
    ∧ (make_records_for_medians_table st type pair payer default_median).now = st.now
    ∧ (make_records_for_medians_table st type pair payer default_median).pairs = st.pairs := by
  unfold make_records_for_medians_table
  split
  · exact ⟨rfl, rfl, rfl, rfl⟩
  · simp only
    split <;> exact ⟨rfl, rfl, rfl, rfl⟩

theorem updtversion_pair_scalars (st : State) (q : name) :
    (updtversion_pair st q).is_medians_active = st.is_medians_active
    ∧ (updtversion_pair st q).is_active_current_week_cashe = st.is_active_current_week_cashe
    ∧ (updtversion_pair st q).now = st.now
    ∧ (updtversion_pair st q).pairs = st.pairs := by
  unfold updtversion_pair
  simp only
  exact make_records_scalars _ _ _ _ _

theorem updtversion_pair_other (st : State) (q p : name) (hp : p ≠ q) :
    (updtversion_pair st q).medians_tables p = st.medians_tables p := by
  unfold updtversion_pair
  simp only [Function.update_noteq hp]
  rw [make_records_other _ _ _ _ _ p hp]
  simp only [Function.update_noteq hp]

/-- The table of the pair after the loop body of `updtversion`, in terms of the table before
it: the tables of the other pairs play no part. -/
theorem updtversion_pair_table (st : State) (q : name) (hactive : st.is_medians_active = true) :
    ∃ created : medianstable,
      (updtversion_pair st q).medians_tables q
        = updtversion_erase_bias
            (updtversion_fold_month st.is_active_current_week_cashe st.now
                (updtversion_carried st.is_active_current_week_cashe st.now (st.medians_tables q))
                (updtversion_zero_week st.is_active_current_week_cashe st.now (st.medians_tables q))
              ++ created)
      ∧ created.length
          = limits .current_week
            - List.countP (fun m => decide (m.type = .current_week))
                (updtversion_fold_month st.is_active_current_week_cashe st.now
                  (updtversion_carried st.is_active_current_week_cashe st.now (st.medians_tables q))
                  (updtversion_zero_week st.is_active_current_week_cashe st.now
                    (st.medians_tables q)))
      ∧ (∀ m ∈ created, m.type = .current_week
          ∧ m.value = (updtversion_carried st.is_active_current_week_cashe st.now
              (st.medians_tables q)).value
          ∧ m.request_count = (updtversion_carried st.is_active_current_week_cashe st.now
              (st.medians_tables q)).request_count
          ∧ m.timestamp = (updtversion_carried st.is_active_current_week_cashe st.now
              (st.medians_tables q)).timestamp) := by
  obtain ⟨created, h1, h2, h3, -⟩ := make_records_table
    { st with
      medians_tables := (Function.update st.medians_tables q
        (updtversion_fold_month st.is_active_current_week_cashe st.now
          (updtversion_carried st.is_active_current_week_cashe st.now (st.medians_tables q))
          (updtversion_zero_week st.is_active_current_week_cashe st.now (st.medians_tables q)))) }
    .current_week q 0
    (updtversion_carried st.is_active_current_week_cashe st.now (st.medians_tables q)) hactive
  simp only [Function.update_same] at h1 h2
  refine ⟨created, ?_, h2, h3⟩
  unfold updtversion_pair
  simp only [Function.update_same]
  rw [h1]

theorem updtversion_pair_congr (st st1 : State) (q : name)
    (h1 : st1.is_medians_active = st.is_medians_active)
    (h2 : st1.is_active_current_week_cashe = st.is_active_current_week_cashe)
    (h3 : st1.now = st.now)
    (h4 : st1.medians_tables q = st.medians_tables q) :
    (updtversion_pair st1 q).medians_tables q = (updtversion_pair st q).medians_tables q := by
  unfold updtversion_pair make_records_for_medians_table
  simp only [Function.update_same, h1, h2, h3, h4]
  split
  · simp only [Function.update_same]
  · split
    · simp only [Function.update_same]
    · simp only [Function.update_same]

theorem updtversion_fold_other (ps : List name) : ∀ (st : State) (p : name), p ∉ ps →
    (List.foldl updtversion_pair st ps).medians_tables p = st.medians_tables p := by
  induction ps with
  | nil => intro st p _; rfl
  | cons q ps ih =>
    intro st p hp
    rw [List.foldl_cons, ih _ p (fun h => hp (List.mem_cons_of_mem _ h))]
    exact updtversion_pair_other st q p (fun h => hp (h ▸ List.mem_cons_self _ _))

theorem updtversion_fold_scalars (ps : List name) : ∀ (st : State),
    (List.foldl updtversion_pair st ps).is_medians_active = st.is_medians_active
    ∧ (List.foldl updtversion_pair st ps).is_active_current_week_cashe
        = st.is_active_current_week_cashe
    ∧ (List.foldl updtversion_pair st ps).now = st.now
    ∧ (List.foldl updtversion_pair st ps).pairs = st.pairs := by
  induction ps with
  | nil => intro st; exact ⟨rfl, rfl, rfl, rfl⟩
  | cons q ps ih =>
    intro st
    rw [List.foldl_cons]
    have h := ih (updtversion_pair st q)
    have h' := updtversion_pair_scalars st q
    exact ⟨h.1.trans h'.1, h.2.1.trans h'.2.1, h.2.2.1.trans h'.2.2.1, h.2.2.2.trans h'.2.2.2⟩

theorem updtversion_fold_table (ps : List name) : ∀ (st : State) (p : name), ps.Nodup → p ∈ ps →
    (List.foldl updtversion_pair st ps).medians_tables p
      = (updtversion_pair st p).medians_tables p := by
  induction ps with
  | nil => intro st p _ hp; cases hp
  | cons q ps ih =>
    intro st p hnd hp
    rw [List.nodup_cons] at hnd
    rw [List.foldl_cons]
    by_cases hpq : p = q
    · subst hpq
      exact updtversion_fold_other ps _ p hnd.1
    · have hp' : p ∈ ps := by
        rcases List.mem_cons.1 hp with h | h
        · exact absurd h hpq
        · exact h
      rw [ih _ p hnd.2 hp']
      have hs := updtversion_pair_scalars st q
      exact updtversion_pair_congr st _ p hs.1 hs.2.1 hs.2.2.1 (updtversion_pair_other st q p hpq)

/-- The table of a pair after a successful `updtversion` is the table that the loop body
leaves when it is run for that pair on the state before the action. -/
theorem updtversion_table (st st' : State) (hrun : updtversion st = some st') :
    st.is_medians_active = true ∧ is_active_current_week st = false
    ∧ (∀ p, st.pairs.Nodup → p ∈ st.pairs →
        st'.medians_tables p = (updtversion_pair st p).medians_tables p)
    ∧ (∀ p, p ∉ st.pairs → st'.medians_tables p = st.medians_tables p) := by
  unfold updtversion at hrun
  cases hact : st.is_medians_active with
  | false => simp [hact] at hrun
  | true =>
    cases hcw : is_active_current_week st with
    | true => simp [hact, hcw] at hrun
    | false =>
      simp [hact, hcw] at hrun
      subst hrun
      exact ⟨rfl, rfl, fun p hnd hp => updtversion_fold_table _ st p hnd hp,
        fun p hp => updtversion_fold_other _ st p hp⟩

theorem is_active_current_week_iff (st : State) :
    is_active_current_week st = true
      ↔ ∃ m ∈ st.medians_tables tlosusd, m.type = .current_week := by
  unfold is_active_current_week
  simp [List.any_eq_true]

theorem updtversion_erase_bias_row_fields (m : medians) :
    (updtversion_erase_bias_row m).id = m.id ∧ (updtversion_erase_bias_row m).type = m.type
    ∧ (updtversion_erase_bias_row m).value = m.value
    ∧ (updtversion_erase_bias_row m).request_count = m.request_count := by
  unfold updtversion_erase_bias_row
  split <;> exact ⟨rfl, rfl, rfl, rfl⟩

theorem updtversion_pair_creates_current_week (st : State) (q : name)
    (hactive : st.is_medians_active = true) :
    ∃ m ∈ (updtversion_pair st q).medians_tables q, m.type = .current_week := by
  obtain ⟨created, h1, h2, h3⟩ := updtversion_pair_table st q hactive
  rw [h1]
  by_cases hc : List.countP (fun m => decide (m.type = .current_week))
      (updtversion_fold_month st.is_active_current_week_cashe st.now
        (updtversion_carried st.is_active_current_week_cashe st.now (st.medians_tables q))
        (updtversion_zero_week st.is_active_current_week_cashe st.now (st.medians_tables q))) = 0
  · rw [hc] at h2
    have hlen : created.length = 1 := h2
    cases created with
    | nil => cases hlen
    | cons c rest =>
      refine ⟨updtversion_erase_bias_row c, ?_, ?_⟩
      · unfold updtversion_erase_bias
        exact List.mem_map_of_mem _ (List.mem_append_right _ (List.mem_cons_self _ _))
      · rw [(updtversion_erase_bias_row_fields c).2.1]
        exact (h3 c (List.mem_cons_self _ _)).1
  · have hpos := Nat.pos_of_ne_zero hc
    obtain ⟨m, hm, hty⟩ := List.countP_pos_iff.1 hpos
    refine ⟨updtversion_erase_bias_row m, ?_, ?_⟩
    · unfold updtversion_erase_bias
      exact List.mem_map_of_mem _ (List.mem_append_left _ hm)
    · rw [(updtversion_erase_bias_row_fields m).2.1]
      simpa using hty

theorem updtversion_fold_current_week (ps : List name) : ∀ (st : State),
    st.is_medians_active = true →
    (tlosusd ∈ ps ∨ ∃ m ∈ st.medians_tables tlosusd, m.type = .current_week) →
    ∃ m ∈ (List.foldl updtversion_pair st ps).medians_tables tlosusd, m.type = .current_week := by
  induction ps with
  | nil =>
    intro st _ h
    rcases h with h | h
    · cases h
    · exact h
  | cons q ps ih =>
    intro st hact h
    rw [List.foldl_cons]
    have hact' : (updtversion_pair st q).is_medians_active = true :=
      (updtversion_pair_scalars st q).1.trans hact
    by_cases hq : q = tlosusd
    · subst hq
      exact ih _ hact' (Or.inr (updtversion_pair_creates_current_week st _ hact))
    · rcases h with h | h
      · have : tlosusd ∈ ps := by
          rcases List.mem_cons.1 h with h | h
          · exact absurd h.symm hq
          · exact h
        exact ih _ hact' (Or.inl this)
      · refine ih _ hact' (Or.inr ?_)
        rw [updtversion_pair_other st q tlosusd (fun h => hq h.symm)]
        exact h

theorem update_daily_datapoints_scalars (st st' : State) (pair : name)
    (h : update_daily_datapoints st pair = some st') :
    st'.now = st.now ∧ st'.last_daily_average_run = st.last_daily_average_run
    ∧ st'.daily_average_timeout = st.daily_average_timeout := by
  unfold update_daily_datapoints at h
  split at h
  · cases h
  · cases h; exact ⟨rfl, rfl, rfl⟩
  · simp only at h
    split at h
    · split at h
      · cases h; exact ⟨rfl, rfl, rfl⟩
      · split at h
        · split at h
          · cases h
          · cases h; exact ⟨rfl, rfl, rfl⟩
        · cases h; exact ⟨rfl, rfl, rfl⟩
    · split at h
      · split at h
        · cases h
        · cases h; exact ⟨rfl, rfl, rfl⟩
      · cases h; exact ⟨rfl, rfl, rfl⟩

theorem to_int32_of_lt (n : Nat) (h : n < 2 ^ 31) : to_int32 n = (n : Int) := by
  unfold to_int32
  have h1 : n % 2 ^ 32 = n := Nat.mod_eq_of_lt (by omega)
  rw [h1, if_pos h]

theorem int32_of_int_of_range (i : Int) (h1 : -2 ^ 31 ≤ i) (h2 : i < 2 ^ 31) :
    int32_of_int i = i := by
  unfold int32_of_int to_int32
  have hm : (i % 2 ^ 32).toNat % 2 ^ 32 = (i % 2 ^ 32).toNat := by
    apply Nat.mod_eq_of_lt
    omega
  rw [hm]
  split <;> omega

theorem update_averages_scalars (st : State) (pair : name) :
    (update_averages st pair).now = st.now
    ∧ (update_averages st pair).last_daily_average_run = st.last_daily_average_run
    ∧ (update_averages st pair).daily_average_timeout = st.daily_average_timeout :=
  ⟨rfl, rfl, rfl⟩

/-! ## Sums over a granularity -/

theorem total_nil (field : medians → Nat) (g : median_types) : total field g [] = 0 := rfl

theorem total_cons (field : medians → Nat) (g : median_types) (a : medians) (t : medianstable) :
    total field g (a :: t) = (if a.type = g then field a else 0) + total field g t := by
  unfold total
  by_cases h : a.type = g
  · simp [h]
  · simp [h]

theorem total_append (field : medians → Nat) (g : median_types) (a b : medianstable) :
    total field g (a ++ b) = total field g a + total field g b := by
  induction a with
  | nil => simp [total_nil]
  | cons x a ih => rw [List.cons_append, total_cons, total_cons, ih]; omega

theorem total_map (field : medians → Nat) (g : median_types) (f : medians → medians)
    (hf : ∀ m, (f m).type = m.type ∧ field (f m) = field m) (t : medianstable) :
    total field g (t.map f) = total field g t := by
  induction t with
  | nil => rfl
  | cons x t ih => rw [List.map_cons, total_cons, total_cons, ih, (hf x).1, (hf x).2]

theorem total_frame {S : median_types → Prop} {t t' : medianstable} (h : frame S t t')
    (field : medians → Nat) (g : median_types) (hg : ¬ S g) :
    total field g t' = total field g t := by
  unfold frame at h
  induction h with
  | nil => rfl
  | @cons a b l l' hab _ ih =>
    rw [total_cons, total_cons, ih, hab.2.1]
    by_cases ha : a.type = g
    · have : b = a := hab.2.2 (by rw [ha]; exact hg)
      rw [this]
    · simp [ha]

theorem total_eq_zero (field : medians → Nat) (g : median_types) (t : medianstable)
    (h : ∀ m ∈ t, m.type ≠ g) : total field g t = 0 := by
  induction t with
  | nil => rfl
  | cons x t ih =>
    rw [total_cons, ih (fun m hm => h m (List.mem_cons_of_mem _ hm)),
      if_neg (h x (List.mem_cons_self _ _))]

theorem total_modify (field : medians → Nat) {t : medianstable}
    (hids : (t.map (fun m => m.id)).Nodup) {w : medians} (hw : w ∈ t) (f : medians → medians)
    (hf : ∀ m, (f m).id = m.id ∧ (f m).type = m.type) :
    total field w.type (t.modify w.id f) + field w = total field w.type t + field (f w) := by
  induction t with
  | nil => cases hw
  | cons a t ih =>
    rw [List.map_cons, List.nodup_cons] at hids
    unfold medianstable.modify at ih ⊢
    rw [List.map_cons, total_cons, total_cons]
    rcases List.mem_cons.1 hw with rfl | hwt
    · rw [if_pos rfl, (hf w).2, if_pos rfl, if_pos rfl]
      have hrest : List.map (fun m => if m.id = w.id then f m else m) t = t := by
        conv => rhs; rw [← List.map_id t]
        apply List.map_congr_left
        intro m hm
        have hne : m.id ≠ w.id := fun he => hids.1 (he ▸ List.mem_map_of_mem (fun m => m.id) hm)
        simp [hne]
      rw [hrest]
      omega
    · have hne : a.id ≠ w.id := fun he => hids.1 (he ▸ List.mem_map_of_mem (fun m => m.id) hwt)
      rw [if_neg hne]
      have := ih hids.2 hwt
      omega

/-! ## Lookup through the steps of `updtversion` -/

theorem medianstable.find_map (t : medianstable) (f : medians → medians)
    (hf : ∀ m, (f m).id = m.id) (i : Nat) :
    medianstable.find (List.map f t) i = (t.find i).map f := by
  unfold medianstable.find
  induction t with
  | nil => rfl
  | cons a t ih =>
    by_cases ha : a.id = i
    · simp [List.find?_cons, hf a, ha]
    · simp only [List.map_cons, List.find?_cons, hf a, ha, decide_False]
      exact ih

theorem medianstable.find_append_left (a b : medianstable) (i : Nat) (m : medians)
    (h : a.find i = some m) : medianstable.find (a ++ b) i = some m := by
  unfold medianstable.find at *
  rw [List.find?_append, h]
  rfl

theorem updtversion_find_some {active : Bool} {now : Nat} {g : median_types} {t : medianstable}
    {w : medians} (h : updtversion_find active now g t = some w) :
    w ∈ t ∧ w.type = g
    ∧ is_in_time_range active g w.timestamp (get_round_up_current_time active now .day) false
        = true := by
  unfold updtversion_find at h
  have hm := List.mem_of_find?_eq_some h
  have hp := @List.find?_some medians (fun m => decide (m.type = g)
      && is_in_time_range active g m.timestamp (get_round_up_current_time active now .day) false)
    _ _ h
  simp only [Bool.and_eq_true, decide_eq_true_eq] at hp
  exact ⟨medianstable.mem_timestamp_index.1 hm, hp.1, hp.2⟩

theorem updtversion_zero_week_frame (active : Bool) (now : Nat) (t : medianstable)
    (hids : (t.map (fun m => m.id)).Nodup) :
    frame (fun x => x = .week) t (updtversion_zero_week active now t) := by
  unfold updtversion_zero_week
  split
  · rename_i w hw
    have h := updtversion_find_some hw
    exact frame_modify_elem hids (mem_short_medians_elements.2 ⟨h.1, h.2.1⟩) (fun m => ⟨rfl, rfl⟩)
  · exact frame_refl _ _

theorem updtversion_fold_month_frame (active : Bool) (now : Nat) (temp : medians)
    (t : medianstable) (hids : (t.map (fun m => m.id)).Nodup) :
    frame (fun x => x = .month) t (updtversion_fold_month active now temp t) := by
  unfold updtversion_fold_month
  split
  · rename_i w hw
    have h := updtversion_find_some hw
    exact frame_modify_elem hids (mem_short_medians_elements.2 ⟨h.1, h.2.1⟩) (fun m => ⟨rfl, rfl⟩)
  · exact frame_refl _ _

theorem countP_eq_zero_of_frame {S : median_types → Prop} {t t' : medianstable}
    (h : frame S t t') (g : median_types) (hg : ∀ m ∈ t, m.type ≠ g) : ∀ m ∈ t', m.type ≠ g := by
  have hc : List.countP (fun m => decide (m.type = g)) t' = 0 := by
    rw [frame_countP h g, List.countP_eq_zero]
    intro m hm
    simpa using hg m hm
  rw [List.countP_eq_zero] at hc
  intro m hm
  simpa using hc m hm

/-- The table of a pair without a `current_week` row after the loop body of `updtversion`:
the week row is zeroed, the month row is folded, one `current_week` row is appended and the
bias is erased. -/
theorem updtversion_pair_table_no_current_week (st : State) (p : name)
    (hactive : st.is_medians_active = true)
    (hids : ((st.medians_tables p).map (fun m => m.id)).Nodup)
    (hnocw : ∀ m ∈ st.medians_tables p, m.type ≠ .current_week) :
    ∃ c0 : medians,
      (updtversion_pair st p).medians_tables p
        = updtversion_erase_bias
            (updtversion_fold_month st.is_active_current_week_cashe st.now
                (updtversion_carried st.is_active_current_week_cashe st.now (st.medians_tables p))
                (updtversion_zero_week st.is_active_current_week_cashe st.now (st.medians_tables p))
              ++ [c0])
      ∧ c0.type = .current_week
      ∧ c0.value = (updtversion_carried st.is_active_current_week_cashe st.now
          (st.medians_tables p)).value
      ∧ c0.request_count = (updtversion_carried st.is_active_current_week_cashe st.now
          (st.medians_tables p)).request_count
      ∧ (∀ m ∈ updtversion_fold_month st.is_active_current_week_cashe st.now
            (updtversion_carried st.is_active_current_week_cashe st.now (st.medians_tables p))
            (updtversion_zero_week st.is_active_current_week_cashe st.now (st.medians_tables p)),
          m.type ≠ .current_week) := by
  have f1 := updtversion_zero_week_frame st.is_active_current_week_cashe st.now _ hids
  have hids1 := frame_nodup f1 hids
  have f2 := updtversion_fold_month_frame st.is_active_current_week_cashe st.now
    (updtversion_carried st.is_active_current_week_cashe st.now (st.medians_tables p)) _ hids1
  have hno2 := countP_eq_zero_of_frame f2 .current_week
    (countP_eq_zero_of_frame f1 .current_week hnocw)
  obtain ⟨created, h1, h2, h3⟩ := updtversion_pair_table st p hactive
  have hc0 : List.countP (fun m => decide (m.type = .current_week))
      (updtversion_fold_month st.is_active_current_week_cashe st.now
        (updtversion_carried st.is_active_current_week_cashe st.now (st.medians_tables p))
        (updtversion_zero_week st.is_active_current_week_cashe st.now (st.medians_tables p)))
      = 0 := by
    rw [List.countP_eq_zero]
    intro m hm
    simpa using hno2 m hm
  rw [hc0] at h2
  have hlen : created.length = 1 := h2
  match created, hlen, h1, h3 with
  | [c0], _, h1, h3 =>
    exact ⟨c0, h1, (h3 c0 (List.mem_cons_self _ _)).1, (h3 c0 (List.mem_cons_self _ _)).2.1,
      (h3 c0 (List.mem_cons_self _ _)).2.2.1, hno2⟩

theorem updtversion_erase_bias_row_null (m : medians) (h : m.timestamp = NULL_TIME_POINT) :
    updtversion_erase_bias_row m = m := by
  unfold updtversion_erase_bias_row
  rw [if_neg (by simpa using h)]

/-- The sum of a field over the week rows and the `current_week` rows is the same before and
after the loop body of `updtversion`, for a field that the zeroing clears and that the
created row takes from the carried row. -/
theorem updtversion_pair_total (field : medians → Nat)
    (hzero : ∀ m : medians,
      field { m with value := 0, request_count := 0, timestamp := NULL_TIME_POINT } = 0)
    (herase : ∀ m : medians, field (updtversion_erase_bias_row m) = field m)
    (hinit : field temp_current_week_initial = 0)
    (active : Bool) (now : Nat) (t : medianstable) (c0 : medians)
    (hids : (t.map (fun m => m.id)).Nodup)
    (hnocw : ∀ m ∈ t, m.type ≠ .current_week)
    (hc0t : c0.type = .current_week)
    (hc0 : field c0 = field (updtversion_carried active now t)) :
    total field .week (updtversion_erase_bias
        (updtversion_fold_month active now (updtversion_carried active now t)
          (updtversion_zero_week active now t) ++ [c0]))
      + total field .current_week (updtversion_erase_bias
        (updtversion_fold_month active now (updtversion_carried active now t)
          (updtversion_zero_week active now t) ++ [c0]))
      = total field .week t + total field .current_week t := by
  have f1 := updtversion_zero_week_frame active now t hids
  have hids1 := frame_nodup f1 hids
  have f2 := updtversion_fold_month_frame active now (updtversion_carried active now t) _ hids1
  have hno1 := countP_eq_zero_of_frame f1 .current_week hnocw
  have hno2 := countP_eq_zero_of_frame f2 .current_week hno1
  have hmap : ∀ g (l : medianstable), total field g (updtversion_erase_bias l) = total field g l :=
    fun g l => total_map field g _
      (fun m => ⟨(updtversion_erase_bias_row_fields m).2.1, herase m⟩) l
  rw [hmap, hmap, total_append, total_append, total_eq_zero field .current_week _ hno2,
    total_eq_zero field .current_week t hnocw,
    total_frame f2 field .week (by decide)]
  have hw0 : total field .week [c0] = 0 :=
    total_eq_zero field .week [c0] (fun m hm => by
      rw [List.mem_singleton.1 hm, hc0t]; decide)
  have hc1 : total field .current_week [c0] = field c0 := by
    rw [total_cons, if_pos hc0t, total_nil]; rfl
  rw [hw0, hc1, hc0]
  unfold updtversion_zero_week updtversion_carried
  cases hfind : updtversion_find active now .week t with
  | none =>
    simp only [hinit]
  | some w =>
    simp only
    have hwm := updtversion_find_some hfind
    have h := total_modify field hids hwm.1 (fun obj =>
      { obj with value := 0, request_count := 0, timestamp := NULL_TIME_POINT })
      (fun m => ⟨rfl, rfl⟩)
    rw [hwm.2.1] at h
    rw [hzero w] at h
    omega

theorem updtversion_find_none {active : Bool} {now : Nat} {g : median_types} {t : medianstable}
    (h : updtversion_find active now g t = none) :
    ∀ m ∈ t, m.type = g →
      is_in_time_range active g m.timestamp (get_round_up_current_time active now .day) false
        = false := by
  intro m hm hg
  unfold updtversion_find at h
  rw [List.find?_eq_none] at h
  have := h m (medianstable.mem_timestamp_index.2 hm)
  simpa [hg] using this

theorem updtversion_find_le {active : Bool} {now : Nat} {g : median_types} {t : medianstable}
    {b : medians} (h : updtversion_find active now g t = some b) :
    ∀ x ∈ t, x.type = g →
      is_in_time_range active g x.timestamp (get_round_up_current_time active now .day) false
        = true →
      medians.by_timestamp_le b x := by
  intro x hx hg hr
  unfold updtversion_find at h
  refine pairwise_find_le (List.sorted_insertionSort medians.by_timestamp_le t) h x
    (medianstable.mem_timestamp_index.2 hx) ?_
  simp [hg, hr]

/-- The migration of the legacy example, row by row. -/
theorem example_migrated_table :
    example_migrated.medians_tables tlosusd
      = [ { id := 0, type := .day, value := 300, request_count := 2, timestamp := 1699920000 },
          { id := 1, type := .week, value := 0, request_count := 0, timestamp := 0 },
          { id := 2, type := .week, value := 7, request_count := 1, timestamp := 1698969600 },
          { id := 3, type := .month, value := 6000, request_count := 60, timestamp := 1698969600 },
          { id := 4, type := .month, value := 0, request_count := 0, timestamp := 0 },
          { id := 5, type := .current_week, value := 1000, request_count := 10,
            timestamp := 1699574400 } ] := by
  decide

/-! ## Rows kept by the cascade -/

theorem medianstable.modify_types (t : medianstable) (i : Nat) (f : medians → medians)
    (hf : ∀ m, (f m).type = m.type) :
    (t.modify i f).map (fun m => m.type) = t.map (fun m => m.type) := by
  unfold medianstable.modify
  rw [List.map_map]
  apply List.map_congr_left
  intro m _
  show (if m.id = i then f m else m).type = m.type
  split
  · exact hf m
  · rfl

theorem foldlM_invariant (step : medianstable → median_types → Option medianstable)
    (P : medianstable → medianstable → Prop) (hrefl : ∀ t, P t t)
    (htrans : ∀ a b c, P a b → P b c → P a c) (l : List median_types)
    (hstep : ∀ g ∈ l, ∀ t t', step t g = some t' → P t t') :
    ∀ t t', List.foldlM step t l = some t' → P t t' := by
  induction l with
  | nil =>
    intro t t' h
    simp [List.foldlM] at h
    subst h
    exact hrefl t
  | cons a l ih =>
    intro t t' h
    rw [List.foldlM_cons] at h
    cases h1 : step t a with
    | none => rw [h1] at h; cases h
    | some t1 =>
      rw [h1] at h
      exact htrans _ _ _ (hstep a (List.mem_cons_self _ _) t t1 h1)
        (ih (fun g hg => hstep g (List.mem_cons_of_mem _ hg)) t1 t' h)

/-- A call of `update_medians_by_types` that returns keeps the list of primary keys and the
list of granularities of the table: rows are only modified in place. -/
theorem update_medians_by_types_rows (fuel : Nat) : ∀ (active : Bool) (now : Nat)
    (g : median_types) (t : medianstable) (T v c : Nat) (t' : medianstable),
    update_medians_by_types fuel active now g t T v c = some t' →
    t'.map (fun m => m.id) = t.map (fun m => m.id)
    ∧ t'.map (fun m => m.type) = t.map (fun m => m.type) := by
  induction fuel with
  | zero => intro active now g t T v c t' h; simp [update_medians_by_types] at h
  | succ fuel ih =>
    intro active now g t T v c t' h
    have hmod : ∀ (i : Nat) (f : medians → medians),
        (∀ m, (f m).id = m.id ∧ (f m).type = m.type) →
        (t.modify i f).map (fun m => m.id) = t.map (fun m => m.id)
        ∧ (t.modify i f).map (fun m => m.type) = t.map (fun m => m.type) :=
      fun i f hf => ⟨medianstable.modify_ids t i f (fun m => (hf m).1),
        medianstable.modify_types t i f (fun m => (hf m).2)⟩
    rw [update_medians_by_types] at h
    simp only at h
    split at h
    · split at h
      · cases h
      · split at h
        · cases h
        · cases h
          exact hmod _ _ (fun m => ⟨rfl, rfl⟩)
    · split at h
      · split at h
        · cases h
        · cases h
          exact hmod _ _ (fun m => ⟨rfl, rfl⟩)
      · split at h
        · cases h
        · rename_i first hfirst
          split at h
          · cases h
          · split at h
            · cases h
            · have f1 := hmod first.id (fun obj =>
                { obj with value := v, request_count := c,
                           timestamp := get_round_up_current_time active now g })
                (fun m => ⟨rfl, rfl⟩)
              split at h
              · have f2 := foldlM_invariant _
                  (fun a b => b.map (fun m => m.id) = a.map (fun m => m.id)
                    ∧ b.map (fun m => m.type) = a.map (fun m => m.type))
                  (fun _ => ⟨rfl, rfl⟩)
                  (fun a b c h1 h2 => ⟨h2.1.trans h1.1, h2.2.trans h1.2⟩)
                  (GetUpdateMedians active g)
                  (fun g' _ t2 t3 hstep => ih _ _ _ _ _ _ _ _ hstep) _ _ h
                exact ⟨f2.1.trans f1.1, f2.2.trans f1.2⟩
              · cases h
                exact f1

/-! ## The calendar engine -/

theorem gmtime_month_loop_exhausted (d : Nat) (h : 334 ≤ d) : gmtime_month_loop 11 0 d = (0, 0) := by
  simp only [gmtime_month_loop, months, List.getD_cons_zero, List.getD_cons_succ]
  repeat (rw [if_neg (by omega)])

set_option maxRecDepth 100000 in
theorem gmtime_month_loop_walk :
    ∀ d, d < 334 →
      (gmtime_month_loop 11 0 d).1 < 11
      ∧ (gmtime_month_loop 11 0 d).2 < months (gmtime_month_loop 11 0 d).1
      ∧ ((List.range (gmtime_month_loop 11 0 d).1).map months).sum + (gmtime_month_loop 11 0 d).2
          = d := by
  decide

/-- The bucket start of a fixed-duration granularity, for a biased clock below `2 ^ 32`. -/
theorem get_round_up_current_time_fixed (active : Bool) (now : Nat) (g : median_types)
    (hg : g ≠ .month ∨ active = false)
    (h : (if active then now else now + 1728000) < 2 ^ 32) :
    get_round_up_current_time active now g
      = (if active then now else now + 1728000)
        - (if active then now else now + 1728000) % time_consts g := by
  have hle : (if active then now else now + 1728000)
      - (if active then now else now + 1728000) % time_consts g < 2 ^ 32 := by omega
  cases active
  · simp only [Bool.false_eq_true, if_false] at h hle ⊢
    cases g <;>
      simp [get_round_up_current_time, time_point_sec, Nat.mod_eq_of_lt, time_consts] <;>
      simp [time_consts] at hle <;> omega
  · simp only [if_true] at h hle ⊢
    rcases hg with hg | hg
    · cases g <;>
        simp_all [get_round_up_current_time, time_point_sec, Nat.mod_eq_of_lt, time_consts]
    · cases hg

theorem gmtime_fields (t : Nat) :
    ∃ r, gmtime (some t) = some r
      ∧ r.tm_year = (t - t / 31536000 / 4 * 86400) / 31536000 + 70
      ∧ r.tm_yday = (t - t / 31536000 / 4 * 86400) % 31536000 / 86400
      ∧ r.tm_mon = (gmtime_month_loop 11 0 (r.tm_yday + 1)).1
      ∧ r.tm_mday = (gmtime_month_loop 11 0 (r.tm_yday + 1)).2 :=
  ⟨_, rfl, rfl, rfl, rfl, rfl⟩

theorem day_split (m r : Nat) (hr : r < 86400) :
    (86400 * m + r) / 31536000 = m / 365
    ∧ (86400 * m + r) % 31536000 / 86400 = m % 365 := by
  have h1 := Nat.div_add_mod m 365
  have h2 := Nat.mod_lt m (by decide : 365 > 0)
  generalize m / 365 = q at *
  generalize m % 365 = d at *
  subst h1
  constructor
  · omega
  · omega

/-- The year and the day of the year that `gmtime` computes, in terms of the day number `k`
of the timestamp. -/
theorem gmtime_day_units (k r : Nat) (hr : r < 86400) :
    ∃ x, gmtime (some (86400 * k + r)) = some x
      ∧ x.tm_year = (k - k / 365 / 4) / 365 + 70
      ∧ x.tm_yday = (k - k / 365 / 4) % 365
      ∧ x.tm_mon = (gmtime_month_loop 11 0 (x.tm_yday + 1)).1
      ∧ x.tm_mday = (gmtime_month_loop 11 0 (x.tm_yday + 1)).2 := by
  obtain ⟨x, hx, hy, hd, hm, hmd⟩ := gmtime_fields (86400 * k + r)
  refine ⟨x, hx, ?_, ?_, hm, hmd⟩
  · rw [hy, (day_split k r hr).1]
    have hL : k / 365 / 4 ≤ k := by omega
    have e : 86400 * k + r - k / 365 / 4 * 86400 = 86400 * (k - k / 365 / 4) + r := by omega
    rw [e, (day_split _ r hr).1]
  · rw [hd, (day_split k r hr).1]
    have hL : k / 365 / 4 ≤ k := by omega
    have e : 86400 * k + r - k / 365 / 4 * 86400 = 86400 * (k - k / 365 / 4) + r := by omega
    rw [e, (day_split _ r hr).2]

/-- The day number that `mktime` rebuilds from the year and the day of the year of a day
number below 24856 (a clock value below `2 ^ 31`) has the same year, and either the same day
of the year or a day of the year from 333 on, like the original. -/
theorem mktime_gmtime_day_units (k : Nat) (hk : k < 24856) :
    ((365 * ((k - k / 365 / 4) / 365) + (k - k / 365 / 4) / 365 / 4 + (k - k / 365 / 4) % 365)
        - (365 * ((k - k / 365 / 4) / 365) + (k - k / 365 / 4) / 365 / 4
            + (k - k / 365 / 4) % 365) / 365 / 4) / 365
      = (k - k / 365 / 4) / 365
    ∧ (((365 * ((k - k / 365 / 4) / 365) + (k - k / 365 / 4) / 365 / 4 + (k - k / 365 / 4) % 365)
        - (365 * ((k - k / 365 / 4) / 365) + (k - k / 365 / 4) / 365 / 4
            + (k - k / 365 / 4) % 365) / 365 / 4) % 365 = (k - k / 365 / 4) % 365
      ∨ (333 ≤ ((365 * ((k - k / 365 / 4) / 365) + (k - k / 365 / 4) / 365 / 4
            + (k - k / 365 / 4) % 365)
          - (365 * ((k - k / 365 / 4) / 365) + (k - k / 365 / 4) / 365 / 4
              + (k - k / 365 / 4) % 365) / 365 / 4) % 365
        ∧ 333 ≤ (k - k / 365 / 4) % 365)) := by
  have hY : (k - k / 365 / 4) / 365 ≤ 68 := by omega
  have hD := Nat.mod_lt (k - k / 365 / 4) (by decide : 365 > 0)
  generalize (k - k / 365 / 4) / 365 = Y at *
  generalize (k - k / 365 / 4) % 365 = D at *
  have h4 : Y / 4 ≤ 17 := by omega
  by_cases hc : Y / 4 + D < 365
  · have hg : (365 * Y + Y / 4 + D) / 365 = Y := by omega
    rw [hg]
    have e : 365 * Y + Y / 4 + D - Y / 4 = 365 * Y + D := by omega
    rw [e]
    constructor
    · omega
    · left; omega
  · have hg : (365 * Y + Y / 4 + D) / 365 = Y + 1 := by omega
    rw [hg]
    by_cases h5 : (Y + 1) / 4 = Y / 4
    · rw [h5]
      have e : 365 * Y + Y / 4 + D - Y / 4 = 365 * Y + D := by omega
      rw [e]
      constructor
      · omega
      · left; omega
    · have h6 : (Y + 1) / 4 = Y / 4 + 1 := by omega
      rw [h6]
      have e : 365 * Y + Y / 4 + D - (Y / 4 + 1) = 365 * Y + (D - 1) := by omega
      rw [e]
      constructor
      · omega
      · right; omega

/-- Under the active scheme the Month bucket start of a clock value below `2 ^ 31` has the
calendar year, month and day-of-month of the Day bucket start, as `gmtime` computes them. -/
theorem month_start_fields (now : Nat) (hnow : now < 2 ^ 31) :
    ∃ b c, gmtime (some ((get_round_up_current_time true now .day) % 2 ^ 32)) = some b
      ∧ gmtime (some ((get_round_up_current_time true now .month) % 2 ^ 32)) = some c
      ∧ c.tm_year = b.tm_year ∧ c.tm_mon = b.tm_mon ∧ c.tm_mday = b.tm_mday := by
  have h31 : (2 : Nat) ^ 31 = 2147483648 := by norm_num
  have h32 : (2 : Nat) ^ 32 = 4294967296 := by norm_num
  rw [h31] at hnow
  have hk : now / 86400 < 24856 := by omega
  have hr : now % 86400 < 86400 := Nat.mod_lt _ (by decide)
  have hdecomp : 86400 * (now / 86400) + now % 86400 = now := Nat.div_add_mod now 86400
  obtain ⟨a, ha, hay, had, -, -⟩ := gmtime_day_units (now / 86400) (now % 86400) hr
  rw [hdecomp] at ha
  have hY : (now / 86400 - now / 86400 / 365 / 4) / 365 ≤ 68 := by omega
  have hD := Nat.mod_lt (now / 86400 - now / 86400 / 365 / 4) (by decide : 365 > 0)
  have harith := mktime_gmtime_day_units (now / 86400) hk
  have hT : get_round_up_current_time true now .day = 86400 * (now / 86400) + 0 := by
    have := get_round_up_current_time_fixed true now .day (Or.inl (by decide))
      (by simp only [if_true]; omega)
    simp only [if_true, time_consts] at this
    rw [this]; omega
  obtain ⟨b, hb, hby, hbd, hbm, hbmd⟩ := gmtime_day_units (now / 86400) 0 (by decide)
  obtain ⟨c, hc, hcy, hcd, hcm, hcmd⟩ := gmtime_day_units
    (365 * ((now / 86400 - now / 86400 / 365 / 4) / 365)
      + (now / 86400 - now / 86400 / 365 / 4) / 365 / 4
      + (now / 86400 - now / 86400 / 365 / 4) % 365) 0 (by decide)
  have hstart : get_round_up_current_time true now .month
      = (((a.tm_year - 70) * 31536000 + (a.tm_year - 70) / 4 * 86400 + a.tm_yday * 86400)
          % 2 ^ 32) := by
    simp [get_round_up_current_time, ha, mktime, time_point_sec]
  rw [hay, had, Nat.add_sub_cancel] at hstart
  generalize (now / 86400 - now / 86400 / 365 / 4) / 365 = Y at *
  generalize (now / 86400 - now / 86400 / 365 / 4) % 365 = D at *
  have hstart2 : get_round_up_current_time true now .month
      = 86400 * (365 * Y + Y / 4 + D) + 0 := by
    rw [hstart, h32]; omega
  have e1 : (86400 * (now / 86400) + 0) % 2 ^ 32 = 86400 * (now / 86400) + 0 := by
    rw [h32]; omega
  have e2 : (86400 * (365 * Y + Y / 4 + D) + 0) % 2 ^ 32 = 86400 * (365 * Y + Y / 4 + D) + 0 := by
    rw [h32]; omega
  rw [hT, hstart2, e1, e2]
  have hyd : c.tm_yday = b.tm_yday ∨ (333 ≤ c.tm_yday ∧ 333 ≤ b.tm_yday) := by
    rw [hcd, hbd]; exact harith.2
  refine ⟨b, c, hb, hc, ?_, ?_, ?_⟩
  · rw [hcy, hby, harith.1]
  · rw [hcm, hbm]
    rcases hyd with e | e
    · rw [e]
    · rw [gmtime_month_loop_exhausted _ (by omega), gmtime_month_loop_exhausted _ (by omega)]
  · rw [hcmd, hbmd]
    rcases hyd with e | e
    · rw [e]
    · rw [gmtime_month_loop_exhausted _ (by omega), gmtime_month_loop_exhausted _ (by omega)]

/-! ## Recursion bound and rows changed by the cascade -/

theorem foldlM_congr_mem (s1 s2 : medianstable → median_types → Option medianstable)
    (l : List median_types) (h : ∀ g ∈ l, ∀ t, s1 t g = s2 t g) :
    ∀ t, List.foldlM s1 t l = List.foldlM s2 t l := by
  induction l with
  | nil => intro t; rfl
  | cons a l ih =>
    intro t
    rw [List.foldlM_cons, List.foldlM_cons, h a (List.mem_cons_self _ _) t]
    cases s2 t a with
    | none => rfl
    | some t1 => exact ih (fun g hg => h g (List.mem_cons_of_mem _ hg)) t1

/-- The result of `update_medians_by_types` does not depend on the recursion bound once the
bound covers the longest chain of calls that starts at the granularity. -/
theorem update_medians_by_types_fuel (f1 : Nat) : ∀ (f2 : Nat) (active : Bool) (now : Nat)
    (g : median_types) (t : medianstable) (T v c : Nat),
    height active g ≤ f1 → height active g ≤ f2 →
    update_medians_by_types f1 active now g t T v c
      = update_medians_by_types f2 active now g t T v c := by
  induction f1 with
  | zero =>
    intro f2 active now g t T v c h1 _
    have := height_pos active g
    omega
  | succ f1 ih =>
    intro f2 active now g t T v c h1 h2
    cases f2 with
    | zero =>
      have := height_pos active g
      omega
    | succ f2 =>
      have key : ∀ (t1 : medianstable) (tt tv tc : Nat),
          List.foldlM (fun tbl ty => update_medians_by_types f1 active now ty tbl tt tv tc) t1
              (GetUpdateMedians active g)
            = List.foldlM (fun tbl ty => update_medians_by_types f2 active now ty tbl tt tv tc) t1
              (GetUpdateMedians active g) := by
        intro t1 tt tv tc
        refine foldlM_congr_mem _ _ _ (fun g' hg' t2 => ?_) t1
        have hlt := height_step active g g' hg'
        exact ih f2 active now g' t2 tt tv tc (by omega) (by omega)
      conv_lhs => rw [update_medians_by_types]
      conv_rhs => rw [update_medians_by_types]
      simp only [key]

theorem medianstable.mem_modify_of_ne {t : medianstable} {m : medians} (hm : m ∈ t) {i : Nat}
    (hne : m.id ≠ i) (f : medians → medians) : m ∈ t.modify i f := by
  unfold medianstable.modify
  exact List.mem_map.2 ⟨m, hm, by simp [hne]⟩

theorem GetUpdateMedians_disjoint (active : Bool) (g : median_types) :
    (GetUpdateMedians active g).Pairwise
      (fun a b => ∀ x, x ∈ reach active a → x ∉ reach active b) := by
  cases active <;> cases g <;> simp [GetUpdateMedians, reach]

theorem foldlM_single (active : Bool)
    (step : medianstable → median_types → Option medianstable) (l : List median_types)
    (hdisj : l.Pairwise (fun a b => ∀ x, x ∈ reach active a → x ∉ reach active b))
    (hstep : ∀ a ∈ l, ∀ t t', (t.map (fun m => m.id)).Nodup → step t a = some t' →
      frame (fun x => x ∈ reach active a) t t'
      ∧ ∀ x, ∃ i, ∀ m ∈ t, m.type = x → m.id ≠ i → m ∈ t') :
    ∀ t t', (t.map (fun m => m.id)).Nodup → List.foldlM step t l = some t' →
      frame (fun x => ∃ a ∈ l, x ∈ reach active a) t t'
      ∧ ∀ x, ∃ i, ∀ m ∈ t, m.type = x → m.id ≠ i → m ∈ t' := by
  induction l with
  | nil =>
    intro t t' _ h
    simp [List.foldlM] at h
    subst h
    exact ⟨frame_refl _ t, fun x => ⟨0, fun m hm _ _ => hm⟩⟩
  | cons a l ih =>
    intro t t' hids h
    rw [List.foldlM_cons] at h
    cases h1 : step t a with
    | none => rw [h1] at h; cases h
    | some t1 =>
      rw [h1] at h
      obtain ⟨f1, q1⟩ := hstep a (List.mem_cons_self _ _) t t1 hids h1
      obtain ⟨f2, q2⟩ := ih (List.Pairwise.of_cons hdisj)
        (fun b hb => hstep b (List.mem_cons_of_mem _ hb)) t1 t' (frame_nodup f1 hids) h
      refine ⟨frame_trans
          (frame_mono (fun x hx => ⟨a, List.mem_cons_self _ _, hx⟩) f1)
          (frame_mono (fun x hx => by
            obtain ⟨b, hb, hxb⟩ := hx
            exact ⟨b, List.mem_cons_of_mem _ hb, hxb⟩) f2), fun x => ?_⟩
      by_cases hx : x ∈ reach active a
      · obtain ⟨i, hi⟩ := q1 x
        refine ⟨i, fun m hm hmx hne => ?_⟩
        have hm1 := hi m hm hmx hne
        refine (frame_mem f2 ?_).1 hm1
        rintro ⟨b, hb, hxb⟩
        rw [hmx] at hxb
        exact List.rel_of_pairwise_cons hdisj hb x hx hxb
      · obtain ⟨i, hi⟩ := q2 x
        refine ⟨i, fun m hm hmx hne => ?_⟩
        have hm1 : m ∈ t1 := (frame_mem f1 (by rw [hmx]; exact hx)).1 hm
        exact hi m hm1 hmx hne

/-- A call of `update_medians_by_types` that returns has changed at most one row of each
granularity. -/
theorem update_medians_by_types_single (fuel : Nat) : ∀ (active : Bool) (now : Nat)
    (g : median_types) (t : medianstable) (T v c : Nat) (t' : medianstable),
    (t.map (fun m => m.id)).Nodup →
    update_medians_by_types fuel active now g t T v c = some t' →
    ∀ x, ∃ i, ∀ m ∈ t, m.type = x → m.id ≠ i → m ∈ t' := by
  induction fuel with
  | zero => intro active now g t T v c t' _ h; simp [update_medians_by_types] at h
  | succ fuel ih =>
    intro active now g t T v c t' hids h
    have hmod : ∀ (e : medians) (f : medians → medians) (x : median_types),
        ∃ i, ∀ m ∈ t, m.type = x → m.id ≠ i → m ∈ t.modify e.id f :=
      fun e f x => ⟨e.id, fun m hm _ hne => medianstable.mem_modify_of_ne hm hne f⟩
    rw [update_medians_by_types] at h
    simp only at h
    split at h
    · split at h
      · cases h
      · split at h
        · cases h
        · cases h
          exact hmod _ _
    · split at h
      · split at h
        · cases h
        · cases h
          exact hmod _ _
      · split at h
        · cases h
        · rename_i first hfirst
          split at h
          · cases h
          · split at h
            · cases h
            · have f1 : frame (fun x => x = g) t (t.modify first.id (fun obj =>
                  { obj with value := v, request_count := c,
                             timestamp := get_round_up_current_time active now g })) :=
                frame_modify_elem hids (List.mem_of_mem_head? hfirst) (fun m => ⟨rfl, rfl⟩)
              split at h
              · obtain ⟨f2, q2⟩ := foldlM_single active _ (GetUpdateMedians active g)
                  (GetUpdateMedians_disjoint active g)
                  (fun a _ t2 t3 hids2 hstep =>
                    ⟨update_medians_by_types_frame fuel active now a t2 _ _ _ t3 hids2 hstep,
                      ih active now a t2 _ _ _ t3 hids2 hstep⟩)
                  _ t' (frame_nodup f1 hids) h
                intro x
                by_cases hx : x = g
                · refine ⟨first.id, fun m hm hmx hne => ?_⟩
                  have hm1 := medianstable.mem_modify_of_ne hm hne (fun obj =>
                    { obj with value := v, request_count := c,
                               timestamp := get_round_up_current_time active now g })
                  refine (frame_mem f2 ?_).1 hm1
                  rintro ⟨a, ha, hxa⟩
                  rw [hmx, hx] at hxa
                  exact reach_acyclic active g a ha hxa
                · obtain ⟨i, hi⟩ := q2 x
                  refine ⟨i, fun m hm hmx hne => ?_⟩
                  have hm1 := (frame_mem f1 (by rw [hmx]; exact hx)).1 hm
                  exact hi m hm1 hmx hne
              · cases h
                exact hmod _ _

/-! ## The daily datapoints table -/

theorem mem_daily_timestamp_index {t : List dailydatapoints} {d : dailydatapoints} :
    d ∈ daily_timestamp_index t ↔ d ∈ t := by
  unfold daily_timestamp_index
  exact List.mem_insertionSort _

theorem daily_getLast_max {l : List dailydatapoints}
    (hl : l.Pairwise dailydatapoints.by_timestamp_le) {x : dailydatapoints}
    (hx : l.getLast? = some x) : ∀ y ∈ l, y.timestamp ≤ x.timestamp := by
  induction l with
  | nil => cases hx
  | cons a l ih =>
    cases l with
    | nil =>
      intro y hy
      simp at hx hy
      subst hx; subst hy
      exact Nat.le_refl _
    | cons b l =>
      rw [List.getLast?_cons_cons] at hx
      intro y hy
      rcases List.mem_cons.1 hy with rfl | hy
      · have hmem : x ∈ b :: l := List.mem_of_getLast?_eq_some hx
        have := List.rel_of_pairwise_cons hl hmem
        unfold dailydatapoints.by_timestamp_le at this
        omega
      · exact ih (List.Pairwise.of_cons hl) hx y hy

theorem daily_modify_ids (t : List dailydatapoints) (i : Nat)
    (f : dailydatapoints → dailydatapoints) (hf : ∀ d, (f d).id = d.id) :
    (daily_modify t i f).map (fun d => d.id) = t.map (fun d => d.id) := by
  unfold daily_modify
  rw [List.map_map]
  apply List.map_congr_left
  intro d _
  show (if d.id = i then f d else d).id = d.id
  split
  · exact hf d
  · rfl

theorem daily_modify_timestamps (t : List dailydatapoints) (i : Nat)
    (f : dailydatapoints → dailydatapoints) (hf : ∀ d, (f d).timestamp = d.timestamp) :
    (daily_modify t i f).map (fun d => d.timestamp) = t.map (fun d => d.timestamp) := by
  unfold daily_modify
  rw [List.map_map]
  apply List.map_congr_left
  intro d _
  show (if d.id = i then f d else d).timestamp = d.timestamp
  split
  · exact hf d
  · rfl

theorem daily_available_primary_key_gt (t : List dailydatapoints) :
    ∀ d ∈ t, d.id < daily_available_primary_key t := by
  unfold daily_available_primary_key
  have key : ∀ (l : List dailydatapoints) (k : Nat),
      k ≤ List.foldl (fun k d => max k (d.id + 1)) k l
      ∧ ∀ d ∈ l, d.id < List.foldl (fun k d => max k (d.id + 1)) k l := by
    intro l
    induction l with
    | nil => intro k; exact ⟨Nat.le_refl _, fun d hd => by cases hd⟩
    | cons a l ih =>
      intro k
      rw [List.foldl_cons]
      obtain ⟨h1, h2⟩ := ih (max k (a.id + 1))
      refine ⟨by omega, fun d hd => ?_⟩
      rcases List.mem_cons.1 hd with rfl | hd
      · omega
      · exact h2 d hd
  exact (key t 0).2

/-- Overwriting the timestamp of one row by a timestamp that no row carries keeps the
timestamps distinct. -/
theorem daily_modify_nodup (ts : Nat) (f : dailydatapoints → dailydatapoints)
    (hf : ∀ d, (f d).timestamp = ts) :
    ∀ (t : List dailydatapoints) (i : Nat),
      (t.map (fun d => d.id)).Nodup → (t.map (fun d => d.timestamp)).Nodup →
      (∀ d ∈ t, d.timestamp ≠ ts) →
      ((daily_modify t i f).map (fun d => d.timestamp)).Nodup := by
  intro t i
  induction t with
  | nil => intro _ _ _; exact List.nodup_nil
  | cons a t ih =>
    intro hids hts hne
    rw [List.map_cons, List.nodup_cons] at hids hts
    have hrest := ih hids.2 hts.2 (fun d hd => hne d (List.mem_cons_of_mem _ hd))
    unfold daily_modify at hrest ⊢
    rw [List.map_cons, List.map_cons, List.nodup_cons]
    refine ⟨?_, hrest⟩
    by_cases ha : a.id = i
    · -- the row itself is overwritten; no other row has its id
      rw [if_pos ha, hf a]
      have htail : List.map (fun d => if d.id = i then f d else d) t = t := by
        have : ∀ d ∈ t, (if d.id = i then f d else d) = d := by
          intro d hd
          rw [if_neg]
          intro hdi
          exact hids.1 (List.mem_map.2 ⟨d, hd, by rw [hdi, ha]⟩)
        calc List.map (fun d => if d.id = i then f d else d) t
            = List.map (fun d => d) t := List.map_congr_left this
          _ = t := List.map_id' t
      rw [htail]
      intro hmem
      obtain ⟨d, hd, hdts⟩ := List.mem_map.1 hmem
      exact hne d (List.mem_cons_of_mem _ hd) hdts
    · rw [if_neg ha]
      intro hmem
      obtain ⟨d', hd', hdts⟩ := List.mem_map.1 hmem
      obtain ⟨d, hd, rfl⟩ := List.mem_map.1 hd'
      by_cases hdi : d.id = i
      · rw [if_pos hdi, hf d] at hdts
        exact hne a (List.mem_cons_self _ _) hdts.symm
      · rw [if_neg hdi] at hdts
        exact hts.1 (List.mem_map.2 ⟨d, hd, hdts⟩)

/-- The three ways in which `update_daily_datapoints` writes the table of the instrument. -/
theorem update_daily_datapoints_ring (st st' : State) (instrument : name) (ts v : Nat)
    (hmed : get_daily_median st instrument = some (some (ts, v)))
    (hstep : update_daily_datapoints st instrument = some st') :
    (∃ last, (daily_timestamp_index (st.dailydatapoints_tables instrument)).getLast? = some last
        ∧ last.timestamp = ts
        ∧ st'.dailydatapoints_tables instrument
          = daily_modify (st.dailydatapoints_tables instrument) last.id
              (fun datapoint => { datapoint with value := v }))
    ∨ ((∀ last, (daily_timestamp_index (st.dailydatapoints_tables instrument)).getLast?
          = some last → last.timestamp ≠ ts)
      ∧ ((∃ first ∈ st.dailydatapoints_tables instrument,
            st'.dailydatapoints_tables instrument
              = daily_modify (st.dailydatapoints_tables instrument) first.id
                  (fun datapoint => { datapoint with value := v, timestamp := ts }))
        ∨ st'.dailydatapoints_tables instrument
            = st.dailydatapoints_tables instrument
              ++ [{ id := daily_available_primary_key (st.dailydatapoints_tables instrument),
                    value := v, timestamp := ts }])) := by
  unfold update_daily_datapoints at hstep
  rw [hmed] at hstep
  simp only at hstep
  split at hstep
  · rename_i last hlast
    split at hstep
    · rename_i heq
      cases hstep
      exact Or.inl ⟨last, hlast, heq, by simp only [Function.update_same]⟩
    · rename_i hne
      refine Or.inr ⟨fun l hl => ?_, ?_⟩
      · rw [hlast] at hl
        cases hl
        exact hne
      · split at hstep
        · split at hstep
          · cases hstep
          · rename_i first hfirst
            cases hstep
            exact Or.inl ⟨first, mem_daily_timestamp_index.1 (List.mem_of_mem_head? hfirst),
              by simp only [Function.update_same]⟩
        · cases hstep
          exact Or.inr (by simp only [Function.update_same])
  · rename_i hnone
    refine Or.inr ⟨fun l hl => ?_, ?_⟩
    · rw [hnone] at hl
      cases hl
    · split at hstep
      · split at hstep
        · cases hstep
        · rename_i first hfirst
          cases hstep
          exact Or.inl ⟨first, mem_daily_timestamp_index.1 (List.mem_of_mem_head? hfirst),
            by simp only [Function.update_same]⟩
      · cases hstep
        exact Or.inr (by simp only [Function.update_same])

/-- When the latest stored timestamp differs from an incoming timestamp that is not earlier
than any stored one, every stored timestamp is earlier than the incoming one. -/
theorem daily_ring_fresh (ring : List dailydatapoints) (ts : Nat)
    (hmono : ∀ d ∈ ring, d.timestamp ≤ ts)
    (hne : ∀ last, (daily_timestamp_index ring).getLast? = some last → last.timestamp ≠ ts) :
    ∀ d ∈ ring, d.timestamp < ts := by
  intro d hd
  have hd' : d ∈ daily_timestamp_index ring := mem_daily_timestamp_index.2 hd
  cases hgl : (daily_timestamp_index ring).getLast? with
  | none =>
    rw [List.getLast?_eq_none_iff] at hgl
    rw [hgl] at hd'
    cases hd'
  | some last =>
    have hmax := daily_getLast_max
      (List.sorted_insertionSort dailydatapoints.by_timestamp_le ring) hgl d hd'
    have hl : last ∈ ring := mem_daily_timestamp_index.1 (List.mem_of_getLast?_eq_some hgl)
    have h1 := hmono last hl
    have h2 := hne last hgl
    omega

/-! ## The timer of `write` -/

theorem update_medians_scalars (st st' : State) (owner : name) (value : Nat) (pair : name)
    (h : update_medians st owner value pair = some st') :
    st'.now = st.now ∧ st'.last_daily_average_run = st.last_daily_average_run
    ∧ st'.daily_average_timeout = st.daily_average_timeout := by
  unfold update_medians at h
  split at h
  · cases h; exact ⟨rfl, rfl, rfl⟩
  · simp only at h
    split at h
    · split at h
      · cases h
      · cases h; exact ⟨rfl, rfl, rfl⟩
    · cases h; exact ⟨rfl, rfl, rfl⟩

theorem write_quote_medians_scalars (st st' : State) (owner : name) (q : quote)
    (h : write_quote_medians st owner q = some st') :
    st'.now = st.now ∧ st'.last_daily_average_run = st.last_daily_average_run
    ∧ st'.daily_average_timeout = st.daily_average_timeout := by
  unfold write_quote_medians at h
  split at h
  · exact update_medians_scalars st st' owner q.value q.pair h
  · cases h

/-- Once the timer forbids the rollup, the loop body of `write` is the loop body without
its last block, and the timer still forbids the rollup afterwards. -/
theorem write_quote_skips (st : State) (owner : name) (q : quote)
    (hskip : ¬ (to_int32 st.now
      > int32_of_int (st.last_daily_average_run + st.daily_average_timeout))) :
    write_quote st owner q = write_quote_medians st owner q
    ∧ ∀ st', write_quote_medians st owner q = some st' →
        ¬ (to_int32 st'.now
          > int32_of_int (st'.last_daily_average_run + st'.daily_average_timeout)) := by
  have hkeep : ∀ st', write_quote_medians st owner q = some st' →
      ¬ (to_int32 st'.now
        > int32_of_int (st'.last_daily_average_run + st'.daily_average_timeout)) := by
    intro st' h
    obtain ⟨h1, h2, h3⟩ := write_quote_medians_scalars st st' owner q h
    rw [h1, h2, h3]
    exact hskip
  refine ⟨?_, hkeep⟩
  unfold write_quote
  cases h : write_quote_medians st owner q with
  | none => rfl
  | some st' =>
    simp only
    unfold write_daily_average
    simp only [if_neg (hkeep st' h)]

theorem write_loop_skips (owner : name) (rest : List quote) : ∀ (st : State),
    ¬ (to_int32 st.now > int32_of_int (st.last_daily_average_run + st.daily_average_timeout)) →
    List.foldlM (fun s q => write_quote s owner q) st rest
      = List.foldlM (fun s q => write_quote_medians s owner q) st rest := by
  induction rest with
  | nil => intro st _; rfl
  | cons q rest ih =>
    intro st hskip
    obtain ⟨h1, h2⟩ := write_quote_skips st owner q hskip
    rw [List.foldlM_cons, List.foldlM_cons, h1]
    cases h : write_quote_medians st owner q with
    | none => rfl
    | some st' => exact ih st' (h2 st' h)

/-- After the loop body of `write` for one quote the timer forbids the rollup at the same
clock reading, for a cooldown of at least 0 that keeps the sum within `int32_t`. -/
theorem write_quote_closes (st st1 : State) (owner : name) (q : quote)
    (htimeout : 0 ≤ st.daily_average_timeout)
    (hrange : to_int32 st.now + st.daily_average_timeout < 2 ^ 31)
    (h : write_quote st owner q = some st1) :
    ¬ (to_int32 st1.now
      > int32_of_int (st1.last_daily_average_run + st1.daily_average_timeout)) := by
  unfold write_quote at h
  cases h0 : write_quote_medians st owner q with
  | none => rw [h0] at h; cases h
  | some s0 =>
    rw [h0] at h
    simp only at h
    obtain ⟨e1, e2, e3⟩ := write_quote_medians_scalars st s0 owner q h0
    unfold write_daily_average at h
    simp only at h
    split at h
    · cases hd : update_daily_datapoints
          { s0 with last_daily_average_run := to_int32 s0.now } q.pair with
      | none => rw [hd] at h; cases h
      | some s2 =>
        rw [hd] at h
        cases h
        obtain ⟨d1, d2, d3⟩ := update_daily_datapoints_scalars _ s2 q.pair hd
        have a1 : (update_averages s2 q.pair).now = st.now := by
          show s2.now = st.now
          rw [d1]; exact e1
        have a2 : (update_averages s2 q.pair).last_daily_average_run = to_int32 st.now := by
          show s2.last_daily_average_run = to_int32 st.now
          rw [d2, ← e1]
        have a3 : (update_averages s2 q.pair).daily_average_timeout
            = st.daily_average_timeout := by
          show s2.daily_average_timeout = st.daily_average_timeout
          rw [d3]; exact e3
        rw [a1, a2, a3]
        have hlo : -2 ^ 31 ≤ to_int32 st.now + st.daily_average_timeout := by
          have : -2 ^ 31 ≤ to_int32 st.now := by
            unfold to_int32
            split <;> omega
          omega
        rw [int32_of_int_of_range _ hlo hrange]
        omega
    · rename_i hcond
      cases h
      exact hcond

/-! # The claims -/

/-- Claim C1, counterexample: the Day bucket of the pair contains
`get_round_up_current_time(day)`, the medians engine is switched off, and `update_medians`
returns with the bucket still at value 100 and count 1. -/
theorem update_medians_switched_off :
    (∃ b ∈ scenario_A_switched_off.medians_tables tlosusd, b.type = .day ∧
      is_in_time_range (is_active_current_week scenario_A_switched_off) .day b.timestamp
        (get_round_up_current_time (is_active_current_week scenario_A_switched_off)
          scenario_A_switched_off.now .day) false = true)
    ∧ (update_medians scenario_A_switched_off 0 200 tlosusd).map
        (fun st => (st.medians_tables tlosusd).find 0)
      = some (some { id := 0, type := .day, value := 100, request_count := 1,
                     timestamp := 1699920000 }) := by
  decide

/-- Claim C1, amended: with the medians engine switched on, when a Day bucket of the pair contains
`get_round_up_current_time(day)`, `update_medians` returns, the first such bucket of the
timestamp index (the only one when the pair holds one Day bucket) gets `value` added to
its accumulated value and 1 to its count in 64-bit arithmetic (exactly, when nothing
overflows), its timestamp is unchanged, every other row of the pair is unchanged, no row
is created or erased, and the tables of the other pairs are untouched. -/
theorem update_medians_open_day (st : State) (owner pair : name) (v : Nat)
    (hactive : st.is_medians_active = true)
    (hids : ((st.medians_tables pair).map (fun m => m.id)).Nodup)
    (hopen : ∃ b ∈ st.medians_tables pair, b.type = .day ∧
      is_in_time_range (is_active_current_week st) .day b.timestamp
        (get_round_up_current_time (is_active_current_week st) st.now .day) false = true) :
    ∃ b ∈ st.medians_tables pair, b.type = .day
      ∧ is_in_time_range (is_active_current_week st) .day b.timestamp
          (get_round_up_current_time (is_active_current_week st) st.now .day) false = true
      ∧ (∀ x ∈ st.medians_tables pair, x.type = .day →
          is_in_time_range (is_active_current_week st) .day x.timestamp
            (get_round_up_current_time (is_active_current_week st) st.now .day) false = true →
          b.timestamp < x.timestamp ∨ (b.timestamp = x.timestamp ∧ b.id ≤ x.id))
      ∧ ∃ st', update_medians st owner v pair = some st'
        ∧ (st'.medians_tables pair).find b.id
            = some { b with value := u64 (b.value + v), request_count := u64 (b.request_count + 1) }
        ∧ (b.value + v < 2 ^ 64 → b.request_count + 1 < 2 ^ 64 →
            (st'.medians_tables pair).find b.id
              = some { b with value := b.value + v, request_count := b.request_count + 1 })
        ∧ (∀ m ∈ st.medians_tables pair, m.id ≠ b.id → (st'.medians_tables pair).find m.id = some m)
        ∧ (st'.medians_tables pair).map (fun m => m.id) = (st.medians_tables pair).map (fun m => m.id)
        ∧ (∀ q, q ≠ pair → st'.medians_tables q = st.medians_tables q) := by
  obtain ⟨b, hb, hbg, hbr, hmin, hupd⟩ :=
    update_medians_by_types_found 3 (is_active_current_week st) st.now .day (st.medians_tables pair)
      (get_round_up_current_time (is_active_current_week st) st.now .day) v 1 (by simp) hids hopen
  have hlen : (st.medians_tables pair).length > 0 := List.length_pos_of_mem hb
  have hfind := medianstable.find_modify_self hids hb (fun obj =>
    { obj with value := u64 (obj.value + v), request_count := u64 (obj.request_count + 1) })
    (fun _ => rfl)
  refine ⟨b, hb, hbg, hbr, hmin,
    { st with
      is_active_current_week_cashe := is_active_current_week st
      medians_tables := Function.update st.medians_tables pair
        ((st.medians_tables pair).modify b.id (fun obj =>
          { obj with value := u64 (obj.value + v), request_count := u64 (obj.request_count + 1) })) },
    ?_, ?_, ?_, ?_, ?_, ?_⟩
  · simp only [update_medians, hactive, hlen, hupd]
    simp
  · simpa using hfind
  · intro h1 h2
    simp only [Function.update_same]
    rw [hfind]
    simp only [u64, Nat.mod_eq_of_lt h1, Nat.mod_eq_of_lt h2]
  · intro m hm hne
    simp only [Function.update_same]
    exact medianstable.find_modify_other hids hm hne _ (fun _ => rfl)
  · simp only [Function.update_same]
    exact medianstable.modify_ids _ _ _ (fun _ => rfl)
  · intro q hq
    simp only [Function.update_noteq hq]

/-- Scenario A, run from the creation of the pair: 100 and then 200 submitted within
the same day leave the Day bucket with value 300 and count 2, whose mean is 150. -/
theorem scenario_A :
    ((update_medians (provision_medians example_empty tlosusd 0) 0 100 tlosusd).bind
        (fun s => update_medians { s with now := 1700003600 } 0 200 tlosusd)).map
        (fun s => (s.medians_tables tlosusd).find 0)
      = some (some { id := 0, type := .day, value := 300, request_count := 2, timestamp := 1699920000 })
    ∧ 300 / 2 = 150 := by
  decide

/-- Witness of C1: the second step of Scenario A. -/
theorem update_medians_open_day_witness :
    ∃ st', update_medians scenario_A_after_100 0 200 tlosusd = some st'
      ∧ (st'.medians_tables tlosusd).find 0
          = some { id := 0, type := .day, value := 300, request_count := 2, timestamp := 1699920000 } := by
  obtain ⟨b, hb, hbg, -, -, st', h1, h2, -⟩ :=
    update_medians_open_day scenario_A_after_100 0 tlosusd 200 (by decide) (by decide) (by decide)
  have hb0 : b = ⟨0, .day, 100, 1, 1699920000⟩ :=
    (by decide : ∀ b ∈ scenario_A_after_100.medians_tables tlosusd, b.type = .day →
      b = ⟨0, .day, 100, 1, 1699920000⟩) b hb hbg
  subst hb0
  exact ⟨st', h1, h2⟩

/-- Two stored sums that do not overflow are the plain sums. -/
theorem find_sum_exact {x : Option medians} {b : medians} {v c : Nat}
    (h : x = some { b with value := u64 (b.value + v), request_count := u64 (b.request_count + c) })
    (hv : b.value + v < 2 ^ 64) (hc : b.request_count + c < 2 ^ 64) :
    x = some { b with value := b.value + v, request_count := b.request_count + c } := by
  rw [h]
  simp only [u64, Nat.mod_eq_of_lt hv, Nat.mod_eq_of_lt hc]

/-- Claim C2: one cascade step in which the only Day bucket `d` of the pair closes with
non-zero totals.  For every granularity `g` that Day feeds (`current_week` and `month`
under the active scheme, `week` under the legacy scheme) and that has a bucket whose
window contains `d.timestamp`, the call returns and the first such bucket of the
timestamp index has its value increased by `d.value` and its count by `d.request_count`
(64-bit arithmetic, exact when nothing overflows), while the Day slot restarts with the
incoming value and count. -/
theorem day_close_cascade (fuel : Nat) (active : Bool) (now : Nat) (t : medianstable) (T v c : Nat)
    (d : medians) (g : median_types)
    (hfuel : 3 ≤ fuel)
    (hids : (t.map (fun m => m.id)).Nodup)
    (hall : ∀ x ∈ reach active .day, x ∈ t.map (fun m => m.type))
    (hd : d ∈ t) (hdg : d.type = .day) (honly : ∀ m ∈ t, m.type = .day → m = d)
    (hclose : is_in_time_range active .day d.timestamp T false = false)
    (hv : d.value ≠ 0) (hc : d.request_count ≠ 0)
    (hg : g ∈ GetUpdateMedians active .day)
    (hex : ∃ b ∈ t, b.type = g ∧ is_in_time_range active g b.timestamp d.timestamp false = true) :
    ∃ b ∈ t, b.type = g ∧ is_in_time_range active g b.timestamp d.timestamp false = true
      ∧ (∀ x ∈ t, x.type = g → is_in_time_range active g x.timestamp d.timestamp false = true →
          b.timestamp < x.timestamp ∨ (b.timestamp = x.timestamp ∧ b.id ≤ x.id))
      ∧ ∃ t', update_medians_by_types fuel active now .day t T v c = some t'
        ∧ t'.find b.id = some { b with value := u64 (b.value + d.value),
                                        request_count := u64 (b.request_count + d.request_count) }
        ∧ (b.value + d.value < 2 ^ 64 → b.request_count + d.request_count < 2 ^ 64 →
            t'.find b.id = some { b with value := b.value + d.value,
                                          request_count := b.request_count + d.request_count })
        ∧ t'.find d.id = some { d with value := v, request_count := c,
                                        timestamp := get_round_up_current_time active now .day } := by
  obtain ⟨f, rfl⟩ : ∃ f, fuel = f + 1 + 1 := ⟨fuel - 2, by omega⟩
  have hf2 : 1 ≤ f := by omega
  -- the Day level rolls over and carries the totals of `d`
  obtain ⟨u, hu⟩ := short_medians_elements_head (hall .day (reach_self active .day))
  have hum := mem_short_medians_elements.1 (List.mem_of_mem_head? hu)
  have hud : u = d := honly u hum.1 hum.2
  subst hud
  obtain ⟨p, hp, hpg, -, hupd⟩ := update_medians_by_types_rollover (f + 1) active now .day t T v c
    (by simp) hids (fun m hm hmg => by rw [honly m hm hmg]; exact hclose) u hu
  have hpd : p = u := honly p hp hpg
  subst hpd
  rw [if_pos ⟨hv, hc⟩] at hupd
  have f1 : frame (fun x => x = .day) t (t.modify p.id (fun obj =>
      { obj with value := v, request_count := c,
                 timestamp := get_round_up_current_time active now .day })) :=
    frame_modify_elem hids (List.mem_of_mem_head? hu) (fun m => ⟨rfl, rfl⟩)
  have hids1 := frame_nodup f1 hids
  have hty1 := frame_types f1
  have hself := medianstable.find_modify_self hids hd (fun obj =>
      { obj with value := v, request_count := c,
                 timestamp := get_round_up_current_time active now .day }) (fun _ => rfl)
  have hdmem1 := (medianstable.find_some hself).1
  have hgne : g ≠ .day := by
    intro h; rw [h] at hg; revert hg; cases active <;> decide
  have to1 : ∀ x : medians, x.type = g → (x ∈ t ↔ x ∈ t.modify p.id (fun obj =>
      { obj with value := v, request_count := c,
                 timestamp := get_round_up_current_time active now .day })) :=
    fun x hx => frame_mem f1 (by rw [hx]; exact hgne)
  rw [hupd]
  have hdfinal : ∀ (S : median_types → Prop) (t' : medianstable), ¬ S .day →
      frame S (t.modify p.id (fun obj =>
        { obj with value := v, request_count := c,
                   timestamp := get_round_up_current_time active now .day })) t' →
      t'.find p.id = some { p with value := v, request_count := c,
                                   timestamp := get_round_up_current_time active now .day } :=
    fun S t' hS hfr => frame_find hfr hids1 hdmem1 (by rw [hdg]; exact hS)
  obtain ⟨b0, hb0, hb0g, hb0r⟩ := hex
  cases active with
  | false =>
    have hgw : g = .week := by revert hg; cases g <;> decide
    subst hgw
    obtain ⟨b, hb, hbg, hbr, hmin, hfound⟩ := update_medians_by_types_found f false now .week _
      p.timestamp p.value p.request_count (by simp) hids1 ⟨b0, (to1 b0 hb0g).1 hb0, hb0g, hb0r⟩
    have hfr := update_medians_by_types_frame (f + 1) false now .week _ _ _ _ _ hids1 hfound
    have hfb := medianstable.find_modify_self hids1 hb (fun obj =>
        { obj with value := u64 (obj.value + p.value),
                   request_count := u64 (obj.request_count + p.request_count) }) (fun _ => rfl)
    refine ⟨b, (to1 b hbg).2 hb, hbg, hbr, fun x hx hxg hxr => hmin x ((to1 x hxg).1 hx) hxg hxr,
      _, ?_, hfb, find_sum_exact hfb, hdfinal _ _ (by decide) hfr⟩
    show List.foldlM _ _ [median_types.week] = _
    rw [List.foldlM_cons, hfound]
    rfl
  | true =>
    have hndS : ¬ (fun x => x ∈ reach true .current_week ∨ x ∈ reach true .month) .day := by
      decide
    rcases (by revert hg; cases g <;> decide : g = .current_week ∨ g = .month) with hgc | hgm
    · subst hgc
      obtain ⟨b, hb, hbg, hbr, hmin, hfound⟩ := update_medians_by_types_found f true now
        .current_week _ p.timestamp p.value p.request_count (by simp) hids1
        ⟨b0, (to1 b0 hb0g).1 hb0, hb0g, hb0r⟩
      have hfr2 := update_medians_by_types_frame (f + 1) true now .current_week _ _ _ _ _ hids1 hfound
      have hids2 := frame_nodup hfr2 hids1
      obtain ⟨t3, h3⟩ := update_medians_by_types_some (f + 1) true now .month _
        p.timestamp p.value p.request_count (by show 1 ≤ f + 1; omega) hids2
        (fun x hx => by
          rw [frame_types hfr2, hty1]
          exact hall x (reach_step true .day .month x (by decide) hx))
      have hfr3 := update_medians_by_types_frame (f + 1) true now .month _ _ _ _ _ hids2 h3
      have hb2 := medianstable.find_modify_self hids1 hb (fun obj =>
        { obj with value := u64 (obj.value + p.value),
                   request_count := u64 (obj.request_count + p.request_count) }) (fun _ => rfl)
      have hfb : t3.find b.id
          = some { b with value := u64 (b.value + p.value),
                          request_count := u64 (b.request_count + p.request_count) } :=
        frame_find hfr3 hids2 (medianstable.find_some hb2).1
          (by show ¬ (b.type ∈ reach true .month); rw [hbg]; decide)
      refine ⟨b, (to1 b hbg).2 hb, hbg, hbr, fun x hx hxg hxr => hmin x ((to1 x hxg).1 hx) hxg hxr,
        t3, ?_, hfb, find_sum_exact hfb, ?_⟩
      · show List.foldlM _ _ [median_types.current_week, median_types.month] = _
        simp only [List.foldlM_cons, List.foldlM_nil, hfound, h3, Option.bind_eq_bind,
          Option.some_bind, Option.pure_def]
      · exact hdfinal _ t3 hndS
          (frame_trans (frame_mono (fun _ h => Or.inl h) hfr2) (frame_mono (fun _ h => Or.inr h) hfr3))
    · subst hgm
      obtain ⟨t2, h2⟩ := update_medians_by_types_some (f + 1) true now .current_week _
        p.timestamp p.value p.request_count (by show 2 ≤ f + 1; omega) hids1
        (fun x hx => by
          rw [hty1]
          exact hall x (reach_step true .day .current_week x (by decide) hx))
      have hfr2 := update_medians_by_types_frame (f + 1) true now .current_week _ _ _ _ _ hids1 h2
      have hids2 := frame_nodup hfr2 hids1
      have to2 : ∀ x : medians, x.type = .month → (x ∈ t ↔ x ∈ t2) := fun x hx =>
        (to1 x hx).trans (frame_mem hfr2 (by rw [hx]; decide))
      obtain ⟨b, hb, hbg, hbr, hmin, hfound⟩ := update_medians_by_types_found f true now
        .month t2 p.timestamp p.value p.request_count (by simp) hids2
        ⟨b0, (to2 b0 hb0g).1 hb0, hb0g, hb0r⟩
      have hfr3 := update_medians_by_types_frame (f + 1) true now .month _ _ _ _ _ hids2 hfound
      have hfb := medianstable.find_modify_self hids2 hb (fun obj =>
          { obj with value := u64 (obj.value + p.value),
                     request_count := u64 (obj.request_count + p.request_count) }) (fun _ => rfl)
      refine ⟨b, (to2 b hbg).2 hb, hbg, hbr, fun x hx hxg hxr => hmin x ((to2 x hxg).1 hx) hxg hxr,
        _, ?_, hfb, find_sum_exact hfb, hdfinal _ _ hndS
          (frame_trans (frame_mono (fun _ h => Or.inl h) hfr2) (frame_mono (fun _ h => Or.inr h) hfr3))⟩
      show List.foldlM _ _ [median_types.current_week, median_types.month] = _
      simp only [List.foldlM_cons, List.foldlM_nil, hfound, h2, Option.bind_eq_bind,
        Option.some_bind, Option.pure_def]

/-- Witness of C2 (Scenario B): under the legacy scheme the Day bucket closes with 300 / 2 at
a week boundary and the week bucket that holds that day goes from 1000 / 10 to 1300 / 12. -/
theorem day_close_cascade_witness :
    ∃ t', update_medians_by_types 4 false 1700179300 .day scenario_B_table 1701907200 70 1 = some t'
      ∧ t'.find 2
          = some { id := 2, type := .week, value := 1300, request_count := 12,
                   timestamp := 1701302400 } := by
  obtain ⟨b, hb, hbg, -, -, t', h1, -, h2, -⟩ :=
    day_close_cascade 4 false 1700179300 scenario_B_table 1701907200 70 1
      { id := 0, type := .day, value := 300, request_count := 2, timestamp := 1701820800 } .week
      (by decide) (by decide) (by decide) (by decide) (by decide) (by decide) (by decide)
      (by decide) (by decide) (by decide) (by decide)
  have hb0 : b = ⟨2, .week, 1000, 10, 1701302400⟩ :=
    (by decide : ∀ b ∈ scenario_B_table, b.type = .week → b = ⟨2, .week, 1000, 10, 1701302400⟩)
      b hb hbg
  subst hb0
  exact ⟨t', h1, h2 (by decide) (by decide)⟩

/-- Claim C3, counterexample: at the second weekly rollover of a pair no week bucket
contains the incoming timestamp, the week row with the lowest id is row 2, and the row
that is overwritten is row 3 (the first of the timestamp index), row 2 being left as it
was. -/
theorem rollover_not_lowest_id :
    (∀ m ∈ second_rollover_table, m.type = .week →
        is_in_time_range false .week m.timestamp 1701907200 false = false)
    ∧ (∀ m ∈ second_rollover_table, m.type = .week → 2 ≤ m.id)
    ∧ update_medians_by_types 4 false 1700265700 .week second_rollover_table 1701907200 300 2
      = some
          [ { id := 2, type := .week, value := 1000, request_count := 10, timestamp := 1701302400 },
            { id := 3, type := .week, value := 300, request_count := 2, timestamp := 1701907200 },
            { id := 6, type := .month, value := 1000, request_count := 10,
              timestamp := 1700697600 } ] := by
  decide

/-- Claim C3, amended: on a rollover of a granularity `g` of the general case the row that
is overwritten is the first row of `g` in the timestamp index, that is the one with the
smallest stored timestamp and, among equal timestamps, the lowest id.  The call returns;
that row ends with the incoming value and count and the timestamp
`get_round_up_current_time(g)`, and no other row of `g` is modified. -/
theorem rollover_overwrites_oldest (fuel : Nat) (active : Bool) (now : Nat) (g : median_types)
    (t : medianstable) (T v c : Nat)
    (hfuel : 3 ≤ fuel)
    (hgen : ¬ (g = .week ∧ active = true))
    (hids : (t.map (fun m => m.id)).Nodup)
    (hall : ∀ x ∈ reach active g, x ∈ t.map (fun m => m.type))
    (hroll : ∀ m ∈ t, m.type = g → is_in_time_range active g m.timestamp T false = false) :
    ∃ u ∈ t, u.type = g
      ∧ (∀ m ∈ t, m.type = g →
          u.timestamp < m.timestamp ∨ (u.timestamp = m.timestamp ∧ u.id ≤ m.id))
      ∧ ∃ t', update_medians_by_types fuel active now g t T v c = some t'
        ∧ t'.find u.id = some { u with value := v, request_count := c,
                                        timestamp := get_round_up_current_time active now g }
        ∧ (∀ m ∈ t, m.type = g → m.id ≠ u.id → t'.find m.id = some m) := by
  obtain ⟨f, rfl⟩ : ∃ f, fuel = f + 1 := ⟨fuel - 1, by omega⟩
  obtain ⟨u, hu⟩ := short_medians_elements_head (hall g (reach_self active g))
  have hum := mem_short_medians_elements.1 (List.mem_of_mem_head? hu)
  obtain ⟨p, -, -, -, hupd⟩ :=
    update_medians_by_types_rollover f active now g t T v c hgen hids hroll u hu
  have hmin : ∀ m ∈ t, m.type = g →
      u.timestamp < m.timestamp ∨ (u.timestamp = m.timestamp ∧ u.id ≤ m.id) := fun m hm hmg =>
    pairwise_head_le (short_medians_elements_pairwise g t) hu m
      (mem_short_medians_elements.2 ⟨hm, hmg⟩)
  have f1 : frame (fun x => x = g) t (t.modify u.id (fun obj =>
      { obj with value := v, request_count := c,
                 timestamp := get_round_up_current_time active now g })) :=
    frame_modify_elem hids (List.mem_of_mem_head? hu) (fun m => ⟨rfl, rfl⟩)
  have hids1 := frame_nodup f1 hids
  have hself := medianstable.find_modify_self hids hum.1 (fun obj =>
      { obj with value := v, request_count := c,
                 timestamp := get_round_up_current_time active now g }) (fun _ => rfl)
  have hother : ∀ m ∈ t, m.id ≠ u.id → (t.modify u.id (fun obj =>
      { obj with value := v, request_count := c,
                 timestamp := get_round_up_current_time active now g })).find m.id = some m :=
    fun m hm hne => medianstable.find_modify_other hids hm hne _ (fun _ => rfl)
  refine ⟨u, hum.1, hum.2, hmin, ?_⟩
  rw [hupd]
  split
  · obtain ⟨t', ht', hf'⟩ := cascade_some_frame f active now g _ p.timestamp p.value
      p.request_count (by have := height_le_three active g; omega) hids1
      (fun x hx => by rw [frame_types f1]; exact hall x hx)
    have hnot : ∀ m : medians, m.type = g →
        ¬ (∃ g' ∈ GetUpdateMedians active g, m.type ∈ reach active g') := by
      intro m hmg ⟨g', hg', hin⟩
      rw [hmg] at hin
      exact reach_acyclic active g g' hg' hin
    refine ⟨t', ht', ?_, ?_⟩
    · have := frame_find hf' hids1 ((medianstable.find_some hself).1) (hnot _ hum.2)
      exact this
    · intro m hm hmg hne
      exact frame_find hf' hids1 ((medianstable.find_some (hother m hm hne)).1) (hnot m hmg)
  · exact ⟨_, rfl, hself, fun m hm _ hne => hother m hm hne⟩

/-- Witness of C3: the second weekly rollover overwrites row 3 and keeps row 2. -/
theorem rollover_overwrites_oldest_witness :
    ∃ t', update_medians_by_types 4 false 1700265700 .week second_rollover_table 1701907200 300 2
        = some t'
      ∧ t'.find 3
          = some { id := 3, type := .week, value := 300, request_count := 2,
                   timestamp := 1701907200 }
      ∧ t'.find 2
          = some { id := 2, type := .week, value := 1000, request_count := 10,
                   timestamp := 1701302400 } := by
  obtain ⟨u, hu, hug, hmin, t', h1, h2, h3⟩ :=
    rollover_overwrites_oldest 4 false 1700265700 .week second_rollover_table 1701907200 300 2
      (by decide) (by decide) (by decide) (by decide) (by decide)
  have hu0 : u = ⟨3, .week, 0, 0, 0⟩ :=
    (by decide : ∀ u ∈ second_rollover_table, u.type = .week →
      (∀ m ∈ second_rollover_table, m.type = .week →
        u.timestamp < m.timestamp ∨ (u.timestamp = m.timestamp ∧ u.id ≤ m.id)) →
      u = ⟨3, .week, 0, 0, 0⟩) u hu hug hmin
  subst hu0
  exact ⟨t', h1, h2, h3 ⟨2, .week, 1000, 10, 1701302400⟩ (by decide) (by decide) (by decide)⟩

/-- Claim C4: for a pair that holds exactly `limits g` rows of every granularity `g`,
`update_medians` (with its whole cascade) returns and leaves `limits g` rows of every
granularity, with the same primary keys and granularities row by row (nothing is inserted
or erased), and `make_records_for_medians_table` leaves the state as it is. -/
theorem bucket_count_invariant (st : State) (owner pair payer : name) (v : Nat)
    (type : median_types) (default_median : medians)
    (hids : ((st.medians_tables pair).map (fun m => m.id)).Nodup)
    (hcap : ∀ g, List.countP (fun m => decide (m.type = g)) (st.medians_tables pair) = limits g) :
    (∃ st', update_medians st owner v pair = some st'
        ∧ (∀ g, List.countP (fun m => decide (m.type = g)) (st'.medians_tables pair) = limits g)
        ∧ (st'.medians_tables pair).map (fun m => m.id) = (st.medians_tables pair).map (fun m => m.id)
        ∧ (st'.medians_tables pair).map (fun m => m.type)
            = (st.medians_tables pair).map (fun m => m.type))
    ∧ make_records_for_medians_table st type pair payer default_median = st
    ∧ (∀ g, List.countP (fun m => decide (m.type = g))
          ((make_records_for_medians_table st type pair payer default_median).medians_tables pair)
        = limits g) := by
  have hmake : make_records_for_medians_table st type pair payer default_median = st := by
    unfold make_records_for_medians_table
    simp [hcap type]
  refine ⟨?_, hmake, ?_⟩
  · cases hact : st.is_medians_active with
    | false => exact ⟨st, by simp [update_medians, hact], hcap, rfl, rfl⟩
    | true =>
      have hlen : (st.medians_tables pair).length > 0 := by
        have := types_of_capacity hcap .day
        exact List.length_pos_of_mem (List.mem_map.1 this).choose_spec.1
      obtain ⟨t', ht'⟩ := update_medians_by_types_some 4 (is_active_current_week st) st.now .day
        (st.medians_tables pair)
        (get_round_up_current_time (is_active_current_week st) st.now .day) v 1 (Nat.le_succ_of_le (height_le_three _ _)) hids
        (fun x _ => types_of_capacity hcap x)
      have hf := update_medians_by_types_frame 4 _ _ _ _ _ _ _ t' hids ht'
      refine ⟨{ st with
          is_active_current_week_cashe := is_active_current_week st
          medians_tables := Function.update st.medians_tables pair t' }, ?_, ?_, ?_, ?_⟩
      · simp only [update_medians, hact, hlen, ht']
        simp
      · intro g
        simp only [Function.update_same]
        rw [frame_countP hf g]
        exact hcap g
      · simp only [Function.update_same]
        exact frame_ids hf
      · simp only [Function.update_same]
        exact frame_types hf
  · intro g
    rw [hmake]
    exact hcap g

/-- Witness of C4: the freshly provisioned pair `tlosusd`. -/
theorem bucket_count_invariant_witness :
    (∃ st', update_medians (provision_medians example_empty tlosusd 0) 0 100 tlosusd = some st'
      ∧ ∀ g, List.countP (fun m => decide (m.type = g)) (st'.medians_tables tlosusd) = limits g)
    ∧ ∀ g, List.countP (fun m => decide (m.type = g))
        ((make_records_for_medians_table (provision_medians example_empty tlosusd 0) .week tlosusd 0
            medians.default).medians_tables tlosusd) = limits g := by
  have h := bucket_count_invariant (provision_medians example_empty tlosusd 0) 0 tlosusd 0 100 .week
    medians.default (by decide) (by intro g; cases g <;> decide)
  obtain ⟨⟨st', h1, h2, -⟩, -, h3⟩ := h
  exact ⟨⟨st', h1, h2⟩, h3⟩

/-- Claim C5, counterexample: under the legacy scheme at the clock value `4294967295` the
formula `n - n mod 86400` with `n = now + 1728000` gives `4296672000`, which is not below
`2 ^ 32`, while the Day bucket start that the code returns is a `time_point_sec`, a 32-bit
value. -/
theorem get_round_up_current_time_wraps :
    (4294967295 + 1728000) - (4294967295 + 1728000) % 86400 = 4296672000
    ∧ get_round_up_current_time false 4294967295 .day < 2 ^ 32
    ∧ get_round_up_current_time false 4294967295 .day
        ≠ (4294967295 + 1728000) - (4294967295 + 1728000) % 86400 := by
  decide

/-- Claim C5, amended: for `g` among Day, CurrentWeek and LegacyWeek, with durations 86400,
604800 and 604800: under the active scheme the bucket start is `now - now mod d(g)` for
every 32-bit `now`; under the legacy scheme, with `n = now + 1728000`, it is
`n - n mod d(g)` whenever `n < 2 ^ 32`, and then the Month bucket start is
`n - n mod 2419200`. -/
theorem get_round_up_current_time_spec (now : Nat) (g : median_types) (hg : g ≠ .month) :
    (time_consts .day = 86400 ∧ time_consts .current_week = 604800 ∧ time_consts .week = 604800)
    ∧ (now < 2 ^ 32 → get_round_up_current_time true now g = now - now % time_consts g)
    ∧ (now + 1728000 < 2 ^ 32 →
        get_round_up_current_time false now g
            = (now + 1728000) - (now + 1728000) % time_consts g
        ∧ get_round_up_current_time false now .month
            = (now + 1728000) - (now + 1728000) % 2419200) := by
  refine ⟨by decide, ?_, ?_⟩
  · intro h
    have hle : now - now % time_consts g < 2 ^ 32 := by omega
    cases g <;> simp_all [get_round_up_current_time, time_point_sec, Nat.mod_eq_of_lt]
  · intro h
    have h1 : (now + 1728000) - (now + 1728000) % time_consts g < 2 ^ 32 := by omega
    have h2 : (now + 1728000) - (now + 1728000) % 2419200 < 2 ^ 32 := by omega
    refine ⟨?_, ?_⟩
    · cases g <;> simp_all [get_round_up_current_time, time_point_sec, Nat.mod_eq_of_lt, time_consts]
    · simp [get_round_up_current_time, time_point_sec, time_consts]
      omega

/-- Witness of C5: the week that holds the clock value `1700000000` under both schemes. -/
theorem get_round_up_current_time_spec_witness :
    get_round_up_current_time true 1700000000 .week = 1700000000 - 1700000000 % time_consts .week
    ∧ get_round_up_current_time false 1700000000 .week
        = (1700000000 + 1728000) - (1700000000 + 1728000) % time_consts .week :=
  ⟨(get_round_up_current_time_spec 1700000000 .week (by decide)).2.1 (by decide),
   ((get_round_up_current_time_spec 1700000000 .week (by decide)).2.2 (by decide)).1⟩

/-- Claim C6: for a fixed-duration granularity `g` (Day, CurrentWeek, LegacyWeek) with
duration `d = time_consts g`, `is_in_time_range` is true exactly when `s ≤ c' < s + d`,
where `c'` is `c - d` if `use_previous_bucket` and `c` otherwise; with
`use_previous_bucket` that is `s + d ≤ c < s + 2 d`. -/
theorem is_in_time_range_fixed_duration (active : Bool) (g : median_types) (s c : Nat)
    (use_previous_bucket : Bool) (hg : g ≠ .month) :
    (is_in_time_range active g s c use_previous_bucket = true ↔
      (s : Int) ≤ (if use_previous_bucket then (c : Int) - time_consts g else c)
        ∧ (if use_previous_bucket then (c : Int) - time_consts g else c) < (s : Int) + time_consts g)
    ∧ (is_in_time_range active g s c true = true ↔
      s + time_consts g ≤ c ∧ c < s + 2 * time_consts g)
    ∧ (is_in_time_range active g s c false = true ↔ s ≤ c ∧ c < s + time_consts g) := by
  refine ⟨?_, ?_, ?_⟩
  · cases g <;> simp_all [is_in_time_range]
  · cases g <;> simp_all [is_in_time_range] <;> omega
  · cases g <;> simp_all [is_in_time_range] <;> omega

/-- Witness of C6: a candidate in the week after the bucket that starts at `604800`. -/
theorem is_in_time_range_fixed_duration_witness :
    is_in_time_range true .week 604800 1300000 true = true ↔
      604800 + time_consts .week ≤ 1300000 ∧ 1300000 < 604800 + 2 * time_consts .week :=
  (is_in_time_range_fixed_duration true .week 604800 1300000 true (by decide)).2.1

/-- Claim C7, the code at a failing input: under the active scheme at the clock value
`1700000000` (day-of-month 14 for this calendar) the Month bucket start is `1699920000`,
the start of the current day, whose day-of-month is 14 and not 1: `mktime` never reads
`tm_mday`, so setting it to 1 has no effect. -/
theorem get_round_up_current_time_month_is_day_start :
    get_round_up_current_time true 1700000000 .month = 1699920000
    ∧ get_round_up_current_time true 1700000000 .day = 1699920000
    ∧ gmtime (some 1700000000)
        = some { tm_sec := 20, tm_min := 13, tm_hour := 22, tm_mday := 14, tm_mon := 10,
                 tm_year := 123, tm_yday := 317 }
    ∧ gmtime (some 1699920000)
        = some { tm_sec := 0, tm_min := 0, tm_hour := 0, tm_mday := 14, tm_mon := 10,
                 tm_year := 123, tm_yday := 317 } := by
  decide

/-- Claim C8, the code at a failing input: `1639872000` is the Day bucket start of the clock
value `1639872005` under the active scheme, and `mktime (gmtime 1639872000)` is
`1639785600`, one day less: `gmtime` counts 13 leap days (from `52 / 4`) and `mktime`
adds back 12 (from `51 / 4`). -/
theorem mktime_gmtime_loses_a_day :
    get_round_up_current_time true 1639872005 .day = 1639872000
    ∧ gmtime (some 1639872000)
        = some { tm_sec := 0, tm_min := 0, tm_hour := 0, tm_mday := 0, tm_mon := 0,
                 tm_year := 121, tm_yday := 352 }
    ∧ mktime (gmtime (some 1639872000)) = 1639785600
    ∧ mktime (gmtime (some 1639872000)) ≠ 1639872000 := by
  decide

/-- Claim C9, the code at a failing input: with `daily_datapoints_per_instrument = 5` and a
ring of exactly 5 daily points, a sixth distinct day is appended: the ring then holds 6
points and the oldest one (day 1) is still there.  The guard of the overwrite is
`count > daily_datapoints_per_instrument`. -/
theorem update_daily_datapoints_at_capacity_appends :
    (scenario_C.dailydatapoints_tables tlosusd).length = scenario_C.daily_datapoints_per_instrument
    ∧ (update_daily_datapoints scenario_C tlosusd).map (fun st => st.dailydatapoints_tables tlosusd)
      = some
          [ { id := 0, value := 10, timestamp := 86400 },
            { id := 1, value := 20, timestamp := 172800 },
            { id := 2, value := 30, timestamp := 259200 },
            { id := 3, value := 40, timestamp := 345600 },
            { id := 4, value := 50, timestamp := 432000 },
            { id := 5, value := 100, timestamp := 518400 } ] := by
  decide

/-- Claim C10, the code at a failing input: the 7-day average of a ring that holds the single
daily point 3000000000 is 18446744072414584320 and not 3000000000, and the average of
four points of 600000000 is not 600000000: `std::accumulate` starts from the `int` 0,
so the sum is kept in 32 signed bits. -/
theorem compute_last_days_average_truncates :
    compute_last_days_average [{ id := 0, value := 3000000000, timestamp := 86400 }] 7
      = 18446744072414584320
    ∧ compute_last_days_average
        [ { id := 0, value := 600000000, timestamp := 86400 },
          { id := 1, value := 600000000, timestamp := 172800 },
          { id := 2, value := 600000000, timestamp := 259200 },
          { id := 3, value := 600000000, timestamp := 345600 } ] 7
      = 18446744073235809792
    ∧ compute_last_days_average
        [ { id := 0, value := 10, timestamp := 86400 },
          { id := 1, value := 20, timestamp := 172800 },
          { id := 2, value := 31, timestamp := 259200 } ] 7
      = 20 := by
  decide

/-- Claim C11, the code at a failing input: the pair `tlosusd` has just been provisioned, its
Day bucket holds count 0, and `get_daily_median` does not return an empty result: the
division by the zero count ends the transaction, also for `update_daily_datapoints` and for a
`write` that reaches it (engine switched off, rollup due).  Without any Day bucket the
result is empty. -/
theorem get_daily_median_zero_count_traps :
    ((provision_medians example_empty tlosusd 0).medians_tables tlosusd).find 0
      = some { id := 0, type := .day, value := 0, request_count := 0, timestamp := 0 }
    ∧ get_daily_median (provision_medians example_empty tlosusd 0) tlosusd = none
    ∧ (update_daily_datapoints (provision_medians example_empty tlosusd 0) tlosusd).isSome = false
    ∧ (write_quote example_provisioned_switched_off 0 { value := 100, pair := tlosusd }).isSome
        = false
    ∧ get_daily_median example_empty tlosusd = some none := by
  decide

/-- Claim C12, counterexample: at the clock value 3000000000, with `last_daily_average_run`
0 and `daily_average_timeout` 3600, `now > last_daily_average_run + daily_average_timeout`
holds and the rollup does not run: the state is returned with the timer still at 0 and no
average stored, the clock being compared as an `int32_t`. -/
theorem write_daily_average_after_2038 :
    ((3000000000 : Int) > 0 + 3600)
    ∧ (write_daily_average { scenario_C with now := 3000000000 } tlosusd).map
        (fun st => (st.last_daily_average_run, st.dailydatapoints_tables tlosusd,
          st.averages_tables tlosusd))
      = some (0, scenario_C.dailydatapoints_tables tlosusd, []) := by
  decide

/-- Claim C12, amended: for a clock below `2 ^ 31` and a sum
`last_daily_average_run + daily_average_timeout` within the `int32_t` range, the end of the
loop body of `write` runs `update_daily_datapoints` and `update_averages` if and only if
`now > last_daily_average_run + daily_average_timeout`, after having set
`last_daily_average_run` to `now`; otherwise the state is returned as it is.  After a run
that returns, the timer holds `now`, and for a cooldown of at least 0 that keeps
`now + cooldown` below `2 ^ 31` no run happens at any clock value `now'` with
`now ≤ now' ≤ now + cooldown`. -/
theorem write_daily_average_rate_limit (st : State) (pair : name)
    (hnow : st.now < 2 ^ 31)
    (hlo : -2 ^ 31 ≤ st.last_daily_average_run + st.daily_average_timeout)
    (hhi : st.last_daily_average_run + st.daily_average_timeout < 2 ^ 31) :
    ((st.now : Int) > st.last_daily_average_run + st.daily_average_timeout →
        write_daily_average st pair
          = (update_daily_datapoints { st with last_daily_average_run := (st.now : Int) } pair).map
              (fun s => update_averages s pair))
    ∧ (¬ ((st.now : Int) > st.last_daily_average_run + st.daily_average_timeout) →
        write_daily_average st pair = some st)
    ∧ (∀ st', (st.now : Int) > st.last_daily_average_run + st.daily_average_timeout →
        write_daily_average st pair = some st' →
        st'.last_daily_average_run = (st.now : Int)
        ∧ ∀ now' : Nat, st.now ≤ now' → 0 ≤ st.daily_average_timeout →
            (now' : Int) ≤ (st.now : Int) + st.daily_average_timeout →
            (st.now : Int) + st.daily_average_timeout < 2 ^ 31 →
            write_daily_average { st' with now := now' } pair = some { st' with now := now' }) := by
  have hrun : (st.now : Int) > st.last_daily_average_run + st.daily_average_timeout →
      write_daily_average st pair
        = (update_daily_datapoints { st with last_daily_average_run := (st.now : Int) } pair).map
            (fun s => update_averages s pair) := by
    intro h
    unfold write_daily_average
    simp only [to_int32_of_lt st.now hnow, int32_of_int_of_range _ hlo hhi, if_pos h]
    cases update_daily_datapoints { st with last_daily_average_run := (st.now : Int) } pair <;> rfl
  refine ⟨hrun, ?_, ?_⟩
  · intro h
    unfold write_daily_average
    simp only [to_int32_of_lt st.now hnow, int32_of_int_of_range _ hlo hhi, if_neg h]
  · intro st' h hst'
    rw [hrun h] at hst'
    cases hd : update_daily_datapoints { st with last_daily_average_run := (st.now : Int) } pair with
    | none => rw [hd] at hst'; cases hst'
    | some s =>
      rw [hd] at hst'
      have hs := update_daily_datapoints_scalars _ s pair hd
      have hst : st' = update_averages s pair := (Option.some.inj hst').symm
      have hlast : st'.last_daily_average_run = (st.now : Int) := by
        rw [hst]; exact hs.2.1
      have htime : st'.daily_average_timeout = st.daily_average_timeout := by
        rw [hst]; exact hs.2.2
      refine ⟨hlast, fun now' h1 h2 h3 h4 => ?_⟩
      unfold write_daily_average
      have hnow' : now' < 2 ^ 31 := by omega
      simp only [hlast, htime, to_int32_of_lt now' hnow',
        int32_of_int_of_range ((st.now : Int) + st.daily_average_timeout) (by omega) h4]
      rw [if_neg (by omega)]

/-- Witness of C12: the rollup of Scenario C runs at the clock value 600000 and not again at
601000. -/
theorem write_daily_average_rate_limit_witness :
    (write_daily_average scenario_C tlosusd).isSome = true
    ∧ scenario_C_after_rollup.last_daily_average_run = 600000
    ∧ write_daily_average { scenario_C_after_rollup with now := 601000 } tlosusd
        = some { scenario_C_after_rollup with now := 601000 } :=
  have h := (write_daily_average_rate_limit scenario_C tlosusd (by decide) (by decide)
    (by decide)).2.2 scenario_C_after_rollup (by decide) (by rfl)
  ⟨by decide, h.1, h.2 601000 (by decide) (by decide) (by decide) (by decide)⟩

/-- Claim C13, counterexample: with the activation flag off the pair holds no Day bucket
before the call and none after it, while `max 0 (limits day)` is 1. -/
theorem ensure_capacity_switched_off :
    List.countP (fun m => decide (m.type = .day)) (example_switched_off.medians_tables tlosusd) = 0
    ∧ List.countP (fun m => decide (m.type = .day))
        ((make_records_for_medians_table example_switched_off .day tlosusd 0
            medians.default).medians_tables tlosusd) = 0
    ∧ max 0 (limits .day) = 1 := by
  decide

/-- Claim C13, amended: with the activation flag on, after
`make_records_for_medians_table` called with the default empty bucket the table of the pair
is the table before the call followed by the created rows, every created row has the
granularity `g`, value 0, count 0 and the null timestamp, the pair holds
`max n (limits g)` rows of `g` where `n` is the count before the call, and the counts of the
other granularities and the tables of the other pairs are unchanged. -/
theorem ensure_capacity_creates_missing (st : State) (g : median_types) (pair payer : name)
    (hactive : st.is_medians_active = true) :
    (limits .day = 1 ∧ limits .current_week = 1 ∧ limits .week = 4 ∧ limits .month = 12)
    ∧ ∃ created : medianstable,
      (make_records_for_medians_table st g pair payer medians.default).medians_tables pair
        = st.medians_tables pair ++ created
      ∧ (∀ m ∈ created, m.type = g ∧ m.value = 0 ∧ m.request_count = 0
          ∧ m.timestamp = NULL_TIME_POINT)
      ∧ List.countP (fun m => decide (m.type = g))
          ((make_records_for_medians_table st g pair payer medians.default).medians_tables pair)
        = max (List.countP (fun m => decide (m.type = g)) (st.medians_tables pair)) (limits g)
      ∧ (∀ g', g' ≠ g →
          List.countP (fun m => decide (m.type = g'))
            ((make_records_for_medians_table st g pair payer medians.default).medians_tables pair)
          = List.countP (fun m => decide (m.type = g')) (st.medians_tables pair))
      ∧ (∀ q, q ≠ pair →
          (make_records_for_medians_table st g pair payer medians.default).medians_tables q
            = st.medians_tables q) := by
  refine ⟨by decide, ?_⟩
  obtain ⟨created, h1, h2, h3, -⟩ := make_records_table st g pair payer medians.default hactive
  refine ⟨created, h1, fun m hm => h3 m hm, ?_, ?_, fun q hq => make_records_other st g pair payer _ q hq⟩
  · rw [h1, countP_append_created g g _ _ (fun m hm => (h3 m hm).1), if_pos rfl, h2]
    omega
  · intro g' hg'
    rw [h1, countP_append_created g g' _ _ (fun m hm => (h3 m hm).1), if_neg (Ne.symm hg')]
    rfl

/-- Witness of C13: the week slots of a pair that has none. -/
theorem ensure_capacity_creates_missing_witness :
    List.countP (fun m => decide (m.type = .week))
        ((make_records_for_medians_table example_empty .week tlosusd 0
            medians.default).medians_tables tlosusd)
      = max (List.countP (fun m => decide (m.type = .week)) (example_empty.medians_tables tlosusd))
          (limits .week) := by
  obtain ⟨-, created, -, -, h, -⟩ :=
    ensure_capacity_creates_missing example_empty .week tlosusd 0 (by decide)
  exact h

/-- Claim C14: calling `make_records_for_medians_table` twice in a row with the same
arguments leaves the state that a single call leaves. -/
theorem ensure_capacity_idempotent (st : State) (type : median_types) (pair payer : name)
    (default_median : medians) :
    make_records_for_medians_table
        (make_records_for_medians_table st type pair payer default_median)
        type pair payer default_median
      = make_records_for_medians_table st type pair payer default_median := by
  cases hact : st.is_medians_active with
  | false =>
    have h1 : make_records_for_medians_table st type pair payer default_median = st := by
      unfold make_records_for_medians_table; simp [hact]
    rw [h1, h1]
  | true =>
    by_cases hc : List.countP (fun m => decide (m.type = type)) (st.medians_tables pair)
        = limits type
    · have h1 : make_records_for_medians_table st type pair payer default_median = st := by
        unfold make_records_for_medians_table; simp [hact, hc]
      rw [h1, h1]
    · obtain ⟨created, h1, h2, h3, -⟩ := make_records_table st type pair payer default_median hact
      have hact' : (make_records_for_medians_table st type pair payer
          default_median).is_medians_active = true := by
        unfold make_records_for_medians_table; simp [hact, hc]
      by_cases hlt : List.countP (fun m => decide (m.type = type)) (st.medians_tables pair)
          < limits type
      · have hcount : List.countP (fun m => decide (m.type = type))
            ((make_records_for_medians_table st type pair payer default_median).medians_tables pair)
            = limits type := by
          rw [h1, countP_append_created type type _ _ (fun m hm => (h3 m hm).1), if_pos rfl, h2]
          omega
        generalize make_records_for_medians_table st type pair payer default_median = st1 at *
        unfold make_records_for_medians_table
        simp [hact', hcount]
      · have hzero : limits type
            - List.countP (fun m => decide (m.type = type)) (st.medians_tables pair) = 0 := by
          omega
        have hst1 : make_records_for_medians_table st type pair payer default_median
            = { st with medians_tables :=
                  Function.update st.medians_tables pair (st.medians_tables pair) } := by
          unfold make_records_for_medians_table
          simp [hact, hc, hzero, make_records_loop]
        rw [hst1]
        unfold make_records_for_medians_table
        simp [hact, hc, hzero, make_records_loop]

/-- Claim C15: `updtversion` is rejected exactly when the activation flag is off or the
pair `tlosusd` already holds a `current_week` bucket, and it goes through exactly when the
flag is on and there is no such bucket.  A rejected action leaves every table as it was. -/
theorem updtversion_rejected_iff (st : State) :
    (updtversion st = none ↔ (st.is_medians_active = false ∨ is_active_current_week st = true))
    ∧ ((∃ st', updtversion st = some st')
        ↔ (st.is_medians_active = true ∧ is_active_current_week st = false))
    ∧ (is_active_current_week st = true
        ↔ ∃ m ∈ st.medians_tables tlosusd, m.type = .current_week) := by
  refine ⟨?_, ?_, is_active_current_week_iff st⟩
  · unfold updtversion
    cases hact : st.is_medians_active <;> cases hcw : is_active_current_week st <;> simp
  · unfold updtversion
    cases hact : st.is_medians_active <;> cases hcw : is_active_current_week st <;> simp

/-- Claim C16, counterexample: with the flag on and an empty pairs table `updtversion`
goes through, and a second run right after it goes through as well. -/
theorem updtversion_twice_without_pairs :
    example_empty.pairs = []
    ∧ (updtversion example_empty).isSome = true
    ∧ ((updtversion example_empty).bind updtversion).isSome = true := by
  decide

/-- Claim C16, amended: when `tlosusd` is among the pairs, a second `updtversion` issued
right after a successful one is rejected, because `tlosusd` now holds a `current_week`
bucket. -/
theorem updtversion_once (st st' : State) (hrun : updtversion st = some st')
    (htlos : tlosusd ∈ st.pairs) :
    is_active_current_week st' = true ∧ updtversion st' = none := by
  have hcw : is_active_current_week st' = true := by
    rw [is_active_current_week_iff]
    have h := updtversion_table st st' hrun
    unfold updtversion at hrun
    simp [h.1, h.2.1] at hrun
    subst hrun
    exact updtversion_fold_current_week _ st h.1 (Or.inl htlos)
  refine ⟨hcw, ?_⟩
  unfold updtversion
  cases hact : st'.is_medians_active <;> simp [hcw]

/-- Witness of C16 (Scenario E): the migration of a legacy state with the pair `tlosusd`
cannot be run a second time. -/
theorem updtversion_once_witness :
    (updtversion example_legacy).isSome = true ∧ updtversion example_migrated = none :=
  ⟨by decide, (updtversion_once example_legacy example_migrated (by rfl) (by decide)).2⟩

/-- Claim C17: a successful `updtversion` and a pair of the pairs table without a
`current_week` bucket.  The carried row is the week row found by the first loop (the first
week row of the timestamp index whose window contains `get_round_up_current_time(day)`),
and has value 0 and count 0 when there is none.  Afterwards that week row holds value 0,
count 0 and the null timestamp, the pair holds exactly one `current_week` row, which has the
value and the count of the carried row, and the sums of the values and of the counts over
the week and `current_week` rows of the pair are the same as before. -/
theorem migration_transplant (st st' : State) (p : name)
    (hrun : updtversion st = some st')
    (hpairs : st.pairs.Nodup) (hp : p ∈ st.pairs)
    (hids : ((st.medians_tables p).map (fun m => m.id)).Nodup)
    (hnocw : ∀ m ∈ st.medians_tables p, m.type ≠ .current_week) :
    (∀ w, updtversion_find st.is_active_current_week_cashe st.now .week (st.medians_tables p)
          = some w →
        w ∈ st.medians_tables p ∧ w.type = .week
        ∧ is_in_time_range st.is_active_current_week_cashe .week w.timestamp
            (get_round_up_current_time st.is_active_current_week_cashe st.now .day) false = true
        ∧ updtversion_carried st.is_active_current_week_cashe st.now (st.medians_tables p) = w
        ∧ (st'.medians_tables p).find w.id
            = some { w with value := 0, request_count := 0, timestamp := NULL_TIME_POINT })
    ∧ (updtversion_find st.is_active_current_week_cashe st.now .week (st.medians_tables p) = none →
        (updtversion_carried st.is_active_current_week_cashe st.now (st.medians_tables p)).value = 0
        ∧ (updtversion_carried st.is_active_current_week_cashe st.now
            (st.medians_tables p)).request_count = 0)
    ∧ (∃ c ∈ st'.medians_tables p, c.type = .current_week
        ∧ c.value = (updtversion_carried st.is_active_current_week_cashe st.now
            (st.medians_tables p)).value
        ∧ c.request_count = (updtversion_carried st.is_active_current_week_cashe st.now
            (st.medians_tables p)).request_count
        ∧ ∀ c' ∈ st'.medians_tables p, c'.type = .current_week → c' = c)
    ∧ total (fun m => m.value) .week (st'.medians_tables p)
        + total (fun m => m.value) .current_week (st'.medians_tables p)
      = total (fun m => m.value) .week (st.medians_tables p)
        + total (fun m => m.value) .current_week (st.medians_tables p)
    ∧ total (fun m => m.request_count) .week (st'.medians_tables p)
        + total (fun m => m.request_count) .current_week (st'.medians_tables p)
      = total (fun m => m.request_count) .week (st.medians_tables p)
        + total (fun m => m.request_count) .current_week (st.medians_tables p) := by
  have hr := updtversion_table st st' hrun
  have htab := hr.2.2.1 p hpairs hp
  obtain ⟨c0, hc, hc0t, hc0v, hc0c, hno2⟩ :=
    updtversion_pair_table_no_current_week st p hr.1 hids hnocw
  rw [hc] at htab
  have f1 := updtversion_zero_week_frame st.is_active_current_week_cashe st.now _ hids
  have hids1 := frame_nodup f1 hids
  have f2 := updtversion_fold_month_frame st.is_active_current_week_cashe st.now
    (updtversion_carried st.is_active_current_week_cashe st.now (st.medians_tables p)) _ hids1
  rw [htab]
  refine ⟨?_, ?_, ?_, ?_, ?_⟩
  · intro w hw
    have hwm := updtversion_find_some hw
    have hcar : updtversion_carried st.is_active_current_week_cashe st.now (st.medians_tables p)
        = w := by
      unfold updtversion_carried; rw [hw]
    refine ⟨hwm.1, hwm.2.1, hwm.2.2, hcar, ?_⟩
    have h1 : (updtversion_zero_week st.is_active_current_week_cashe st.now
        (st.medians_tables p)).find w.id
        = some { w with value := 0, request_count := 0, timestamp := NULL_TIME_POINT } := by
      unfold updtversion_zero_week
      rw [hw]
      exact medianstable.find_modify_self hids hwm.1 _ (fun _ => rfl)
    have h2 := frame_find f2 hids1 (medianstable.find_some h1).1
      (by show ¬ (w.type = .month); rw [hwm.2.1]; decide)
    have h3 := medianstable.find_append_left _ [c0] _ _ h2
    unfold updtversion_erase_bias
    rw [medianstable.find_map _ _ (fun m => (updtversion_erase_bias_row_fields m).1)]
    have h3' : medianstable.find (updtversion_fold_month st.is_active_current_week_cashe st.now
        (updtversion_carried st.is_active_current_week_cashe st.now (st.medians_tables p))
        (updtversion_zero_week st.is_active_current_week_cashe st.now (st.medians_tables p))
        ++ [c0]) w.id
        = some { w with value := 0, request_count := 0, timestamp := NULL_TIME_POINT } := h3
    rw [h3']
    simp only [Option.map_some']
    rw [updtversion_erase_bias_row_null _ rfl]
  · intro hnone
    unfold updtversion_carried
    rw [hnone]
    exact ⟨rfl, rfl⟩
  · refine ⟨updtversion_erase_bias_row c0, ?_, ?_, ?_, ?_, ?_⟩
    · unfold updtversion_erase_bias
      exact List.mem_map_of_mem _ (List.mem_append_right _ (List.mem_singleton_self _))
    · rw [(updtversion_erase_bias_row_fields c0).2.1]; exact hc0t
    · rw [(updtversion_erase_bias_row_fields c0).2.2.1]; exact hc0v
    · rw [(updtversion_erase_bias_row_fields c0).2.2.2]; exact hc0c
    · intro c' hc' hc't
      unfold updtversion_erase_bias at hc'
      obtain ⟨x, hx, rfl⟩ := List.mem_map.1 hc'
      rcases List.mem_append.1 hx with hx | hx
      · rw [(updtversion_erase_bias_row_fields x).2.1] at hc't
        exact absurd hc't (hno2 x hx)
      · rw [List.mem_singleton.1 hx]
  · exact updtversion_pair_total (fun m => m.value) (fun _ => rfl)
      (fun m => (updtversion_erase_bias_row_fields m).2.2.1) rfl _ _ _ c0 hids hnocw hc0t hc0v
  · exact updtversion_pair_total (fun m => m.request_count) (fun _ => rfl)
      (fun m => (updtversion_erase_bias_row_fields m).2.2.2) rfl _ _ _ c0 hids hnocw hc0t hc0c

/-- Witness of C17: the migration of the legacy example zeroes the week row 1, which holds
1000 over 10 quotes, and keeps the week and `current_week` totals. -/
theorem migration_transplant_witness :
    (example_migrated.medians_tables tlosusd).find 1
      = some { id := 1, type := .week, value := 0, request_count := 0, timestamp := 0 }
    ∧ total (fun m => m.value) .week (example_migrated.medians_tables tlosusd)
        + total (fun m => m.value) .current_week (example_migrated.medians_tables tlosusd)
      = total (fun m => m.value) .week (example_legacy.medians_tables tlosusd)
        + total (fun m => m.value) .current_week (example_legacy.medians_tables tlosusd) :=
  have h := migration_transplant example_legacy example_migrated tlosusd (by rfl) (by decide)
    (by decide) (by decide) (by decide)
  ⟨(h.1 ⟨1, .week, 1000, 10, 1701302400⟩ (by decide)).2.2.2.2, h.2.2.2.1⟩

/-- Claim C18: a successful `updtversion` and a pair of the pairs table.  When a month row of
the pair contains `get_round_up_current_time(day)`, the first such row of the timestamp
index ends with its value increased by the value of the carried row and its count by the
count of the carried row (64-bit sums, exact when nothing overflows), and every other month
row of the pair keeps its value and its count; when no month row contains it, every month
row keeps its value and its count. -/
theorem migration_month_fold (st st' : State) (p : name)
    (hrun : updtversion st = some st')
    (hpairs : st.pairs.Nodup) (hp : p ∈ st.pairs)
    (hids : ((st.medians_tables p).map (fun m => m.id)).Nodup) :
    ((∃ m ∈ st.medians_tables p, m.type = .month
        ∧ is_in_time_range st.is_active_current_week_cashe .month m.timestamp
            (get_round_up_current_time st.is_active_current_week_cashe st.now .day) false = true) →
      ∃ b ∈ st.medians_tables p, b.type = .month
        ∧ is_in_time_range st.is_active_current_week_cashe .month b.timestamp
            (get_round_up_current_time st.is_active_current_week_cashe st.now .day) false = true
        ∧ (∀ x ∈ st.medians_tables p, x.type = .month →
            is_in_time_range st.is_active_current_week_cashe .month x.timestamp
              (get_round_up_current_time st.is_active_current_week_cashe st.now .day) false = true →
            b.timestamp < x.timestamp ∨ (b.timestamp = x.timestamp ∧ b.id ≤ x.id))
        ∧ (∃ r, (st'.medians_tables p).find b.id = some r
            ∧ r.value = u64 (b.value + (updtversion_carried st.is_active_current_week_cashe st.now
                (st.medians_tables p)).value)
            ∧ r.request_count = u64 (b.request_count
                + (updtversion_carried st.is_active_current_week_cashe st.now
                    (st.medians_tables p)).request_count)
            ∧ (b.value + (updtversion_carried st.is_active_current_week_cashe st.now
                  (st.medians_tables p)).value < 2 ^ 64 →
                r.value = b.value + (updtversion_carried st.is_active_current_week_cashe st.now
                  (st.medians_tables p)).value)
            ∧ (b.request_count + (updtversion_carried st.is_active_current_week_cashe st.now
                  (st.medians_tables p)).request_count < 2 ^ 64 →
                r.request_count = b.request_count
                  + (updtversion_carried st.is_active_current_week_cashe st.now
                      (st.medians_tables p)).request_count))
        ∧ ∀ x ∈ st.medians_tables p, x.type = .month → x.id ≠ b.id →
            ∃ r, (st'.medians_tables p).find x.id = some r
              ∧ r.value = x.value ∧ r.request_count = x.request_count)
    ∧ ((∀ m ∈ st.medians_tables p, m.type = .month →
          is_in_time_range st.is_active_current_week_cashe .month m.timestamp
            (get_round_up_current_time st.is_active_current_week_cashe st.now .day) false = false) →
        ∀ x ∈ st.medians_tables p, x.type = .month →
          ∃ r, (st'.medians_tables p).find x.id = some r
            ∧ r.value = x.value ∧ r.request_count = x.request_count) := by
  have hr := updtversion_table st st' hrun
  have htab := hr.2.2.1 p hpairs hp
  obtain ⟨created, hc, -⟩ := updtversion_pair_table st p hr.1
  rw [hc] at htab
  have f1 := updtversion_zero_week_frame st.is_active_current_week_cashe st.now _ hids
  have hids1 := frame_nodup f1 hids
  have hmw : ∀ x : medians, x.type = .month → ¬ (x.type = .week) := by
    intro x hx; rw [hx]; decide
  -- reading a row of the folded table through the appended row and the bias removal
  have hread : ∀ (i : Nat) (r : medians),
      (updtversion_fold_month st.is_active_current_week_cashe st.now
        (updtversion_carried st.is_active_current_week_cashe st.now (st.medians_tables p))
        (updtversion_zero_week st.is_active_current_week_cashe st.now (st.medians_tables p))).find i
        = some r →
      (st'.medians_tables p).find i = some (updtversion_erase_bias_row r) := by
    intro i r h
    rw [htab]
    unfold updtversion_erase_bias
    rw [medianstable.find_map _ _ (fun m => (updtversion_erase_bias_row_fields m).1),
      medianstable.find_append_left _ created _ _ h]
    rfl
  refine ⟨?_, ?_⟩
  · rintro ⟨m, hm, hmt, hmr⟩
    have hm1 : m ∈ updtversion_zero_week st.is_active_current_week_cashe st.now
        (st.medians_tables p) := (frame_mem f1 (hmw m hmt)).1 hm
    cases hfind : updtversion_find st.is_active_current_week_cashe st.now .month
        (updtversion_zero_week st.is_active_current_week_cashe st.now (st.medians_tables p)) with
    | none =>
      have := updtversion_find_none hfind m hm1 hmt
      rw [hmr] at this
      cases this
    | some b =>
      have hb := updtversion_find_some hfind
      have hbt : b ∈ st.medians_tables p := (frame_mem f1 (hmw b hb.2.1)).2 hb.1
      refine ⟨b, hbt, hb.2.1, hb.2.2, ?_, ?_, ?_⟩
      · intro x hx hxt hxr
        exact updtversion_find_le hfind x ((frame_mem f1 (hmw x hxt)).1 hx) hxt hxr
      · have h2 : (updtversion_fold_month st.is_active_current_week_cashe st.now
            (updtversion_carried st.is_active_current_week_cashe st.now (st.medians_tables p))
            (updtversion_zero_week st.is_active_current_week_cashe st.now
              (st.medians_tables p))).find b.id
            = some { b with
                value := u64 (b.value + (updtversion_carried st.is_active_current_week_cashe
                  st.now (st.medians_tables p)).value)
                request_count := u64 (b.request_count
                  + (updtversion_carried st.is_active_current_week_cashe st.now
                      (st.medians_tables p)).request_count) } := by
          unfold updtversion_fold_month
          rw [hfind]
          exact medianstable.find_modify_self hids1 hb.1 _ (fun _ => rfl)
        refine ⟨_, hread _ _ h2, ?_, ?_, ?_, ?_⟩
        · rw [(updtversion_erase_bias_row_fields _).2.2.1]
        · rw [(updtversion_erase_bias_row_fields _).2.2.2]
        · intro hlt
          rw [(updtversion_erase_bias_row_fields _).2.2.1]
          exact Nat.mod_eq_of_lt hlt
        · intro hlt
          rw [(updtversion_erase_bias_row_fields _).2.2.2]
          exact Nat.mod_eq_of_lt hlt
      · intro x hx hxt hne
        have hx1 := (frame_mem f1 (hmw x hxt)).1 hx
        have h2 : (updtversion_fold_month st.is_active_current_week_cashe st.now
            (updtversion_carried st.is_active_current_week_cashe st.now (st.medians_tables p))
            (updtversion_zero_week st.is_active_current_week_cashe st.now
              (st.medians_tables p))).find x.id = some x := by
          unfold updtversion_fold_month
          rw [hfind]
          exact medianstable.find_modify_other hids1 hx1 hne _ (fun _ => rfl)
        exact ⟨_, hread _ _ h2, (updtversion_erase_bias_row_fields x).2.2.1,
          (updtversion_erase_bias_row_fields x).2.2.2⟩
  · intro hnone x hx hxt
    have hx1 := (frame_mem f1 (hmw x hxt)).1 hx
    have hfind : updtversion_find st.is_active_current_week_cashe st.now .month
        (updtversion_zero_week st.is_active_current_week_cashe st.now (st.medians_tables p))
        = none := by
      cases hfind : updtversion_find st.is_active_current_week_cashe st.now .month
          (updtversion_zero_week st.is_active_current_week_cashe st.now (st.medians_tables p)) with
      | none => rfl
      | some b =>
        have hb := updtversion_find_some hfind
        have := hnone b ((frame_mem f1 (hmw b hb.2.1)).2 hb.1) hb.2.1
        rw [hb.2.2] at this
        cases this
    have h2 : (updtversion_fold_month st.is_active_current_week_cashe st.now
        (updtversion_carried st.is_active_current_week_cashe st.now (st.medians_tables p))
        (updtversion_zero_week st.is_active_current_week_cashe st.now
          (st.medians_tables p))).find x.id = some x := by
      unfold updtversion_fold_month
      rw [hfind]
      exact medianstable.find_of_mem hids1 hx1
    exact ⟨_, hread _ _ h2, (updtversion_erase_bias_row_fields x).2.2.1,
      (updtversion_erase_bias_row_fields x).2.2.2⟩

/-- Witness of C18: the migration of the legacy example folds the carried week into a month
row of the pair. -/
theorem migration_month_fold_witness :
    ∃ b ∈ example_legacy.medians_tables tlosusd, b.type = .month
      ∧ ∃ r, (example_migrated.medians_tables tlosusd).find b.id = some r
        ∧ r.value = u64 (b.value + (updtversion_carried example_legacy.is_active_current_week_cashe
            example_legacy.now (example_legacy.medians_tables tlosusd)).value) := by
  obtain ⟨b, hb, hbt, -, -, ⟨r, hr, hv, -⟩, -⟩ :=
    (migration_month_fold example_legacy example_migrated tlosusd (by rfl) (by decide)
      (by decide) (by decide)).1 ⟨⟨3, .month, 5000, 50, 1700697600⟩, by decide, by decide, by decide⟩
  exact ⟨b, hb, hbt, r, hr, hv⟩

/-- Claim C19, counterexample: at a clock value in the first day of the epoch the legacy
week start is `1209600`, which is not null and is below the bias `1728000`.  The migration
hands this timestamp to the new `current_week` bucket, and the last loop turns it into
`4294448896`: the subtraction is carried out on `uint32_t` and wraps, so the timestamp is
not reduced by 1728000. -/
theorem updtversion_erase_bias_wraps :
    get_round_up_current_time false 0 .week = 1209600
    ∧ (updtversion_erase_bias_row
        { id := 1, type := .current_week, value := 1000, request_count := 10,
          timestamp := 1209600 }).timestamp = 4294448896
    ∧ (updtversion example_legacy_epoch).map (fun st => st.medians_tables tlosusd)
      = some [ { id := 0, type := .week, value := 0, request_count := 0, timestamp := 0 },
               { id := 1, type := .current_week, value := 1000, request_count := 10,
                 timestamp := 4294448896 } ] := by
  decide

/-- Claim C19, amended: the last loop of `updtversion` is a row-by-row update that keeps the
id, the granularity, the value and the count of every row, keeps a null timestamp null and
subtracts 1728000 from every other timestamp in `uint32_t` arithmetic, which is the exact
difference for a 32-bit timestamp of at least 1728000; and the table that the loop body of
`updtversion` leaves for a pair is the result of this step. -/
theorem updtversion_erase_bias_spec (t : medianstable) :
    updtversion_erase_bias t = List.map updtversion_erase_bias_row t
    ∧ (∀ m : medians,
        (updtversion_erase_bias_row m).id = m.id
        ∧ (updtversion_erase_bias_row m).type = m.type
        ∧ (updtversion_erase_bias_row m).value = m.value
        ∧ (updtversion_erase_bias_row m).request_count = m.request_count
        ∧ (m.timestamp = NULL_TIME_POINT →
            (updtversion_erase_bias_row m).timestamp = NULL_TIME_POINT)
        ∧ (m.timestamp ≠ NULL_TIME_POINT →
            (updtversion_erase_bias_row m).timestamp
              = (m.timestamp % 2 ^ 32 + 2 ^ 32 - 1728000) % 2 ^ 32)
        ∧ (1728000 ≤ m.timestamp → m.timestamp < 2 ^ 32 →
            (updtversion_erase_bias_row m).timestamp = m.timestamp - 1728000))
    ∧ (∀ (st : State) (pair : name), ∃ before : medianstable,
        (updtversion_pair st pair).medians_tables pair = updtversion_erase_bias before) := by
  refine ⟨rfl, fun m => ?_, fun st pair => ?_⟩
  · have hf := updtversion_erase_bias_row_fields m
    refine ⟨hf.1, hf.2.1, hf.2.2.1, hf.2.2.2, ?_, ?_, ?_⟩
    · intro h
      unfold updtversion_erase_bias_row
      rw [if_neg (by simpa using h)]
      exact h
    · intro h
      unfold updtversion_erase_bias_row
      rw [if_pos h]
      simp [time_consts]
    · intro h1 h2
      unfold updtversion_erase_bias_row
      have hne : m.timestamp ≠ NULL_TIME_POINT := by
        unfold NULL_TIME_POINT; omega
      rw [if_pos hne]
      simp only [time_consts]
      omega
  · unfold updtversion_pair
    simp only [Function.update_same]
    exact ⟨_, rfl⟩

/-- Claim C20: under the active scheme a call of `update_medians_by_types` for `week` on a
table that holds a week row returns for every positive recursion bound, the bound 1
included, so no further call is made; the result is the table with the first week row of
the timestamp index overwritten in place by the incoming value, count and timestamp: every
other row is unchanged and no row is created or erased. -/
theorem update_medians_by_types_week_frozen (fuel : Nat) (now : Nat) (t : medianstable)
    (T v c : Nat)
    (hids : (t.map (fun m => m.id)).Nodup)
    (hweek : ∃ m ∈ t, m.type = .week) :
    ∃ first ∈ t, first.type = .week
      ∧ (∀ m ∈ t, m.type = .week →
          first.timestamp < m.timestamp ∨ (first.timestamp = m.timestamp ∧ first.id ≤ m.id))
      ∧ ∃ t', update_medians_by_types (fuel + 1) true now .week t T v c = some t'
        ∧ update_medians_by_types 1 true now .week t T v c = some t'
        ∧ t'.find first.id
            = some { first with value := v, request_count := c, timestamp := T }
        ∧ (∀ m ∈ t, m.id ≠ first.id → t'.find m.id = some m)
        ∧ t'.map (fun m => m.id) = t.map (fun m => m.id)
        ∧ t'.map (fun m => m.type) = t.map (fun m => m.type)
        ∧ GetUpdateMedians true .week = [] := by
  obtain ⟨m0, hm0, hm0g⟩ := hweek
  obtain ⟨first, hfirst⟩ := short_medians_elements_head (List.mem_map.2 ⟨m0, hm0, hm0g⟩)
  have hfm := mem_short_medians_elements.1 (List.mem_of_mem_head? hfirst)
  have hupd : ∀ k, update_medians_by_types (k + 1) true now .week t T v c
      = some (t.modify first.id (fun obj =>
          { obj with value := v, request_count := c, timestamp := T })) := by
    intro k
    rw [update_medians_by_types]
    simp only [hfirst, medianstable.find_of_mem hids hfm.1, and_self, if_true]
  have hfr : frame (fun x => x = .week) t (t.modify first.id (fun obj =>
      { obj with value := v, request_count := c, timestamp := T })) :=
    frame_modify_elem hids (List.mem_of_mem_head? hfirst) (fun m => ⟨rfl, rfl⟩)
  refine ⟨first, hfm.1, hfm.2, fun m hm hmg =>
      pairwise_head_le (short_medians_elements_pairwise .week t) hfirst m
        (mem_short_medians_elements.2 ⟨hm, hmg⟩),
    _, hupd fuel, hupd 0, medianstable.find_modify_self hids hfm.1 _ (fun _ => rfl),
    fun m hm hne => medianstable.find_modify_other hids hm hne _ (fun _ => rfl),
    frame_ids hfr, frame_types hfr, rfl⟩

/-- Witness of C20: a frozen week row next to a month row. -/
theorem update_medians_by_types_week_frozen_witness :
    ∃ t', update_medians_by_types 4 true 1700265700 .week second_rollover_table 1701907200 300 2
        = some t'
      ∧ t'.find 6 = some { id := 6, type := .month, value := 0, request_count := 0, timestamp := 0 }
      ∧ t'.map (fun m => m.id) = second_rollover_table.map (fun m => m.id) := by
  obtain ⟨first, hf, hfg, -, t', h1, -, -, h3, h4, -⟩ :=
    update_medians_by_types_week_frozen 3 1700265700 second_rollover_table 1701907200 300 2
      (by decide) (by decide)
  refine ⟨t', h1, h3 ⟨6, .month, 0, 0, 0⟩ (by decide) ?_, h4⟩
  intro he
  have : first.type = .month :=
    (by decide : ∀ x ∈ second_rollover_table, (⟨6, .month, 0, 0, 0⟩ : medians).id = x.id →
      x.type = .month) first hf he
  rw [hfg] at this
  cases this

/-- Claim C21: with the activation flag off `update_medians` returns the state as it is;
for a pair without any row it returns and leaves the medians table of every pair as it is;
and whenever it returns, every medians table holds the same primary keys and granularities,
row by row, as before: an observation creates no bucket. -/
theorem update_medians_no_lazy_creation (st : State) (owner : name) (value : Nat) (pair : name) :
    (st.is_medians_active = false → update_medians st owner value pair = some st)
    ∧ (st.medians_tables pair = [] →
        ∃ st', update_medians st owner value pair = some st'
          ∧ st'.medians_tables = st.medians_tables)
    ∧ (∀ st', update_medians st owner value pair = some st' →
        ∀ q, (st'.medians_tables q).map (fun m => m.id) = (st.medians_tables q).map (fun m => m.id)
          ∧ (st'.medians_tables q).map (fun m => m.type)
              = (st.medians_tables q).map (fun m => m.type)
          ∧ (st'.medians_tables q).length = (st.medians_tables q).length) := by
  refine ⟨?_, ?_, ?_⟩
  · intro h
    simp [update_medians, h]
  · intro h
    cases hact : st.is_medians_active with
    | false => exact ⟨st, by simp [update_medians, hact], rfl⟩
    | true =>
      exact ⟨{ st with is_active_current_week_cashe := is_active_current_week st },
        by simp [update_medians, hact, h], rfl⟩
  · intro st' h q
    have key : (st'.medians_tables q).map (fun m => m.id)
          = (st.medians_tables q).map (fun m => m.id)
        ∧ (st'.medians_tables q).map (fun m => m.type)
          = (st.medians_tables q).map (fun m => m.type) := by
      unfold update_medians at h
      split at h
      · cases h; exact ⟨rfl, rfl⟩
      · simp only at h
        split at h
        · split at h
          · cases h
          · rename_i t ht
            cases h
            by_cases hq : q = pair
            · subst hq
              simp only [Function.update_same]
              exact update_medians_by_types_rows _ _ _ _ _ _ _ _ _ ht
            · simp only [ne_eq, hq, not_false_eq_true, Function.update_noteq, and_self]
        · cases h; exact ⟨rfl, rfl⟩
    exact ⟨key.1, key.2, by simpa using congrArg List.length key.1⟩

/-- Claim C22: `gmtime` given the null pointer returns the null pointer, and `mktime` given
the null pointer returns 0. -/
theorem ctime_null_reference : gmtime none = none ∧ mktime none = 0 :=
  ⟨rfl, rfl⟩

/-- Claim C23, the code at a failing input: the loop of `gmtime` runs over the month indices
0 to 10 only.  At `1702944000` (day-of-year 352, the 19th day of the twelfth month) no
month is assigned and `tm_mon` and `tm_mday` keep the value 0; the same happens for every
day count `d = tm_yday + 1` from 334 on.  For `d < 334` the walk stops at a month below 11
whose length exceeds the remaining count, and the lengths of the months before it plus the
remaining count give `d`. -/
theorem gmtime_never_assigns_december :
    gmtime (some 1702944000)
      = some { tm_sec := 0, tm_min := 0, tm_hour := 0, tm_mday := 0, tm_mon := 0,
               tm_year := 123, tm_yday := 352 }
    ∧ ((List.range 11).map months).sum + 19 = 352 + 1
    ∧ (∀ d, 334 ≤ d → gmtime_month_loop 11 0 d = (0, 0))
    ∧ (∀ d, d < 334 →
        (gmtime_month_loop 11 0 d).1 < 11
        ∧ (gmtime_month_loop 11 0 d).2 < months (gmtime_month_loop 11 0 d).1
        ∧ ((List.range (gmtime_month_loop 11 0 d).1).map months).sum
            + (gmtime_month_loop 11 0 d).2 = d) :=
  ⟨by decide, by decide, gmtime_month_loop_exhausted, gmtime_month_loop_walk⟩

/-- Claim C24, counterexample: a weekly rollover under the legacy scheme.  The slot that is
overwritten is row 3, the first week row of the timestamp index, which holds value 0 and
count 0; the week before the incoming timestamp is held by row 2 with 1000 over 10 quotes.
The call for Month is made, with the timestamp, value and count of row 2: the result is the
result of that call on the table with row 3 overwritten, and the month row ends with 1000
and 10. -/
theorem rollover_carries_previous_week :
    (short_medians_elements .week second_rollover_table).head?
      = some { id := 3, type := .week, value := 0, request_count := 0, timestamp := 0 }
    ∧ (∀ m ∈ second_rollover_table, m.type = .week →
        is_in_time_range false .week m.timestamp 1701907200 false = false)
    ∧ is_in_time_range false .week 1701302400 1701907200 true = true
    ∧ update_medians_by_types 3 false 1700265700 .week second_rollover_table 1701907200 300 2
      = update_medians_by_types 2 false 1700265700 .month
          [ { id := 2, type := .week, value := 1000, request_count := 10, timestamp := 1701302400 },
            { id := 3, type := .week, value := 300, request_count := 2, timestamp := 1701907200 },
            { id := 6, type := .month, value := 0, request_count := 0, timestamp := 0 } ]
          1701302400 1000 10
    ∧ (update_medians_by_types 3 false 1700265700 .week second_rollover_table 1701907200 300
          2).map (fun t => t.find 6)
      = some (some { id := 6, type := .month, value := 1000, request_count := 10,
                     timestamp := 1700697600 }) := by
  decide

/-- Claim C24, amended: on a rollover of a granularity `g` of the general case, with `u`
the slot that is overwritten (the first row of `g` in the timestamp index), the timestamp,
value and count handed to the calls for the granularities of `GetUpdateMedians(g)` are
those of a row `p` of `g`, read before the overwrite: `p` is the first row of `g` in the
timestamp index whose window contains the incoming timestamp shifted back by one bucket
duration when there is such a row, and `p` is `u` when there is none, in particular when `u`
is the only row of `g`.  The calls are made exactly when the value and the count of `p` are
both different from 0. -/
theorem rollover_carried_totals (fuel : Nat) (active : Bool) (now : Nat) (g : median_types)
    (t : medianstable) (T v c : Nat)
    (hgen : ¬ (g = .week ∧ active = true))
    (hids : (t.map (fun m => m.id)).Nodup)
    (hrow : g ∈ t.map (fun m => m.type))
    (hroll : ∀ m ∈ t, m.type = g → is_in_time_range active g m.timestamp T false = false) :
    ∃ u ∈ t, u.type = g
      ∧ (∀ m ∈ t, m.type = g →
          u.timestamp < m.timestamp ∨ (u.timestamp = m.timestamp ∧ u.id ≤ m.id))
      ∧ ∃ p ∈ t, p.type = g
        ∧ ((∀ m ∈ t, m.type = g → is_in_time_range active g m.timestamp T true = false) → p = u)
        ∧ ((∃ m ∈ t, m.type = g ∧ is_in_time_range active g m.timestamp T true = true) →
            is_in_time_range active g p.timestamp T true = true
            ∧ ∀ m ∈ t, m.type = g → is_in_time_range active g m.timestamp T true = true →
                p.timestamp < m.timestamp ∨ (p.timestamp = m.timestamp ∧ p.id ≤ m.id))
        ∧ ((∀ m ∈ t, m.type = g → m = u) → p = u)
        ∧ update_medians_by_types (fuel + 1) active now g t T v c
          = if p.value ≠ 0 ∧ p.request_count ≠ 0 then
              List.foldlM (fun tbl ty =>
                  update_medians_by_types fuel active now ty tbl p.timestamp p.value
                    p.request_count)
                (t.modify u.id (fun obj =>
                  { obj with value := v, request_count := c,
                             timestamp := get_round_up_current_time active now g }))
                (GetUpdateMedians active g)
            else some (t.modify u.id (fun obj =>
                  { obj with value := v, request_count := c,
                             timestamp := get_round_up_current_time active now g })) := by
  obtain ⟨u, hu⟩ := short_medians_elements_head hrow
  have hum := mem_short_medians_elements.1 (List.mem_of_mem_head? hu)
  have hmin : ∀ m ∈ t, m.type = g →
      u.timestamp < m.timestamp ∨ (u.timestamp = m.timestamp ∧ u.id ≤ m.id) := fun m hm hmg =>
    pairwise_head_le (short_medians_elements_pairwise g t) hu m
      (mem_short_medians_elements.2 ⟨hm, hmg⟩)
  have hnone : (short_medians_elements g t).find?
      (fun e => is_in_time_range active g e.timestamp T false) = none := by
    rw [List.find?_eq_none]
    intro x hx
    have hx' := mem_short_medians_elements.1 hx
    simp [hroll x hx'.1 hx'.2]
  refine ⟨u, hum.1, hum.2, hmin, ?_⟩
  cases hprev : (short_medians_elements g t).find?
      (fun e => is_in_time_range active g e.timestamp T true) with
  | none =>
    have hno : ∀ m ∈ t, m.type = g → is_in_time_range active g m.timestamp T true = false := by
      intro m hm hmg
      rw [List.find?_eq_none] at hprev
      simpa using hprev m (mem_short_medians_elements.2 ⟨hm, hmg⟩)
    refine ⟨u, hum.1, hum.2, fun _ => rfl, ?_, fun _ => rfl, ?_⟩
    · rintro ⟨m, hm, hmg, hmr⟩
      rw [hno m hm hmg] at hmr
      cases hmr
    · rw [update_medians_by_types]
      simp only [hnone, hprev, if_neg hgen, hu, medianstable.find_of_mem hids hum.1]
  | some p =>
    have hpm := mem_short_medians_elements.1 (List.mem_of_find?_eq_some hprev)
    have hpr : is_in_time_range active g p.timestamp T true = true :=
      @List.find?_some medians (fun e => is_in_time_range active g e.timestamp T true) _ _ hprev
    refine ⟨p, hpm.1, hpm.2, ?_, ?_, fun h => h p hpm.1 hpm.2, ?_⟩
    · intro hno
      rw [hno p hpm.1 hpm.2] at hpr
      cases hpr
    · intro _
      exact ⟨hpr, fun m hm hmg hmr =>
        pairwise_find_le (short_medians_elements_pairwise g t) hprev m
          (mem_short_medians_elements.2 ⟨hm, hmg⟩) hmr⟩
    · rw [update_medians_by_types]
      simp only [hnone, hprev, if_neg hgen, hu, medianstable.find_of_mem hids hum.1,
        medianstable.find_of_mem hids hpm.1]

/-- Witness of C24: the weekly rollover of the legacy scheme carries the week held by row 2
into the call for Month. -/
theorem rollover_carried_totals_witness :
    ∃ u ∈ second_rollover_table, ∃ p ∈ second_rollover_table,
      is_in_time_range false .week p.timestamp 1701907200 true = true
      ∧ update_medians_by_types 3 false 1700265700 .week second_rollover_table 1701907200 300 2
        = if p.value ≠ 0 ∧ p.request_count ≠ 0 then
            List.foldlM (fun tbl ty =>
                update_medians_by_types 2 false 1700265700 ty tbl p.timestamp p.value
                  p.request_count)
              (second_rollover_table.modify u.id (fun obj =>
                { obj with value := 300, request_count := 2,
                           timestamp := get_round_up_current_time false 1700265700 .week }))
              (GetUpdateMedians false .week)
          else some (second_rollover_table.modify u.id (fun obj =>
                { obj with value := 300, request_count := 2,
                           timestamp := get_round_up_current_time false 1700265700 .week })) := by
  obtain ⟨u, hu, -, -, p, hp, -, -, h2, -, h3⟩ :=
    rollover_carried_totals 2 false 1700265700 .week second_rollover_table 1701907200 300 2
      (by decide) (by decide) (by decide) (by decide)
  exact ⟨u, hu, p, hp, (h2 ⟨⟨2, .week, 1000, 10, 1701302400⟩, by decide, by decide,
    by decide⟩).1, h3⟩

/-- Claim C25: under either scheme every granularity of `GetUpdateMedians(g)` lies strictly
below `g` in a rank that is at most 3, so the feed graph has no cycle and a chain of calls
has at most 3 links; the calls of one cascade that starts at Day are the same for every
depth from 3 on (Day, CurrentWeek, LegacyWeek, Month under the active scheme and Day,
LegacyWeek, Month under the legacy scheme) and visit no granularity twice; the result of `update_medians_by_types`
for Day is the same for every recursion bound from 3 on, so the recursion never reaches a
fourth level; and a call that returns keeps the primary keys of the table and changes at
most one row of each granularity, also when it is made by `update_medians`. -/
theorem cascade_terminates (active : Bool) :
    (∀ g g', g' ∈ GetUpdateMedians active g → height active g' < height active g)
    ∧ (∀ g, height active g ≤ 3)
    ∧ (∀ depth, 3 ≤ depth → cascade_calls depth active .day = cascade_calls 3 active .day)
    ∧ cascade_calls 3 active .day
        = (if active then [.day, .current_week, .week, .month] else [.day, .week, .month])
    ∧ (cascade_calls 3 active .day).Nodup
    ∧ (cascade_calls 3 active .day).length ≤ 4
    ∧ (∀ (fuel now : Nat) (t : medianstable) (T v c : Nat), 3 ≤ fuel →
        update_medians_by_types fuel active now .day t T v c
          = update_medians_by_types 3 active now .day t T v c)
    ∧ (∀ (fuel now : Nat) (t : medianstable) (T v c : Nat) (t' : medianstable),
        (t.map (fun m => m.id)).Nodup →
        update_medians_by_types fuel active now .day t T v c = some t' →
        t'.map (fun m => m.id) = t.map (fun m => m.id)
        ∧ ∀ x, ∃ i, ∀ m ∈ t, m.type = x → m.id ≠ i → t'.find m.id = some m)
    ∧ (∀ (st st' : State) (owner : name) (value : Nat) (pair : name),
        ((st.medians_tables pair).map (fun m => m.id)).Nodup →
        update_medians st owner value pair = some st' →
        ∀ x, ∃ i, ∀ m ∈ st.medians_tables pair, m.type = x → m.id ≠ i →
          (st'.medians_tables pair).find m.id = some m) := by
  have hsingle : ∀ (fuel now : Nat) (t : medianstable) (T v c : Nat) (t' : medianstable),
      (t.map (fun m => m.id)).Nodup →
      update_medians_by_types fuel active now .day t T v c = some t' →
      t'.map (fun m => m.id) = t.map (fun m => m.id)
      ∧ ∀ x, ∃ i, ∀ m ∈ t, m.type = x → m.id ≠ i → t'.find m.id = some m := by
    intro fuel now t T v c t' hids h
    have hrows := update_medians_by_types_rows fuel active now .day t T v c t' h
    have hids' : (t'.map (fun m => m.id)).Nodup := by rw [hrows.1]; exact hids
    refine ⟨hrows.1, fun x => ?_⟩
    obtain ⟨i, hi⟩ := update_medians_by_types_single fuel active now .day t T v c t' hids h x
    exact ⟨i, fun m hm hmx hne => medianstable.find_of_mem hids' (hi m hm hmx hne)⟩
  refine ⟨height_step active, height_le_three active, ?_, ?_, ?_, ?_, ?_, hsingle, ?_⟩
  · intro depth hd
    obtain ⟨n, rfl⟩ : ∃ n, depth = n + 3 := ⟨depth - 3, by omega⟩
    cases active <;> simp [cascade_calls, GetUpdateMedians]
  · cases active <;> rfl
  · cases active <;> decide
  · cases active <;> decide
  · intro fuel now t T v c hf
    exact update_medians_by_types_fuel fuel 3 active now .day t T v c
      (by have := height_le_three active .day; omega) (height_le_three active .day)
  · intro st st' owner value pair hids h x
    unfold update_medians at h
    split at h
    · cases h
      exact ⟨0, fun m hm _ _ => medianstable.find_of_mem hids hm⟩
    · simp only at h
      split at h
      · split at h
        · cases h
        · rename_i t ht
          cases h
          simp only [Function.update_same]
          have hrows := update_medians_by_types_rows _ _ _ _ _ _ _ _ _ ht
          have hids' : (t.map (fun m => m.id)).Nodup := by rw [hrows.1]; exact hids
          obtain ⟨i, hi⟩ := update_medians_by_types_single _ _ _ _ _ _ _ _ _ hids ht x
          exact ⟨i, fun m hm hmx hne => medianstable.find_of_mem hids' (hi m hm hmx hne)⟩
      · cases h
        exact ⟨0, fun m hm _ _ => medianstable.find_of_mem hids hm⟩

/-- Claim C26, counterexample: three calls of `update_daily_datapoints` from the empty
table, with the Day bucket stamped `1728000`, then `1814400`, then `1728000` again.  At the
third call the latest entry carries `1814400`, so a new entry is appended, and two entries
carry the timestamp `1728000`. -/
theorem daily_ring_duplicate_day :
    example_empty.dailydatapoints_tables tlosusd = []
    ∧ (((update_daily_datapoints (with_day_bucket 1728000 example_empty) tlosusd).bind
          (fun s => update_daily_datapoints (with_day_bucket 1814400 s) tlosusd)).bind
          (fun s => update_daily_datapoints (with_day_bucket 1728000 s) tlosusd)).map
        (fun s => s.dailydatapoints_tables tlosusd)
      = some [ { id := 0, value := 100, timestamp := 1728000 },
               { id := 1, value := 100, timestamp := 1814400 },
               { id := 2, value := 100, timestamp := 1728000 } ] := by
  decide

/-- Claim C26, amended: a daily datapoints table reached from the empty table by calls of
`update_daily_datapoints` in which the incoming timestamp is not earlier than any stored
timestamp has distinct primary keys and distinct timestamps.  In such a table, when the
entry with the latest timestamp carries the incoming timestamp, the call returns with the
value of that entry overwritten: the table keeps its length, its primary keys and its
timestamps, and every other entry is unchanged. -/
theorem daily_ring_unique (instrument : name) (ring : List dailydatapoints)
    (h : daily_ring_reachable instrument ring) :
    (ring.map (fun d => d.id)).Nodup
    ∧ (ring.map (fun d => d.timestamp)).Nodup
    ∧ ∀ (st : State) (ts v : Nat) (last : dailydatapoints),
        st.dailydatapoints_tables instrument = ring →
        get_daily_median st instrument = some (some (ts, v)) →
        (daily_timestamp_index ring).getLast? = some last →
        last.timestamp = ts →
        ∃ st', update_daily_datapoints st instrument = some st'
          ∧ st'.dailydatapoints_tables instrument
              = daily_modify ring last.id (fun datapoint => { datapoint with value := v })
          ∧ (st'.dailydatapoints_tables instrument).length = ring.length
          ∧ (st'.dailydatapoints_tables instrument).map (fun d => d.id)
              = ring.map (fun d => d.id)
          ∧ (st'.dailydatapoints_tables instrument).map (fun d => d.timestamp)
              = ring.map (fun d => d.timestamp)
          ∧ ∀ d ∈ ring, d.id ≠ last.id → d ∈ st'.dailydatapoints_tables instrument := by
  have hinv : (ring.map (fun d => d.id)).Nodup ∧ (ring.map (fun d => d.timestamp)).Nodup := by
    induction h with
    | empty => exact ⟨List.nodup_nil, List.nodup_nil⟩
    | step st st' ts v _ hmed hmono hstep ih =>
      rcases update_daily_datapoints_ring st st' instrument ts v hmed hstep with
        ⟨last, -, -, heq⟩ | ⟨hne, ⟨first, -, heq⟩ | heq⟩
      · rw [heq,
          daily_modify_ids (st.dailydatapoints_tables instrument) last.id
            (fun datapoint => { datapoint with value := v }) (fun _ => rfl),
          daily_modify_timestamps (st.dailydatapoints_tables instrument) last.id
            (fun datapoint => { datapoint with value := v }) (fun _ => rfl)]
        exact ih
      · have hfresh := daily_ring_fresh _ ts hmono hne
        rw [heq,
          daily_modify_ids (st.dailydatapoints_tables instrument) first.id
            (fun datapoint => { datapoint with value := v, timestamp := ts }) (fun _ => rfl)]
        exact ⟨ih.1, daily_modify_nodup ts
          (fun datapoint => { datapoint with value := v, timestamp := ts }) (fun _ => rfl) _ _
          ih.1 ih.2 (fun d hd => Nat.ne_of_lt (hfresh d hd))⟩
      · have hfresh := daily_ring_fresh _ ts hmono hne
        have hkey := daily_available_primary_key_gt (st.dailydatapoints_tables instrument)
        rw [heq, List.map_append, List.map_append]
        constructor
        · refine List.Nodup.append ih.1 (List.nodup_singleton _) ?_
          intro x hx1 hx2
          obtain ⟨d, hd, rfl⟩ := List.mem_map.1 hx1
          simp only [List.map_cons, List.map_nil, List.mem_singleton] at hx2
          have := hkey d hd
          omega
        · refine List.Nodup.append ih.2 (List.nodup_singleton _) ?_
          intro x hx1 hx2
          obtain ⟨d, hd, rfl⟩ := List.mem_map.1 hx1
          simp only [List.map_cons, List.map_nil, List.mem_singleton] at hx2
          have := hfresh d hd
          omega
  refine ⟨hinv.1, hinv.2, ?_⟩
  intro st ts v last hring hmed hlast hts
  have hrun : update_daily_datapoints st instrument
      = some { st with dailydatapoints_tables :=
          (Function.update st.dailydatapoints_tables instrument
            (daily_modify (st.dailydatapoints_tables instrument) last.id
              (fun datapoint => { datapoint with value := v }))) } := by
    unfold update_daily_datapoints
    rw [hmed]
    simp only [hring, hlast, hts, if_true]
  refine ⟨_, hrun, ?_, ?_, ?_, ?_, ?_⟩
  · simp only [Function.update_same, hring]
  · simp only [Function.update_same, hring]
    simp [daily_modify]
  · simp only [Function.update_same, hring]
    exact daily_modify_ids ring last.id (fun datapoint => { datapoint with value := v })
      (fun _ => rfl)
  · simp only [Function.update_same, hring]
    exact daily_modify_timestamps ring last.id (fun datapoint => { datapoint with value := v })
      (fun _ => rfl)
  · intro d hd hne
    simp only [Function.update_same, hring]
    unfold daily_modify
    exact List.mem_map.2 ⟨d, hd, by simp [hne]⟩

/-- Witness of C26: the table with two entries reached by two daily rollups on consecutive
days, the second incoming timestamp being later than the stored one, has distinct
timestamps; and a third rollup on the second day, with the Day bucket now at 900 over 3
quotes, overwrites the value of the latest entry and nothing else. -/
theorem daily_ring_unique_witness :
    daily_ring_after_two.dailydatapoints_tables tlosusd
      = [ { id := 0, value := 100, timestamp := 1728000 },
          { id := 1, value := 100, timestamp := 1814400 } ]
    ∧ ((daily_ring_after_two.dailydatapoints_tables tlosusd).map (fun d => d.timestamp)).Nodup
    ∧ ∃ st', update_daily_datapoints (with_day_bucket_holding 1814400 900 3 daily_ring_after_two)
          tlosusd = some st'
        ∧ st'.dailydatapoints_tables tlosusd
          = [ { id := 0, value := 100, timestamp := 1728000 },
              { id := 1, value := 300, timestamp := 1814400 } ] :=
  have h := daily_ring_unique tlosusd (daily_ring_after_two.dailydatapoints_tables tlosusd)
    (daily_ring_reachable.step (with_day_bucket 1814400 daily_ring_after_one) daily_ring_after_two
      1814400 100
      (daily_ring_reachable.step (with_day_bucket 1728000 example_empty) daily_ring_after_one
        1728000 100 daily_ring_reachable.empty (by decide) (by decide) (by rfl))
      (by decide) (by decide) (by rfl))
  have h3 := h.2.2 (with_day_bucket_holding 1814400 900 3 daily_ring_after_two) 1814400 300
    { id := 1, value := 100, timestamp := 1814400 } rfl (by decide) (by decide) rfl
  ⟨by decide, h.2.1, h3.choose, h3.choose_spec.1, h3.choose_spec.2.1.trans (by decide)⟩

/-- Claim C27, counterexample: at the clock value `1700000000` the week start under the
inactive scheme is `1701302400`; minus the bias this is `1699574400`, one day after the week
start `1699488000` under the active scheme. -/
theorem get_round_up_current_time_week_bias :
    get_round_up_current_time false 1700000000 .week = 1701302400
    ∧ get_round_up_current_time false 1700000000 .current_week = 1701302400
    ∧ get_round_up_current_time true 1700000000 .week = 1699488000
    ∧ get_round_up_current_time true 1700000000 .current_week = 1699488000
    ∧ 1701302400 - 1728000 = 1699488000 + 86400 := by
  decide

/-- Claim C27, amended: for a clock value with `now + 1728000 < 2 ^ 32`, the Day bucket
start under the inactive scheme minus the bias 1728000 is the Day bucket start under the
active scheme.  For `current_week` and `week` the two never agree, 1728000 not being a
multiple of 604800: the start under the inactive scheme minus the bias is 518400 seconds
before the start under the active scheme in the first day of a week and 86400 seconds after
it in the other six. -/
theorem get_round_up_current_time_debias (now : Nat) (hnow : now + 1728000 < 2 ^ 32) :
    get_round_up_current_time false now .day - 1728000 = get_round_up_current_time true now .day
    ∧ 1728000 ≤ get_round_up_current_time false now .day
    ∧ ∀ g, g = .current_week ∨ g = .week →
        (now % 604800 < 86400 →
          get_round_up_current_time false now g + 518400
            = get_round_up_current_time true now g + 1728000)
        ∧ (86400 ≤ now % 604800 →
          get_round_up_current_time false now g
            = get_round_up_current_time true now g + 1728000 + 86400)
        ∧ get_round_up_current_time false now g
            ≠ get_round_up_current_time true now g + 1728000 := by
  have hf : ∀ g, g ≠ .month → get_round_up_current_time false now g
      = (now + 1728000) - (now + 1728000) % time_consts g := fun g hg => by
    simpa using get_round_up_current_time_fixed false now g (Or.inl hg) (by simpa using hnow)
  have ht : ∀ g, g ≠ .month → get_round_up_current_time true now g
      = now - now % time_consts g := fun g hg => by
    simpa using get_round_up_current_time_fixed true now g (Or.inl hg)
      (by simp only [if_true]; omega)
  refine ⟨?_, ?_, ?_⟩
  · rw [hf .day (by decide), ht .day (by decide)]
    simp only [time_consts]
    omega
  · rw [hf .day (by decide)]
    simp only [time_consts]
    omega
  · intro g hg
    have hgm : g ≠ .month := by rcases hg with rfl | rfl <;> decide
    have htc : time_consts g = 604800 := by rcases hg with rfl | rfl <;> rfl
    rw [hf g hgm, ht g hgm, htc]
    omega

/-- Witness of C27: the Day bucket start at the clock value `1700000000`. -/
theorem get_round_up_current_time_debias_witness :
    get_round_up_current_time false 1700000000 .day - 1728000
      = get_round_up_current_time true 1700000000 .day :=
  (get_round_up_current_time_debias 1700000000 (by decide)).1

/-- Claim C28: for every clock value below `2 ^ 31`, either scheme and every granularity
`g`, the bucket start `get_round_up_current_time(g)` and the Day bucket start
`get_round_up_current_time(day)` of the same clock value satisfy `is_in_time_range`: a
bucket stamped by a rollover is found by the next observation of the same day.  For Month
under the active scheme both sides go through `gmtime` and `mktime`. -/
theorem fresh_bucket_is_open (active : Bool) (now : Nat) (g : median_types)
    (hnow : now < 2 ^ 31) :
    is_in_time_range active g (get_round_up_current_time active now g)
      (get_round_up_current_time active now .day) false = true := by
  have h31 : (2 : Nat) ^ 31 = 2147483648 := by norm_num
  have h32 : (2 : Nat) ^ 32 = 4294967296 := by norm_num
  by_cases hcase : g ≠ .month ∨ active = false
  · have hn : (if active then now else now + 1728000) < 2 ^ 32 := by
      rw [h31] at hnow; rw [h32]; split <;> omega
    rw [get_round_up_current_time_fixed active now g hcase hn,
      get_round_up_current_time_fixed active now .day (Or.inl (by decide)) hn]
    generalize (if active then now else now + 1728000) = n
    cases g <;> cases active <;> simp [is_in_time_range, time_consts] at hcase ⊢ <;> omega
  · have hg : g = .month := by
      by_contra h; exact hcase (Or.inl h)
    have ha : active = true := by
      cases active
      · exact absurd (Or.inr rfl) hcase
      · rfl
    subst hg; subst ha
    obtain ⟨b, c, hb, hc, hy, hm, hd⟩ := month_start_fields now hnow
    simp only [is_in_time_range, if_true, hb, hc, hy, hm, hd]
    simp

/-- Witness of C28: the Month bucket of the clock value `1700000000` under the active
scheme. -/
theorem fresh_bucket_is_open_witness :
    is_in_time_range true .month (get_round_up_current_time true 1700000000 .month)
      (get_round_up_current_time true 1700000000 .day) false = true :=
  fresh_bucket_is_open true 1700000000 .month (by decide)

/-- Claim C29: for a pair that holds at least one row of every granularity (and distinct
primary keys), `update_medians` returns: no `begin()` of an empty `short_medians_elements` is
dereferenced and every `find` on such an id succeeds, in the call for Day and in every
recursive call.  The same holds for a call of `update_medians_by_types` for any
granularity, with any recursion bound that covers the length of the cascade.  The table
that is left has the same primary keys and granularities, so it again holds a row of every
granularity. -/
theorem update_medians_lookup_safe (st : State) (owner : name) (value : Nat) (pair : name)
    (hids : ((st.medians_tables pair).map (fun m => m.id)).Nodup)
    (hall : ∀ g, g ∈ (st.medians_tables pair).map (fun m => m.type)) :
    (∃ st', update_medians st owner value pair = some st'
        ∧ (∀ g, g ∈ (st'.medians_tables pair).map (fun m => m.type))
        ∧ ((st'.medians_tables pair).map (fun m => m.id)).Nodup)
    ∧ (∀ (fuel : Nat) (active : Bool) (now : Nat) (g : median_types) (T v c : Nat),
        height active g ≤ fuel →
        ∃ t', update_medians_by_types fuel active now g (st.medians_tables pair) T v c = some t'
          ∧ (∀ x, x ∈ t'.map (fun m => m.type))
          ∧ (t'.map (fun m => m.id)).Nodup) := by
  have hcall : ∀ (fuel : Nat) (active : Bool) (now : Nat) (g : median_types) (T v c : Nat),
      height active g ≤ fuel →
      ∃ t', update_medians_by_types fuel active now g (st.medians_tables pair) T v c = some t'
        ∧ (∀ x, x ∈ t'.map (fun m => m.type))
        ∧ (t'.map (fun m => m.id)).Nodup := by
    intro fuel active now g T v c hh
    obtain ⟨t', ht'⟩ := update_medians_by_types_some fuel active now g (st.medians_tables pair)
      T v c hh hids (fun x _ => hall x)
    have hrows := update_medians_by_types_rows fuel active now g _ T v c t' ht'
    exact ⟨t', ht', fun x => by rw [hrows.2]; exact hall x, by rw [hrows.1]; exact hids⟩
  refine ⟨?_, hcall⟩
  cases hact : st.is_medians_active with
  | false => exact ⟨st, by simp [update_medians, hact], hall, hids⟩
  | true =>
    have hlen : (st.medians_tables pair).length > 0 :=
      List.length_pos_of_mem (List.mem_map.1 (hall .day)).choose_spec.1
    obtain ⟨t', ht', htypes, hids'⟩ := hcall 4 (is_active_current_week st) st.now .day
      (get_round_up_current_time (is_active_current_week st) st.now .day) value 1
      (Nat.le_succ_of_le (height_le_three _ _))
    refine ⟨{ st with
        is_active_current_week_cashe := is_active_current_week st
        medians_tables := Function.update st.medians_tables pair t' }, ?_, ?_, ?_⟩
    · simp only [update_medians, hact, hlen, ht']
      simp
    · simpa only [Function.update_same] using htypes
    · simpa only [Function.update_same] using hids'

/-- Witness of C29: an observation for a freshly provisioned pair. -/
theorem update_medians_lookup_safe_witness :
    (update_medians (provision_medians example_empty tlosusd 0) 0 100 tlosusd).isSome = true := by
  obtain ⟨st', h, -⟩ := (update_medians_lookup_safe (provision_medians example_empty tlosusd 0)
    0 100 tlosusd (by decide) (by intro g; cases g <;> decide)).1
  rw [h]
  rfl

/-- Claim C30, counterexample: a `write` with quotes for the two pairs of the pairs table,
both active, at the clock value `2147483000`, with `last_daily_average_run` 0 and
`daily_average_timeout` 3600.  The rollup runs for the first quote and sets the timer to the
clock value; for the second quote the sum of the timer and the cooldown no longer fits an
`int32_t`, the comparison holds again, and the rollup runs for the second pair as well: both
pairs get their four averages. -/
theorem write_rollup_twice :
    (0 : Int) ≤ example_timer_wrap.daily_average_timeout
    ∧ write_pair_allowed example_timer_wrap { value := 100, pair := tlosusd } = true
    ∧ write_pair_allowed example_timer_wrap { value := 200, pair := tloseos } = true
    ∧ example_timer_wrap.averages_tables tlosusd = []
    ∧ example_timer_wrap.averages_tables tloseos = []
    ∧ (write example_timer_wrap 0
          [{ value := 100, pair := tlosusd }, { value := 200, pair := tloseos }]).map
        (fun s => ((s.averages_tables tlosusd).length, (s.averages_tables tloseos).length,
          s.last_daily_average_run))
      = some (4, 4, 2147483000) := by
  decide

/-- Claim C30, amended: for a cooldown of at least 0 such that the clock value, read as an
`int32_t`, plus the cooldown stays below `2 ^ 31`, a `write` runs the daily rollup and the
update of the averages for the first quote at most: for every later quote of the call the
loop body is the loop body without its last block, that is the check of the pair and the
call of `update_medians`.  When the timer already forbids the rollup at the start of the
call, it runs for no quote. -/
theorem write_rollup_once (st : State) (owner : name) (q : quote) (rest : List quote)
    (htimeout : 0 ≤ st.daily_average_timeout)
    (hrange : to_int32 st.now + st.daily_average_timeout < 2 ^ 31) :
    write st owner (q :: rest)
      = (write_quote st owner q).bind (fun st1 =>
          List.foldlM (fun s q' => write_quote_medians s owner q') st1 rest)
    ∧ (¬ (to_int32 st.now
          > int32_of_int (st.last_daily_average_run + st.daily_average_timeout)) →
        write st owner (q :: rest)
          = List.foldlM (fun s q' => write_quote_medians s owner q') st (q :: rest)) := by
  have hw : write st owner (q :: rest)
      = List.foldlM (fun s q' => write_quote s owner q') st (q :: rest) := by
    unfold write
    simp
  refine ⟨?_, ?_⟩
  · rw [hw, List.foldlM_cons]
    cases h : write_quote st owner q with
    | none => rfl
    | some st1 =>
      exact write_loop_skips owner rest st1 (write_quote_closes st st1 owner q htimeout hrange h)
  · intro hskip
    rw [hw]
    exact write_loop_skips owner (q :: rest) st hskip

/-- Witness of C30: a `write` with quotes for two provisioned pairs.  The call returns; the
rollup runs for the first quote, so `tlosusd` gets a daily point and its four averages and
the timer is set to the clock value; for the second quote only the medians are updated:
the Day bucket of `tloseos` holds the quote, and the pair has no daily point and no
average. -/
theorem write_rollup_once_witness :
    write example_two_pairs 0 [{ value := 100, pair := tlosusd }, { value := 200, pair := tloseos }]
      = (write_quote example_two_pairs 0 { value := 100, pair := tlosusd }).bind (fun st1 =>
          List.foldlM (fun (s : State) (q' : quote) => write_quote_medians s 0 q') st1
            [({ value := 200, pair := tloseos } : quote)])
    ∧ (write example_two_pairs 0
          [{ value := 100, pair := tlosusd }, { value := 200, pair := tloseos }]).map
        (fun s => s.dailydatapoints_tables tlosusd)
      = some [{ id := 0, value := 100, timestamp := 1699920000 }]
    ∧ (write example_two_pairs 0
          [{ value := 100, pair := tlosusd }, { value := 200, pair := tloseos }]).map
        (fun s => ((s.averages_tables tlosusd).length, s.last_daily_average_run))
      = some (4, 1700000000)
    ∧ (write example_two_pairs 0
          [{ value := 100, pair := tlosusd }, { value := 200, pair := tloseos }]).map
        (fun s => (s.medians_tables tloseos).find 0)
      = some (some { id := 0, type := .day, value := 200, request_count := 1,
                     timestamp := 1699920000 })
    ∧ (write example_two_pairs 0
          [{ value := 100, pair := tlosusd }, { value := 200, pair := tloseos }]).map
        (fun s => s.dailydatapoints_tables tloseos)
      = some []
    ∧ (write example_two_pairs 0
          [{ value := 100, pair := tlosusd }, { value := 200, pair := tloseos }]).map
        (fun s => s.averages_tables tloseos)
      = some [] :=
  ⟨(write_rollup_once example_two_pairs 0 { value := 100, pair := tlosusd }
      [{ value := 200, pair := tloseos }] (by decide) (by decide)).1,
    by decide, by decide, by decide, by decide, by decide⟩

end delphioracle
